import Mathlib

/-!
Shallow embedding of the Goquant matching engine
(`src/matching_engine/core/engine.py`, `core/order_book.py`, `core/models.py`,
`persistence/snapshot.py`, `utils/fees.py`) and proofs about its claimed
properties.

Modelling conventions:
* Python `Decimal` is modelled by `ℚ` (exact arithmetic; the engine never uses
  binary floats).  `Decimal.quantize(Decimal("0.00000001"))` uses the default
  `ROUND_HALF_EVEN` context rounding; it is modelled by `quantize8` below.
* `datetime` timestamps are modelled by `Nat`; ISO round-tripping is lossless,
  so (de)serialisation of a timestamp is the identity.
* `sortedcontainers.SortedDict` keyed by price is modelled by a list of price
  levels kept sorted (bids descending, asks ascending), best price first.
* Python dicts (`order_books`, `stop_orders`, `order_index`) preserve insertion
  order and are modelled by association lists with insert-or-overwrite update.
* `order_index` stores `(order, side)` where `order` is an alias of the object
  resting in a price-level queue; the engine only ever reads the `side` and
  `price` fields of the indexed order, so the model stores `(side, price)`.
* Publishers, logging and the wall-clock snapshot timer have no effect on the
  engine state reasoned about here and are not modelled; `message` strings on
  results are likewise not modelled.
-/

set_option maxHeartbeats 1000000

attribute [local semireducible] Rat.add Rat.sub Rat.mul Rat.inv Rat.ofScientific

namespace Goquant


/-- Order type enumeration (`models.OrderType`). -/
inductive OrderType where
  | market
  | limit
  | ioc
  | fok
  | stop_loss
  | stop_limit
  | take_profit
deriving DecidableEq, Repr

/-- Order side enumeration (`models.Side`). -/
inductive Side where
  | buy
  | sell
deriving DecidableEq, Repr

/-- Order status enumeration (`models.OrderStatus`); the Python member
`PARTIAL` is rendered `partialFilled` here. -/
inductive OrderStatus where
  | new
  | partialFilled
  | filled
  | cancelled
  | rejected
deriving DecidableEq, Repr

/-- Trading order (`models.Order`). -/
structure Order where
  order_id : String
  symbol : String
  order_type : OrderType
  side : Side
  quantity : ℚ
  price : Option ℚ
  timestamp : Nat
  remaining_quantity : ℚ
  status : OrderStatus
  stop_price : Option ℚ
  is_triggered : Bool
deriving DecidableEq, Repr

/-- Executed trade (`models.Trade`); the wall-clock `timestamp` field is not
modelled. -/
structure Trade where
  trade_id : String
  symbol : String
  price : ℚ
  quantity : ℚ
  maker_order_id : String
  taker_order_id : String
  aggressor_side : Side
  maker_fee : ℚ
  taker_fee : ℚ
  maker_fee_rate : ℚ
  taker_fee_rate : ℚ
deriving DecidableEq, Repr

/-- Result of order processing (`models.OrderResult`); the `timestamp` and
`message` fields are not modelled. -/
structure OrderResult where
  order_id : String
  status : String
  trades : List Trade
  remaining_quantity : ℚ
deriving DecidableEq, Repr

/-- `Order.is_filled` (`models.py`). -/
def Order.isFilled (o : Order) : Bool :=
  o.remaining_quantity == 0

/-- `Order.can_rest_on_book` (`models.py`). -/
def Order.canRestOnBook (o : Order) : Bool :=
  o.order_type == OrderType.limit

/-- `Order.update_status` (`models.py`): set `filled` at zero remaining,
`partial` when strictly between 0 and the full quantity, else unchanged. -/
def Order.updateStatus (o : Order) : Order :=
  if o.remaining_quantity = 0 then { o with status := OrderStatus.filled }
  else if o.remaining_quantity < o.quantity then { o with status := OrderStatus.partialFilled }
  else o

/-- Price level with FIFO order queue (`order_book.PriceLevel`). -/
structure PriceLevel where
  price : ℚ
  orders : List Order
  total_quantity : ℚ
deriving DecidableEq, Repr

/-- `PriceLevel.add_order`: append to the FIFO tail and grow the aggregate. -/
def PriceLevel.addOrder (level : PriceLevel) (order : Order) : PriceLevel :=
  { level with
      orders := level.orders ++ [order]
      total_quantity := level.total_quantity + order.remaining_quantity }

/-- `PriceLevel.remove_order`: the source removes the aliased order object from
the deque and subtracts its remaining quantity; here the order is addressed by
its id. -/
def PriceLevel.removeOrderById (level : PriceLevel) (oid : String) : PriceLevel :=
  match level.orders.find? (fun o => o.order_id == oid) with
  | none => level
  | some o =>
      { level with
          orders := level.orders.eraseP (fun x => x.order_id == oid)
          total_quantity := level.total_quantity - o.remaining_quantity }

/-- Order book for one symbol (`order_book.OrderBook`).  `bids` are sorted
best (highest) first, `asks` best (lowest) first, mirroring the two
`SortedDict`s. -/
structure OrderBook where
  symbol : String
  bids : List PriceLevel
  asks : List PriceLevel
  order_index : List (String × Side × ℚ)
deriving DecidableEq, Repr

/-- Insert-or-overwrite update of an insertion-ordered association list
(Python dict assignment `d[k] = v`). -/
def setAssocList {β : Type} : List (String × β) → String → β → List (String × β)
  | [], k, v => [(k, v)]
  | (k', v') :: rest, k, v =>
      if k' == k then (k, v) :: rest else (k', v') :: setAssocList rest k v

/-- Key deletion from an association list (Python dict `del d[k]`). -/
def eraseAssocList {β : Type} : List (String × β) → String → List (String × β)
  | [], _ => []
  | (k', v') :: rest, k =>
      if k' == k then rest else (k', v') :: eraseAssocList rest k

/-- Creation of a fresh empty price level at a sorted position; `better p q`
says a level priced `p` sorts strictly before one priced `q`. -/
def insertLevelSorted (better : ℚ → ℚ → Bool) (price : ℚ) : List PriceLevel → List PriceLevel
  | [] => [⟨price, [], 0⟩]
  | l :: rest =>
      if better price l.price then ⟨price, [], 0⟩ :: l :: rest
      else l :: insertLevelSorted better price rest

/-- Mutation of the (unique) level at the given price, mirroring
`price_levels[price]` access followed by in-place mutation. -/
def updateLevelAt (levels : List PriceLevel) (p : ℚ) (f : PriceLevel → PriceLevel) : List PriceLevel :=
  levels.map (fun l => if l.price == p then f l else l)

/-- Key ordering of the bid `SortedDict` (descending price, best bid first). -/
def bidBetter (a b : ℚ) : Bool := decide (b < a)

/-- Key ordering of the ask `SortedDict` (ascending price, best ask first). -/
def askBetter (a b : ℚ) : Bool := decide (a < b)

/-- `OrderBook.add_order`: find-or-create the level on the order's side,
append the order, record it in `order_index`.  Resting orders always carry a
price; the source would raise before reaching this point on a priceless
order, modelled by a 0 key. -/
def OrderBook.addOrder (book : OrderBook) (order : Order) : OrderBook :=
  let p := order.price.getD 0
  if order.side = Side.buy then
    let bids :=
      if (book.bids.find? (fun l => l.price == p)).isSome then book.bids
      else insertLevelSorted bidBetter p book.bids
    { book with
        bids := updateLevelAt bids p (fun l => l.addOrder order)
        order_index := setAssocList book.order_index order.order_id (Side.buy, p) }
  else
    let asks :=
      if (book.asks.find? (fun l => l.price == p)).isSome then book.asks
      else insertLevelSorted askBetter p book.asks
    { book with
        asks := updateLevelAt asks p (fun l => l.addOrder order)
        order_index := setAssocList book.order_index order.order_id (Side.sell, p) }

/-- Removal of an order from one side: shrink its level, then drop the level
if it became empty (`OrderBook.remove_order` body). -/
def removeFromSide (levels : List PriceLevel) (p : ℚ) (oid : String) : List PriceLevel :=
  let levels' := updateLevelAt levels p (fun l => l.removeOrderById oid)
  match levels'.find? (fun l => l.price == p) with
  | some l =>
      if l.orders.isEmpty then levels'.eraseP (fun l2 => l2.price == p) else levels'
  | none => levels'

/-- `OrderBook.remove_order`; on an unknown id the source raises
`OrderNotFoundError`, which callers guard against with `has_order`, so the
unknown-id case returns the book unchanged. -/
def OrderBook.removeOrder (book : OrderBook) (oid : String) : OrderBook :=
  match book.order_index.lookup oid with
  | none => book
  | some (side, p) =>
      if side = Side.buy then
        { book with
            bids := removeFromSide book.bids p oid
            order_index := eraseAssocList book.order_index oid }
      else
        { book with
            asks := removeFromSide book.asks p oid
            order_index := eraseAssocList book.order_index oid }

/-- `OrderBook.has_order`. -/
def OrderBook.hasOrder (book : OrderBook) (oid : String) : Bool :=
  (book.order_index.lookup oid).isSome

/-- Fee configuration: `enable_fees` plus the two `FeeCalculator` rates. -/
structure FeeSettings where
  enable_fees : Bool
  maker_fee_rate : ℚ
  taker_fee_rate : ℚ
deriving DecidableEq, Repr

/-- Round-half-even of a rational to an integer (the default `Decimal`
context rounding used by `quantize`). -/
def roundHalfEven (x : ℚ) : ℤ :=
  let f := ⌊x⌋
  let r := x - (f : ℚ)
  if r < 1/2 then f
  else if 1/2 < r then f + 1
  else if f % 2 = 0 then f else f + 1

/-- `Decimal.quantize(Decimal("0.00000001"))`: rounding to 8 fractional
digits, half-even. -/
def quantize8 (x : ℚ) : ℚ :=
  (roundHalfEven (x * 100000000) : ℚ) / 100000000

/-- `FeeCalculator.calculate_fees`: multiply the trade value by each rate and
quantize to 8 decimal places. -/
def calculateFees (maker_fee_rate taker_fee_rate trade_value : ℚ) : ℚ × ℚ :=
  (quantize8 (trade_value * maker_fee_rate), quantize8 (trade_value * taker_fee_rate))

/-- Zero-padded ten-digit counter rendering (`f"TRD-{n:010d}"`). -/
def padTo10 (n : Nat) : String :=
  let s := toString n
  String.mk (List.replicate (10 - s.length) '0') ++ s

/-- `MatchingEngine.generate_trade_id` string for a given counter value. -/
def tradeIdString (n : Nat) : String :=
  "TRD-" ++ padTo10 n

/-- `MatchingEngine._create_trade` fused with `generate_trade_id`: bump the
trade counter, build the trade, and attach fees when enabled. -/
def createTrade (fees : FeeSettings) (counter : Nat) (taker maker : Order)
    (price quantity : ℚ) : Trade × Nat :=
  let counter' := counter + 1
  let base : Trade :=
    { trade_id := tradeIdString counter'
      symbol := taker.symbol
      price := price
      quantity := quantity
      maker_order_id := maker.order_id
      taker_order_id := taker.order_id
      aggressor_side := taker.side
      maker_fee := 0
      taker_fee := 0
      maker_fee_rate := 0
      taker_fee_rate := 0 }
  if fees.enable_fees then
    let trade_value := price * quantity
    let fpair := calculateFees fees.maker_fee_rate fees.taker_fee_rate trade_value
    ({ base with
        maker_fee := fpair.1
        taker_fee := fpair.2
        maker_fee_rate := fees.maker_fee_rate
        taker_fee_rate := fees.taker_fee_rate }, counter')
  else (base, counter')

/-- `MatchingEngine._can_match` (trade-through prevention).  A priceless
non-market order would raise `TypeError` in the source; validated book inputs
always carry a price, and the model answers `false` there. -/
def canMatch (order : Order) (price : ℚ) : Bool :=
  if order.order_type = OrderType.market then true
  else
    match order.price with
    | some p => if order.side = Side.buy then decide (price ≤ p) else decide (p ≤ price)
    | none => false

/-- Result of matching a taker against one price level's FIFO queue. -/
structure LevelMatchResult where
  taker : Order
  orders : List Order
  total_quantity : ℚ
  trades : List Trade
  counter : Nat
  removed : List String
deriving Repr

/-- Inner loop of `MatchingEngine.match_order` at one price level: while the
taker has remaining quantity and the queue is non-empty, fill against the
queue head, pop makers that become fully filled (collecting their ids for
`order_index` deletion), and keep the aggregate quantity updated. -/
def matchLevelOrders (fees : FeeSettings) (counter : Nat) (taker : Order) (price : ℚ)
    (orders : List Order) (total_quantity : ℚ) : LevelMatchResult :=
  match orders with
  | [] => ⟨taker, [], total_quantity, [], counter, []⟩
  | resting :: rest =>
      if 0 < taker.remaining_quantity then
        let fill_qty := min taker.remaining_quantity resting.remaining_quantity
        let tc := createTrade fees counter taker resting price fill_qty
        let taker' := Order.updateStatus
          { taker with remaining_quantity := taker.remaining_quantity - fill_qty }
        let resting' := Order.updateStatus
          { resting with remaining_quantity := resting.remaining_quantity - fill_qty }
        let tq' := total_quantity - resting.remaining_quantity + resting'.remaining_quantity
        if resting'.remaining_quantity = 0 then
          let r := matchLevelOrders fees tc.2 taker' price rest tq'
          ⟨r.taker, r.orders, r.total_quantity, tc.1 :: r.trades, r.counter,
            resting.order_id :: r.removed⟩
        else
          ⟨taker', resting' :: rest, tq', [tc.1], tc.2, []⟩
      else ⟨taker, resting :: rest, total_quantity, [], counter, []⟩

/-- Result of matching a taker against a whole book side. -/
structure SideMatchResult where
  taker : Order
  levels : List PriceLevel
  trades : List Trade
  counter : Nat
  removed : List String
deriving Repr

/-- Outer loop of `MatchingEngine.match_order`: walk the side's levels best
price first while the taker has remaining quantity and `_can_match` holds,
deleting levels that empty out. -/
def matchPriceLevels (fees : FeeSettings) (counter : Nat) (taker : Order) :
    List PriceLevel → SideMatchResult
  | [] => ⟨taker, [], [], counter, []⟩
  | level :: rest =>
      if 0 < taker.remaining_quantity then
        if canMatch taker level.price then
          let r := matchLevelOrders fees counter taker level.price level.orders level.total_quantity
          if r.orders.isEmpty then
            let r2 := matchPriceLevels fees r.counter r.taker rest
            ⟨r2.taker, r2.levels, r.trades ++ r2.trades, r2.counter, r.removed ++ r2.removed⟩
          else
            ⟨r.taker, ⟨level.price, r.orders, r.total_quantity⟩ :: rest, r.trades, r.counter, r.removed⟩
        else ⟨taker, level :: rest, [], counter, []⟩
      else ⟨taker, level :: rest, [], counter, []⟩

/-- Loop of `MatchingEngine._can_fill_fok`: walk the opposite side while
`_can_match` holds, subtracting each level's aggregate from the quantity still
needed; answer whether everything can be filled. -/
def canFillFokLoop (order : Order) : ℚ → List PriceLevel → Bool
  | remaining_to_fill, [] => remaining_to_fill == 0
  | remaining_to_fill, level :: rest =>
      if canMatch order level.price then
        let fillable := min remaining_to_fill level.total_quantity
        let remaining' := remaining_to_fill - fillable
        if remaining' == 0 then true
        else canFillFokLoop order remaining' rest
      else remaining_to_fill == 0

/-- `MatchingEngine._can_fill_fok`. -/
def canFillFok (order : Order) (book : OrderBook) : Bool :=
  let levels := if order.side = Side.buy then book.asks else book.bids
  canFillFokLoop order order.quantity levels

/-- Matching engine state (`MatchingEngine.__init__`): per-symbol books, the
two id counters, the per-symbol pending-stop lists, and the fee
configuration. -/
structure Engine where
  order_books : List (String × OrderBook)
  trade_id_counter : Nat
  order_id_counter : Nat
  stop_orders : List (String × List Order)
  fees : FeeSettings
deriving DecidableEq, Repr

/-- `MatchingEngine.get_or_create_order_book`. -/
def Engine.getOrCreateOrderBook (st : Engine) (symbol : String) : OrderBook × Engine :=
  match st.order_books.lookup symbol with
  | some b => (b, st)
  | none =>
      let b : OrderBook := { symbol := symbol, bids := [], asks := [], order_index := [] }
      (b, { st with order_books := st.order_books ++ [(symbol, b)] })

/-- Store back the (mutated) book of a symbol. -/
def Engine.setBook (st : Engine) (symbol : String) (b : OrderBook) : Engine :=
  { st with order_books := setAssocList st.order_books symbol b }

/-- Store back the (mutated) pending-stop list of a symbol. -/
def Engine.setStops (st : Engine) (symbol : String) (l : List Order) : Engine :=
  { st with stop_orders := setAssocList st.stop_orders symbol l }

/-- Trigger test of `MatchingEngine.check_stop_orders` (lines 139-162): stop
loss / stop limit fire with the market (buy on `last ≥ stop`, sell on
`last ≤ stop`), take profit fires against it.  Pending stop orders always
carry a `stop_price`; the source would raise on `None`. -/
def shouldTrigger (stop_order : Order) (last_trade_price : ℚ) : Bool :=
  match stop_order.stop_price with
  | none => false
  | some sp =>
      if stop_order.order_type = OrderType.stop_loss ∨
          stop_order.order_type = OrderType.stop_limit then
        if stop_order.side = Side.buy then decide (sp ≤ last_trade_price)
        else decide (last_trade_price ≤ sp)
      else if stop_order.order_type = OrderType.take_profit then
        if stop_order.side = Side.buy then decide (last_trade_price ≤ sp)
        else decide (sp ≤ last_trade_price)
      else false

/-- Scan phase of `check_stop_orders`: iterate over a copy of the pending
list, mark each firing order `is_triggered`, collect it, and remove it (the
aliased object) from the live list. -/
def scanStops (last : ℚ) : List Order → List Order → List Order × List Order
  | [], current => ([], current)
  | o :: rest, current =>
      if shouldTrigger o last then
        let res := scanStops last rest (current.erase o)
        ({ o with is_triggered := true } :: res.1, res.2)
      else scanStops last rest current

/-- Conversion phase of `check_stop_orders` (lines 179-193): stop loss
becomes a market order with the price cleared, stop limit a limit order at
its price, take profit a limit order at its price or, failing that, its stop
price. -/
def convertTriggered (order : Order) : Order :=
  if order.order_type = OrderType.stop_loss then
    { order with order_type := OrderType.market, price := none }
  else if order.order_type = OrderType.stop_limit then
    { order with order_type := OrderType.limit }
  else if order.order_type = OrderType.take_profit then
    { order with
        order_type := OrderType.limit
        price := match order.price with
                 | none => order.stop_price
                 | some p => some p }
  else order

/-- `MatchingEngine.add_to_book`: delegate to `OrderBook.add_order` on the
symbol's book (BBO publication is not modelled).  Callers always ensure the
book exists. -/
def Engine.addToBook (st : Engine) (order : Order) : Engine :=
  match st.order_books.lookup order.symbol with
  | none => st
  | some b => st.setBook order.symbol (b.addOrder order)

/-- Core of `MatchingEngine.match_order` without the stop-order check at the
end: run the level walk against the opposite side, write the side back,
delete the ids of fully filled makers from `order_index`, and advance the
trade counter. -/
def Engine.matchOrderCore (st : Engine) (order : Order) : List Trade × Order × Engine :=
  match st.order_books.lookup order.symbol with
  | none => ([], order, st)
  | some book =>
      let levels := if order.side = Side.buy then book.asks else book.bids
      let r := matchPriceLevels st.fees st.trade_id_counter order levels
      let book' := if order.side = Side.buy then { book with asks := r.levels }
                   else { book with bids := r.levels }
      let book'' := { book' with
        order_index := r.removed.foldl (fun idx oid => eraseAssocList idx oid) book'.order_index }
      (r.trades, r.taker, { st.setBook order.symbol book'' with trade_id_counter := r.counter })

/-- The written-back book of `matchOrderCore` as a function of its inputs. -/
def mocBook (fees : FeeSettings) (c : Nat) (o : Order) (book : OrderBook) : OrderBook :=
  let levels := if o.side = Side.buy then book.asks else book.bids
  let r := matchPriceLevels fees c o levels
  let book' := if o.side = Side.buy then { book with asks := r.levels }
               else { book with bids := r.levels }
  { book' with
    order_index := r.removed.foldl (fun idx oid => eraseAssocList idx oid) book'.order_index }

mutual

/-- `MatchingEngine.check_stop_orders`, with explicit recursion fuel (the
source recursion terminates because every pass removes the orders it
triggers from the pending list; adequate fuel reproduces it exactly). -/
def checkStopOrdersF : Nat → Engine → String → ℚ → Engine
  | 0, st, _, _ => st
  | fuel + 1, st, symbol, last =>
      match st.stop_orders.lookup symbol with
      | none => st
      | some pending =>
          let scanned := scanStops last pending pending
          processTriggeredF fuel (st.setStops symbol scanned.2) scanned.1
termination_by fuel _ _ _ => (fuel, 0)

/-- `MatchingEngine.match_order`: the level walk, then, when trades were
produced, the stop-order check at the last trade price. -/
def matchOrderF : Nat → Engine → Order → List Trade × Order × Engine
  | fuel, st, order =>
      let r := st.matchOrderCore order
      match r.1.getLast? with
      | none => r
      | some t => (r.1, r.2.1, checkStopOrdersF fuel r.2.2 order.symbol t.price)
termination_by fuel _ _ => (fuel, 1)

/-- Processing loop over the triggered orders of one `check_stop_orders`
pass: convert each, match it re-entrantly, and rest any remainder that may
rest on the book. -/
def processTriggeredF : Nat → Engine → List Order → Engine
  | _, st, [] => st
  | fuel, st, t :: rest =>
      let t' := convertTriggered t
      let st1 := (st.getOrCreateOrderBook t'.symbol).2
      let r := matchOrderF fuel st1 t'
      let st2 := if 0 < r.2.1.remaining_quantity ∧ r.2.1.canRestOnBook then
                   r.2.2.addToBook r.2.1
                 else r.2.2
      processTriggeredF fuel st2 rest
termination_by fuel _ l => (fuel, l.length + 2)

end


/-- Fuel that is always sufficient for the stop-trigger cascade of one
`process_order` call: one unit per pending stop order of the symbol, plus
slack. -/
def Engine.cascadeFuel (st : Engine) (symbol : String) : Nat :=
  ((st.stop_orders.lookup symbol).getD []).length + 2

/-- `MatchingEngine.process_order`: admission of stop orders to the pending
list, the FOK pre-check, matching, status computation, and remainder
handling.  Returns the result, the final state of the incoming order object,
and the new engine state. -/
def Engine.processOrder (st : Engine) (order : Order) : OrderResult × Order × Engine :=
  let gb := st.getOrCreateOrderBook order.symbol
  let order_book := gb.1
  let st0 := gb.2
  if order.order_type = OrderType.stop_loss ∨ order.order_type = OrderType.stop_limit ∨
      order.order_type = OrderType.take_profit then
    let pending := (st0.stop_orders.lookup order.symbol).getD []
    let st1 := st0.setStops order.symbol (pending ++ [order])
    ({ order_id := order.order_id, status := "pending", trades := [],
       remaining_quantity := 0 }, order, st1)
  else if order.order_type = OrderType.fok ∧ canFillFok order order_book = false then
    ({ order_id := order.order_id, status := "cancelled", trades := [],
       remaining_quantity := order.quantity },
     { order with status := OrderStatus.cancelled }, st0)
  else
    let r := matchOrderF (st0.cascadeFuel order.symbol) st0 order
    let trades := r.1
    let order1 := r.2.1
    let st1 := r.2.2
    let status := if order1.isFilled then "filled"
                  else if order1.remaining_quantity < order1.quantity then "partial"
                  else "new"
    if 0 < order1.remaining_quantity then
      if order1.order_type = OrderType.limit then
        let st2 := st1.addToBook order1
        let status2 := if trades.isEmpty then "accepted" else "partial"
        ({ order_id := order.order_id, status := status2, trades := trades,
           remaining_quantity := order1.remaining_quantity }, order1, st2)
      else
        ({ order_id := order.order_id, status := status, trades := trades,
           remaining_quantity := order1.remaining_quantity },
         { order1 with status := OrderStatus.cancelled }, st1)
    else
      ({ order_id := order.order_id, status := status, trades := trades,
         remaining_quantity := order1.remaining_quantity }, order1, st1)

/-- `MatchingEngine.cancel_order`: look the book up, guard with `has_order`,
remove the order (BBO publication not modelled). -/
def Engine.cancelOrder (st : Engine) (order_id : String) (symbol : String) : Bool × Engine :=
  match st.order_books.lookup symbol with
  | none => (false, st)
  | some order_book =>
      if order_book.hasOrder order_id then
        (true, st.setBook symbol (order_book.removeOrder order_id))
      else (false, st)

/-- Truthiness-guarded serialisation of an optional price
(`str(order.price) if order.price else None` in `_serialize_order`): the
Python condition is falsy both for `None` and for `Decimal("0")`. -/
def serializeOptionalPrice (x : Option ℚ) : Option ℚ :=
  match x with
  | some q => if q = 0 then none else some q
  | none => none

/-- `OrderBookSnapshot._serialize_order` followed by `_deserialize_order`:
every field round-trips losslessly through its string form except the two
truthiness-guarded optional prices. -/
def serializeOrder (o : Order) : Order :=
  { o with
      price := serializeOptionalPrice o.price
      stop_price := serializeOptionalPrice o.stop_price }

/-- Serialised form of one order book inside an engine snapshot
(`save_engine_state`); the `order_index` entry is also written by the source
but never read by `load_engine_state`, so it is not modelled. -/
structure BookStateData where
  bids : List (ℚ × List Order)
  asks : List (ℚ × List Order)
deriving DecidableEq, Repr

/-- Serialised engine state (`save_engine_state` document). -/
structure EngineStateData where
  trade_id_counter : Nat
  order_id_counter : Nat
  order_books : List (String × BookStateData)
  stop_orders : List (String × List Order)
deriving DecidableEq, Repr

/-- `OrderBookSnapshot._serialize_price_levels`. -/
def serializePriceLevels (levels : List PriceLevel) : List (ℚ × List Order) :=
  levels.map (fun l => (l.price, l.orders.map serializeOrder))

/-- `OrderBookSnapshot.save_engine_state`. -/
def saveEngineState (st : Engine) : EngineStateData :=
  { trade_id_counter := st.trade_id_counter
    order_id_counter := st.order_id_counter
    order_books := st.order_books.map (fun sb =>
      (sb.1, { bids := serializePriceLevels sb.2.bids
               asks := serializePriceLevels sb.2.asks }))
    stop_orders := st.stop_orders.map (fun sl => (sl.1, sl.2.map serializeOrder)) }

/-- Timestamp comparison used by `orders_to_restore.sort(key=lambda o:
o.timestamp)`; Python's sort is stable, modelled by `List.mergeSort`. -/
def tsLE (a b : Order) : Bool :=
  decide (a.timestamp ≤ b.timestamp)

/-- Per-book restore step of `load_engine_state`: collect the bid orders then
the ask orders, sort them by timestamp (stably), and replay them through
`OrderBook.add_order` into a fresh book. -/
def loadOrderBook (symbol : String) (data : BookStateData) : OrderBook :=
  let orders := (data.bids.map Prod.snd).flatten ++ (data.asks.map Prod.snd).flatten
  let sorted := orders.mergeSort tsLE
  sorted.foldl (fun b o => b.addOrder o)
    { symbol := symbol, bids := [], asks := [], order_index := [] }

/-- `OrderBookSnapshot.load_engine_state`: restore the counters, rebuild each
book, and restore the pending-stop lists. -/
def loadEngineState (st : Engine) (data : EngineStateData) : Engine :=
  { st with
      trade_id_counter := data.trade_id_counter
      order_id_counter := data.order_id_counter
      order_books := data.order_books.map (fun sb => (sb.1, loadOrderBook sb.1 sb.2))
      stop_orders := data.stop_orders }

/-! Specification-side observations and well-formedness predicates.  These
are not translations of source functions; they state the properties the
claims quantify over. -/

/-- FIFO queue resting at a given price on a list of levels (empty when the
level is absent). -/
def levelQueue (levels : List PriceLevel) (p : ℚ) : List Order :=
  match levels.find? (fun l => l.price == p) with
  | none => []
  | some l => l.orders

/-- FIFO queue resting at a given symbol, side and price of an engine. -/
def Engine.queueAt (st : Engine) (symbol : String) (side : Side) (p : ℚ) : List Order :=
  match st.order_books.lookup symbol with
  | none => []
  | some b => levelQueue (if side = Side.buy then b.bids else b.asks) p

/-- Equality of engine states in the sense of the snapshot round-trip claim:
the same id counters, the same symbols in the same order, the same
pending-stop list per symbol, and per symbol, side and price the same resting
orders in the same FIFO order. -/
def EngineSimilar (a b : Engine) : Prop :=
  a.trade_id_counter = b.trade_id_counter ∧
  a.order_id_counter = b.order_id_counter ∧
  a.order_books.map Prod.fst = b.order_books.map Prod.fst ∧
  (∀ s, a.stop_orders.lookup s = b.stop_orders.lookup s) ∧
  ∀ s side p, a.queueAt s side p = b.queueAt s side p

/-- Sum of the quantities of a trade list. -/
def sumTradeQty (ts : List Trade) : ℚ :=
  (ts.map Trade.quantity).sum

/-- Sum of the remaining quantities of an order queue. -/
def sumRemaining (os : List Order) : ℚ :=
  (os.map Order.remaining_quantity).sum

/-- Well-formedness of one price level for matching: the aggregate field
agrees with the queue and every resting order has strictly positive remaining
quantity. -/
def levelFillWF (l : PriceLevel) : Bool :=
  l.total_quantity == sumRemaining l.orders &&
  l.orders.all (fun o => decide (0 < o.remaining_quantity))

/-- A book is crossed when its best bid is at or above its best ask
(spec §8 invariant 1, negated). -/
def bookCrossed (b : OrderBook) : Bool :=
  match (b.bids.map PriceLevel.price).max?, (b.asks.map PriceLevel.price).min? with
  | some mb, some ma => decide (ma ≤ mb)
  | _, _ => false

/-- Crossedness of the book of one symbol inside an engine state. -/
def engineCrossedAt (st : Engine) (s : String) : Bool :=
  match st.order_books.lookup s with
  | some b => bookCrossed b
  | none => false

/-- Orders of a level belong to the side and price they rest under. -/
def levelOrdersConsistent (side : Side) (l : PriceLevel) : Bool :=
  l.orders.all (fun o => o.side == side && o.price == some l.price)

/-- Timestamps along a queue are non-decreasing (admission order agrees with
the informational wall-clock stamps). -/
def tsNonDecreasing : List Order → Bool
  | [] => true
  | [_] => true
  | a :: b :: rest => tsLE a b && tsNonDecreasing (b :: rest)

/-- An order's optional prices survive the truthiness-guarded string
round-trip unchanged. -/
def serRoundTrips (o : Order) : Bool :=
  serializeOptionalPrice o.price == o.price &&
  serializeOptionalPrice o.stop_price == o.stop_price

/-- Pairwise distinct level prices on one book side. -/
def nodupPrices : List PriceLevel → Bool
  | [] => true
  | l :: rest => rest.all (fun l2 => !(l2.price == l.price)) && nodupPrices rest

/-- Well-formedness of a book for the snapshot round-trip: distinct level
prices per side, orders resting under their own side and price, queues in
timestamp order, and string-round-trippable optional prices. -/
def bookSnapshotWF (b : OrderBook) : Bool :=
  nodupPrices b.bids && nodupPrices b.asks &&
  b.bids.all (fun l => levelOrdersConsistent Side.buy l && tsNonDecreasing l.orders
    && l.orders.all serRoundTrips) &&
  b.asks.all (fun l => levelOrdersConsistent Side.sell l && tsNonDecreasing l.orders
    && l.orders.all serRoundTrips)

/-- Well-formedness of an engine for the snapshot round-trip. -/
def engineSnapshotWF (st : Engine) : Bool :=
  st.order_books.all (fun sb => bookSnapshotWF sb.2) &&
  st.stop_orders.all (fun sl => sl.2.all serRoundTrips)

/-- Price comparison "at least as good for the taker": a buy taker prefers
lower opposite prices, a sell taker higher ones. -/
def priceRel (side : Side) (a b : ℚ) : Prop :=
  match side with
  | Side.buy => a ≤ b
  | Side.sell => b ≤ a

instance priceRelDecidable (side : Side) (a b : ℚ) : Decidable (priceRel side a b) :=
  match side with
  | Side.buy => inferInstanceAs (Decidable (a ≤ b))
  | Side.sell => inferInstanceAs (Decidable (b ≤ a))

/-! Lemmas about the inner matching loop `matchLevelOrders`.  The two
"stepped" abbreviations name the updated taker and maker of one loop
iteration, exactly as computed in the loop body. -/

/-- One iteration's updated taker (`order.remaining_quantity -= fill_qty`
followed by `order.update_status()`). -/
def steppedTaker (taker m : Order) : Order :=
  Order.updateStatus
    { taker with
        remaining_quantity :=
          taker.remaining_quantity - min taker.remaining_quantity m.remaining_quantity }

/-- One iteration's updated maker (`resting_order.remaining_quantity -=
fill_qty` followed by `update_status()`). -/
def steppedMaker (taker m : Order) : Order :=
  Order.updateStatus
    { m with
        remaining_quantity :=
          m.remaining_quantity - min taker.remaining_quantity m.remaining_quantity }

/-! Lemmas about the level walk `matchPriceLevels`. -/

/-- Abbreviation for the inner-loop result at one level. -/
def levelRes (fees : FeeSettings) (c : Nat) (taker : Order) (level : PriceLevel) :
    LevelMatchResult :=
  matchLevelOrders fees c taker level.price level.orders level.total_quantity

/-- The matching loop mutates only `remaining_quantity` and `status` of the
taker; all identifying fields survive. -/
def sameOrderCore (a b : Order) : Prop :=
  a.order_type = b.order_type ∧ a.side = b.side ∧ a.price = b.price ∧
  a.order_id = b.order_id ∧ a.quantity = b.quantity ∧ a.symbol = b.symbol

/-- Concrete resting maker order for the C1 witness. -/
def c1Maker : Order :=
  { order_id := "M1", symbol := "A-B", order_type := OrderType.limit, side := Side.sell,
    quantity := 1, price := some 10, timestamp := 1, remaining_quantity := 1,
    status := OrderStatus.new, stop_price := none, is_triggered := false }

/-- Concrete book for the C1 witness. -/
def c1Book : OrderBook :=
  { symbol := "A-B", bids := [], asks := [⟨10, [c1Maker], 1⟩],
    order_index := [("M1", Side.sell, 10)] }

/-- Concrete engine for the C1 witness. -/
def c1Engine : Engine :=
  { order_books := [("A-B", c1Book)], trade_id_counter := 0, order_id_counter := 0,
    stop_orders := [], fees := ⟨false, 0, 0⟩ }

/-- Concrete FOK taker for the C1 witness. -/
def c1Taker : Order :=
  { order_id := "T1", symbol := "A-B", order_type := OrderType.fok, side := Side.buy,
    quantity := 1, price := some 10, timestamp := 2, remaining_quantity := 1,
    status := OrderStatus.new, stop_price := none, is_triggered := false }

/-- Concrete maker for the C8 witness. -/
def c8Maker : Order :=
  { order_id := "M8", symbol := "C-D", order_type := OrderType.limit, side := Side.sell,
    quantity := 2, price := some 3, timestamp := 1, remaining_quantity := 2,
    status := OrderStatus.new, stop_price := none, is_triggered := false }

/-- Concrete taker for the C8 witness. -/
def c8Taker : Order :=
  { order_id := "T8", symbol := "C-D", order_type := OrderType.market, side := Side.buy,
    quantity := 1, price := none, timestamp := 2, remaining_quantity := 1,
    status := OrderStatus.new, stop_price := none, is_triggered := false }

/-- Concrete fee settings for the C8 witness (0.1% maker, 0.2% taker). -/
def c8Fees : FeeSettings :=
  { enable_fees := true, maker_fee_rate := 1/1000, taker_fee_rate := 2/1000 }

/-- Concrete maker for the C10 witness. -/
def c10Maker : Order :=
  { order_id := "MX", symbol := "C-D", order_type := OrderType.limit, side := Side.sell,
    quantity := 1, price := some 5, timestamp := 1, remaining_quantity := 1,
    status := OrderStatus.new, stop_price := none, is_triggered := false }

/-- Concrete taker for the C10 witness. -/
def c10Taker : Order :=
  { order_id := "TX", symbol := "C-D", order_type := OrderType.market, side := Side.buy,
    quantity := 2, price := none, timestamp := 2, remaining_quantity := 2,
    status := OrderStatus.new, stop_price := none, is_triggered := false }

/-- Concrete first-queued maker for the C5 witness. -/
def c5MakerA : Order :=
  { order_id := "A5", symbol := "C-D", order_type := OrderType.limit, side := Side.sell,
    quantity := 1, price := some 7, timestamp := 1, remaining_quantity := 1,
    status := OrderStatus.new, stop_price := none, is_triggered := false }

/-- Concrete second-queued maker for the C5 witness. -/
def c5MakerB : Order :=
  { order_id := "B5", symbol := "C-D", order_type := OrderType.limit, side := Side.sell,
    quantity := 1, price := some 7, timestamp := 2, remaining_quantity := 1,
    status := OrderStatus.new, stop_price := none, is_triggered := false }

/-- Concrete taker for the C5 witness. -/
def c5Taker : Order :=
  { order_id := "T5", symbol := "C-D", order_type := OrderType.market, side := Side.buy,
    quantity := 2, price := none, timestamp := 3, remaining_quantity := 2,
    status := OrderStatus.new, stop_price := none, is_triggered := false }

/-- Concrete better-priced maker for the C4 witness. -/
def c4MakerA : Order :=
  { order_id := "A4", symbol := "C-D", order_type := OrderType.limit, side := Side.sell,
    quantity := 1, price := some 5, timestamp := 1, remaining_quantity := 1,
    status := OrderStatus.new, stop_price := none, is_triggered := false }

/-- Concrete worse-priced maker for the C4 witness. -/
def c4MakerB : Order :=
  { order_id := "B4", symbol := "C-D", order_type := OrderType.limit, side := Side.sell,
    quantity := 1, price := some 6, timestamp := 2, remaining_quantity := 1,
    status := OrderStatus.new, stop_price := none, is_triggered := false }

/-- Concrete limit taker for the C4 witness. -/
def c4Taker : Order :=
  { order_id := "T4", symbol := "C-D", order_type := OrderType.limit, side := Side.buy,
    quantity := 2, price := some 6, timestamp := 3, remaining_quantity := 2,
    status := OrderStatus.new, stop_price := none, is_triggered := false }

/-- Concrete level list for the C4 witness. -/
def c4Levels : List PriceLevel :=
  [⟨5, [c4MakerA], 1⟩, ⟨6, [c4MakerB], 1⟩]

/-- Concrete pending stop-loss sell for the C6 witness. -/
def c6StopA : Order :=
  { order_id := "SA6", symbol := "E-F", order_type := OrderType.stop_loss,
    side := Side.sell, quantity := 1, price := none, timestamp := 1,
    remaining_quantity := 1, status := OrderStatus.new, stop_price := some 9,
    is_triggered := false }

/-- Concrete pending take-profit buy for the C6 witness. -/
def c6StopB : Order :=
  { order_id := "SB6", symbol := "E-F", order_type := OrderType.take_profit,
    side := Side.buy, quantity := 1, price := some 7, timestamp := 2,
    remaining_quantity := 1, status := OrderStatus.new, stop_price := some 12,
    is_triggered := false }

/-! Frame and containment properties of the stop-trigger cascade. -/

/-- All orders pending under a symbol carry that symbol. -/
def stopsConsistAt (symbol : String) (st : Engine) : Bool :=
  ((st.stop_orders.lookup symbol).getD []).all (fun o => o.symbol == symbol)

/-- Ids of orders resting on one side's levels. -/
def sideOrderIds (levels : List PriceLevel) : List String :=
  (levels.map (fun l => l.orders.map Order.order_id)).flatten

/-- Ids of orders resting anywhere in a book. -/
def bookOrderIds (b : OrderBook) : List String :=
  sideOrderIds b.bids ++ sideOrderIds b.asks

/-- Ids of orders resting in any book of the engine. -/
def engineBookIds (st : Engine) : List String :=
  (st.order_books.map (fun sb => bookOrderIds sb.2)).flatten

/-- Ids of orders in any pending-stop list of the engine. -/
def engineStopIds (st : Engine) : List String :=
  (st.stop_orders.map (fun sl => sl.2.map Order.order_id)).flatten

/-- Touching only one symbol: all lookups at other symbols are unchanged. -/
def FramePred (symbol : String) (st st' : Engine) : Prop :=
  ∀ s', s' ≠ symbol →
    st'.order_books.lookup s' = st.order_books.lookup s' ∧
    st'.stop_orders.lookup s' = st.stop_orders.lookup s'

/-- Frame statement for `checkStopOrdersF` at a given fuel. -/
def CheckFrame (fuel : Nat) : Prop :=
  ∀ st symbol last, stopsConsistAt symbol st = true →
    FramePred symbol st (checkStopOrdersF fuel st symbol last) ∧
    stopsConsistAt symbol (checkStopOrdersF fuel st symbol last) = true

/-- Frame statement for `matchOrderF` at a given fuel. -/
def MatchFrame (fuel : Nat) : Prop :=
  ∀ st (o : Order), stopsConsistAt o.symbol st = true →
    FramePred o.symbol st (matchOrderF fuel st o).2.2 ∧
    stopsConsistAt o.symbol (matchOrderF fuel st o).2.2 = true

/-- Frame statement for `processTriggeredF` at a given fuel. -/
def TrigFrame (fuel : Nat) : Prop :=
  ∀ st symbol (l : List Order), (∀ t ∈ l, t.symbol = symbol) →
    stopsConsistAt symbol st = true →
    FramePred symbol st (processTriggeredF fuel st l) ∧
    stopsConsistAt symbol (processTriggeredF fuel st l) = true

/-- Concrete two-book engine for the C9 witness. -/
def c9Engine : Engine :=
  { order_books :=
      [("A-B", { symbol := "A-B", bids := [], asks := [], order_index := [] }),
       ("G-H", { symbol := "G-H", bids := [], asks := [], order_index := [] })],
    trade_id_counter := 0, order_id_counter := 0, stop_orders := [("A-B", [])],
    fees := ⟨false, 0, 0⟩ }

/-- Concrete order for the C9 witness. -/
def c9Order : Order :=
  { order_id := "T9", symbol := "A-B", order_type := OrderType.limit, side := Side.buy,
    quantity := 1, price := some 4, timestamp := 1, remaining_quantity := 1,
    status := OrderStatus.new, stop_price := none, is_triggered := false }

/-- Id-containment statement for `checkStopOrdersF`: the cascade introduces
no order id that was not already resting or pending. -/
def CheckIds (fuel : Nat) : Prop :=
  ∀ st symbol last x,
    (x ∈ engineBookIds (checkStopOrdersF fuel st symbol last) →
      x ∈ engineBookIds st ∨ x ∈ engineStopIds st) ∧
    (x ∈ engineStopIds (checkStopOrdersF fuel st symbol last) → x ∈ engineStopIds st)

/-- Id-containment statement for `matchOrderF`. -/
def MatchIds (fuel : Nat) : Prop :=
  ∀ st (o : Order) x,
    (x ∈ engineBookIds (matchOrderF fuel st o).2.2 →
      x ∈ engineBookIds st ∨ x ∈ engineStopIds st) ∧
    (x ∈ engineStopIds (matchOrderF fuel st o).2.2 → x ∈ engineStopIds st)

/-- Id-containment statement for `processTriggeredF`: the triggered orders
being replayed are an extra admissible source of book ids. -/
def TrigIds (fuel : Nat) : Prop :=
  ∀ st (l : List Order) x,
    (x ∈ engineBookIds (processTriggeredF fuel st l) →
      x ∈ engineBookIds st ∨ x ∈ l.map Order.order_id ∨ x ∈ engineStopIds st) ∧
    (x ∈ engineStopIds (processTriggeredF fuel st l) → x ∈ engineStopIds st)

/-- Selector for the orders that `OrderBook.addOrder` sends to a given side
and price key during a snapshot replay. -/
def orderKeyAt (side : Side) (q : ℚ) (o : Order) : Bool :=
  o.side == side && decide (o.price.getD 0 = q)

/-- The price levels of one side of a book. -/
def sideLevels (b : OrderBook) (side : Side) : List PriceLevel :=
  if side = Side.buy then b.bids else b.asks

/-- Resting bid with the later wall-clock stamp, queued first (C2
counterexample). -/
def c2A : Order :=
  { order_id := "A", symbol := "A-B", order_type := OrderType.limit, side := Side.buy,
    quantity := 1, price := some 100, timestamp := 5, remaining_quantity := 1,
    status := OrderStatus.new, stop_price := none, is_triggered := false }

/-- Resting bid with the earlier wall-clock stamp, queued second (C2
counterexample). -/
def c2B : Order :=
  { order_id := "B", symbol := "A-B", order_type := OrderType.limit, side := Side.buy,
    quantity := 1, price := some 100, timestamp := 2, remaining_quantity := 1,
    status := OrderStatus.new, stop_price := none, is_triggered := false }

/-- Book whose FIFO queue disagrees with the timestamp order (C2
counterexample). -/
def c2Book : OrderBook :=
  { symbol := "A-B", bids := [⟨100, [c2A, c2B], 2⟩], asks := [],
    order_index := [("A", Side.buy, 100), ("B", Side.buy, 100)] }

/-- Engine for the C2 counterexample. -/
def c2Engine : Engine :=
  { order_books := [("A-B", c2Book)], trade_id_counter := 0, order_id_counter := 0,
    stop_orders := [], fees := ⟨false, 0, 0⟩ }

/-- First resting bid of the C2 witness engine. -/
def c2W1 : Order :=
  { order_id := "W1", symbol := "A-B", order_type := OrderType.limit, side := Side.buy,
    quantity := 1, price := some 100, timestamp := 1, remaining_quantity := 1,
    status := OrderStatus.new, stop_price := none, is_triggered := false }

/-- Second resting bid of the C2 witness engine. -/
def c2W2 : Order :=
  { order_id := "W2", symbol := "A-B", order_type := OrderType.limit, side := Side.buy,
    quantity := 1, price := some 100, timestamp := 2, remaining_quantity := 1,
    status := OrderStatus.new, stop_price := none, is_triggered := false }

/-- Resting ask of the C2 witness engine. -/
def c2W3 : Order :=
  { order_id := "W3", symbol := "A-B", order_type := OrderType.limit, side := Side.sell,
    quantity := 1, price := some 101, timestamp := 1, remaining_quantity := 1,
    status := OrderStatus.new, stop_price := none, is_triggered := false }

/-- Pending stop order of the C2 witness engine. -/
def c2WS : Order :=
  { order_id := "WS", symbol := "A-B", order_type := OrderType.stop_loss, side := Side.buy,
    quantity := 1, price := none, timestamp := 1, remaining_quantity := 1,
    status := OrderStatus.new, stop_price := some 105, is_triggered := false }

/-- Well-formed engine for the C2 witness. -/
def c2WEngine : Engine :=
  { order_books := [("A-B",
      { symbol := "A-B", bids := [⟨100, [c2W1, c2W2], 2⟩], asks := [⟨101, [c2W3], 1⟩],
        order_index := [("W1", Side.buy, 100), ("W2", Side.buy, 100),
          ("W3", Side.sell, 101)] })],
    trade_id_counter := 7, order_id_counter := 4,
    stop_orders := [("A-B", [c2WS])], fees := ⟨false, 0, 0⟩ }

/-- Concrete maker order for the C3 witness. -/
def c3Maker : Order :=
  { order_id := "M3", symbol := "A-B", order_type := OrderType.limit, side := Side.sell,
    quantity := 1, price := some 10, timestamp := 1, remaining_quantity := 1,
    status := OrderStatus.new, stop_price := none, is_triggered := false }

/-- Concrete book for the C3 witness. -/
def c3Book : OrderBook :=
  { symbol := "A-B", bids := [], asks := [⟨10, [c3Maker], 1⟩],
    order_index := [("M3", Side.sell, 10)] }

/-- Concrete engine for the C3 witness. -/
def c3Engine : Engine :=
  { order_books := [("A-B", c3Book)], trade_id_counter := 0, order_id_counter := 0,
    stop_orders := [], fees := ⟨false, 0, 0⟩ }

/-- Concrete market taker for the C3 witness. -/
def c3Order : Order :=
  { order_id := "T3", symbol := "A-B", order_type := OrderType.market, side := Side.buy,
    quantity := 2, price := none, timestamp := 2, remaining_quantity := 2,
    status := OrderStatus.new, stop_price := none, is_triggered := false }

/-- Concrete engine with an empty book for the C3 counterexample. -/
def c3xEngine : Engine :=
  { order_books := [("A-B", { symbol := "A-B", bids := [], asks := [], order_index := [] })],
    trade_id_counter := 0, order_id_counter := 0, stop_orders := [],
    fees := ⟨false, 0, 0⟩ }

/-- Concrete market order receiving no fill for the C3 counterexample. -/
def c3xOrder : Order :=
  { order_id := "T3X", symbol := "A-B", order_type := OrderType.market, side := Side.buy,
    quantity := 1, price := none, timestamp := 1, remaining_quantity := 1,
    status := OrderStatus.new, stop_price := none, is_triggered := false }

/-- Resting ask maker at 100 for the C7 scenario. -/
def c7M1 : Order :=
  { order_id := "A1", symbol := "A-B", order_type := OrderType.limit, side := Side.sell,
    quantity := 1, price := some 100, timestamp := 1, remaining_quantity := 1,
    status := OrderStatus.new, stop_price := none, is_triggered := false }

/-- Resting ask maker at 110 for the C7 scenario. -/
def c7M2 : Order :=
  { order_id := "A2", symbol := "A-B", order_type := OrderType.limit, side := Side.sell,
    quantity := 1, price := some 110, timestamp := 1, remaining_quantity := 1,
    status := OrderStatus.new, stop_price := none, is_triggered := false }

/-- Resting ask maker at 130 for the C7 scenario. -/
def c7M3 : Order :=
  { order_id := "A3", symbol := "A-B", order_type := OrderType.limit, side := Side.sell,
    quantity := 1, price := some 130, timestamp := 1, remaining_quantity := 1,
    status := OrderStatus.new, stop_price := none, is_triggered := false }

/-- Pending stop-limit buy (stop 100, limit 120) for the C7 scenario. -/
def c7T : Order :=
  { order_id := "ST", symbol := "A-B", order_type := OrderType.stop_limit, side := Side.buy,
    quantity := 2, price := some 120, timestamp := 2, remaining_quantity := 2,
    status := OrderStatus.new, stop_price := some 100, is_triggered := false }

/-- Pending take-profit sell (stop 110, limit 90) for the C7 scenario. -/
def c7S : Order :=
  { order_id := "SS", symbol := "A-B", order_type := OrderType.take_profit, side := Side.sell,
    quantity := 1, price := some 90, timestamp := 2, remaining_quantity := 1,
    status := OrderStatus.new, stop_price := some 110, is_triggered := false }

/-- Book for the C7 scenario: empty bid side, asks at 100, 110, 130. -/
def c7Book : OrderBook :=
  { symbol := "A-B", bids := [],
    asks := [⟨100, [c7M1], 1⟩, ⟨110, [c7M2], 1⟩, ⟨130, [c7M3], 1⟩],
    order_index := [("A1", Side.sell, 100), ("A2", Side.sell, 110), ("A3", Side.sell, 130)] }

/-- Engine for the C7 scenario, with both stop orders pending. -/
def c7Engine : Engine :=
  { order_books := [("A-B", c7Book)], trade_id_counter := 0, order_id_counter := 0,
    stop_orders := [("A-B", [c7T, c7S])], fees := ⟨false, 0, 0⟩ }

/-- Incoming limit buy at 100 for the C7 scenario. -/
def c7Order : Order :=
  { order_id := "T7", symbol := "A-B", order_type := OrderType.limit, side := Side.buy,
    quantity := 1, price := some 100, timestamp := 2, remaining_quantity := 1,
    status := OrderStatus.new, stop_price := none, is_triggered := false }

/-- The stop-limit order as marked triggered by the scan. -/
def c7Ttrig : Order := { c7T with is_triggered := true }

/-- The take-profit order as marked triggered by the nested scan. -/
def c7Strig : Order := { c7S with is_triggered := true }

/-! Basic lemmas about the small order operations. -/

@[simp]
theorem updateStatus_remaining (o : Order) :
    o.updateStatus.remaining_quantity = o.remaining_quantity := by
  unfold Order.updateStatus; split <;> try split
  all_goals rfl

@[simp]
theorem updateStatus_quantity (o : Order) : o.updateStatus.quantity = o.quantity := by
  unfold Order.updateStatus; split <;> try split
  all_goals rfl

@[simp]
theorem updateStatus_order_id (o : Order) : o.updateStatus.order_id = o.order_id := by
  unfold Order.updateStatus; split <;> try split
  all_goals rfl

@[simp]
theorem updateStatus_order_type (o : Order) : o.updateStatus.order_type = o.order_type := by
  unfold Order.updateStatus; split <;> try split
  all_goals rfl

@[simp]
theorem updateStatus_side (o : Order) : o.updateStatus.side = o.side := by
  unfold Order.updateStatus; split <;> try split
  all_goals rfl

@[simp]
theorem updateStatus_price (o : Order) : o.updateStatus.price = o.price := by
  unfold Order.updateStatus; split <;> try split
  all_goals rfl

@[simp]
theorem updateStatus_symbol (o : Order) : o.updateStatus.symbol = o.symbol := by
  unfold Order.updateStatus; split <;> try split
  all_goals rfl

@[simp]
theorem createTrade_price (fees : FeeSettings) (c : Nat) (t m : Order) (p q : ℚ) :
    (createTrade fees c t m p q).1.price = p := by
  unfold createTrade; split <;> rfl

@[simp]
theorem createTrade_quantity (fees : FeeSettings) (c : Nat) (t m : Order) (p q : ℚ) :
    (createTrade fees c t m p q).1.quantity = q := by
  unfold createTrade; split <;> rfl

@[simp]
theorem createTrade_maker (fees : FeeSettings) (c : Nat) (t m : Order) (p q : ℚ) :
    (createTrade fees c t m p q).1.maker_order_id = m.order_id := by
  unfold createTrade; split <;> rfl

@[simp]
theorem createTrade_taker (fees : FeeSettings) (c : Nat) (t m : Order) (p q : ℚ) :
    (createTrade fees c t m p q).1.taker_order_id = t.order_id := by
  unfold createTrade; split <;> rfl

theorem createTrade_fees_enabled (fees : FeeSettings) (c : Nat) (t m : Order) (p q : ℚ)
    (h : fees.enable_fees = true) :
    (createTrade fees c t m p q).1.maker_fee = quantize8 (p * q * fees.maker_fee_rate) ∧
    (createTrade fees c t m p q).1.taker_fee = quantize8 (p * q * fees.taker_fee_rate) := by
  unfold createTrade calculateFees
  rw [h]
  simp

@[simp]
theorem steppedTaker_remaining (taker m : Order) :
    (steppedTaker taker m).remaining_quantity
      = taker.remaining_quantity - min taker.remaining_quantity m.remaining_quantity := by
  simp [steppedTaker]

@[simp]
theorem steppedMaker_remaining (taker m : Order) :
    (steppedMaker taker m).remaining_quantity
      = m.remaining_quantity - min taker.remaining_quantity m.remaining_quantity := by
  simp [steppedMaker]

@[simp]
theorem steppedTaker_order_type (taker m : Order) :
    (steppedTaker taker m).order_type = taker.order_type := by simp [steppedTaker]

@[simp]
theorem steppedTaker_side (taker m : Order) :
    (steppedTaker taker m).side = taker.side := by simp [steppedTaker]

@[simp]
theorem steppedTaker_price (taker m : Order) :
    (steppedTaker taker m).price = taker.price := by simp [steppedTaker]

@[simp]
theorem steppedTaker_order_id (taker m : Order) :
    (steppedTaker taker m).order_id = taker.order_id := by simp [steppedTaker]

@[simp]
theorem steppedTaker_quantity (taker m : Order) :
    (steppedTaker taker m).quantity = taker.quantity := by simp [steppedTaker]

@[simp]
theorem steppedTaker_symbol (taker m : Order) :
    (steppedTaker taker m).symbol = taker.symbol := by simp [steppedTaker]

@[simp]
theorem steppedMaker_order_id (taker m : Order) :
    (steppedMaker taker m).order_id = m.order_id := by simp [steppedMaker]

@[simp]
theorem createTrade_counter (fees : FeeSettings) (c : Nat) (t m : Order) (p q : ℚ) :
    (createTrade fees c t m p q).2 = c + 1 := by
  unfold createTrade; split <;> rfl

theorem matchLevelOrders_nil (fees : FeeSettings) (c : Nat) (taker : Order)
    (price tq : ℚ) :
    matchLevelOrders fees c taker price [] tq = ⟨taker, [], tq, [], c, []⟩ := rfl

theorem matchLevelOrders_cons_done (fees : FeeSettings) (c : Nat) (taker m : Order)
    (price : ℚ) (rest : List Order) (tq : ℚ)
    (h : ¬ 0 < taker.remaining_quantity) :
    matchLevelOrders fees c taker price (m :: rest) tq = ⟨taker, m :: rest, tq, [], c, []⟩ := by
  simp only [matchLevelOrders, if_neg h]

theorem matchLevelOrders_cons_pop (fees : FeeSettings) (c : Nat) (taker m : Order)
    (price : ℚ) (rest : List Order) (tq : ℚ)
    (h : 0 < taker.remaining_quantity)
    (hz : (steppedMaker taker m).remaining_quantity = 0) :
    matchLevelOrders fees c taker price (m :: rest) tq =
      (fun r => ⟨r.taker, r.orders, r.total_quantity,
          (createTrade fees c taker m price
            (min taker.remaining_quantity m.remaining_quantity)).1 :: r.trades,
          r.counter, m.order_id :: r.removed⟩ : LevelMatchResult → LevelMatchResult)
        (matchLevelOrders fees
          (createTrade fees c taker m price
            (min taker.remaining_quantity m.remaining_quantity)).2
          (steppedTaker taker m) price rest
          (tq - m.remaining_quantity + (steppedMaker taker m).remaining_quantity)) := by
  have hz' : (Order.updateStatus
      { m with remaining_quantity := m.remaining_quantity - min taker.remaining_quantity m.remaining_quantity }).remaining_quantity = 0 := hz
  simp only [matchLevelOrders]
  rw [if_pos h, if_pos hz']
  rfl

theorem matchLevelOrders_cons_part (fees : FeeSettings) (c : Nat) (taker m : Order)
    (price : ℚ) (rest : List Order) (tq : ℚ)
    (h : 0 < taker.remaining_quantity)
    (hz : ¬ (steppedMaker taker m).remaining_quantity = 0) :
    matchLevelOrders fees c taker price (m :: rest) tq =
      ⟨steppedTaker taker m, steppedMaker taker m :: rest,
        tq - m.remaining_quantity + (steppedMaker taker m).remaining_quantity,
        [(createTrade fees c taker m price
          (min taker.remaining_quantity m.remaining_quantity)).1],
        (createTrade fees c taker m price
          (min taker.remaining_quantity m.remaining_quantity)).2, []⟩ := by
  have hz' : ¬ (Order.updateStatus
      { m with remaining_quantity := m.remaining_quantity - min taker.remaining_quantity m.remaining_quantity }).remaining_quantity = 0 := hz
  simp only [matchLevelOrders]
  rw [if_pos h, if_neg hz']
  rfl

@[simp]
theorem sumTradeQty_nil : sumTradeQty [] = 0 := rfl

@[simp]
theorem sumTradeQty_cons (t : Trade) (ts : List Trade) :
    sumTradeQty (t :: ts) = t.quantity + sumTradeQty ts := by
  simp [sumTradeQty]

@[simp]
theorem sumTradeQty_append (a b : List Trade) :
    sumTradeQty (a ++ b) = sumTradeQty a + sumTradeQty b := by
  simp [sumTradeQty]

@[simp]
theorem sumRemaining_nil : sumRemaining [] = 0 := rfl

@[simp]
theorem sumRemaining_cons (o : Order) (os : List Order) :
    sumRemaining (o :: os) = o.remaining_quantity + sumRemaining os := by
  simp [sumRemaining]

theorem sumRemaining_nonneg (os : List Order)
    (h : ∀ m ∈ os, 0 < m.remaining_quantity) : 0 ≤ sumRemaining os := by
  induction os with
  | nil => simp
  | cons o rest ih =>
    have := h o (List.mem_cons_self o rest)
    have := ih (fun x hx => h x (List.mem_cons_of_mem o hx))
    simp only [sumRemaining_cons]
    linarith

theorem matchLevelOrders_taker_fields (fees : FeeSettings) (c : Nat) (taker : Order)
    (price : ℚ) (os : List Order) (tq : ℚ) :
    (matchLevelOrders fees c taker price os tq).taker.order_type = taker.order_type ∧
    (matchLevelOrders fees c taker price os tq).taker.side = taker.side ∧
    (matchLevelOrders fees c taker price os tq).taker.price = taker.price ∧
    (matchLevelOrders fees c taker price os tq).taker.order_id = taker.order_id ∧
    (matchLevelOrders fees c taker price os tq).taker.quantity = taker.quantity ∧
    (matchLevelOrders fees c taker price os tq).taker.symbol = taker.symbol := by
  induction os generalizing c taker tq with
  | nil => exact ⟨rfl, rfl, rfl, rfl, rfl, rfl⟩
  | cons m rest ih =>
    by_cases hrem : 0 < taker.remaining_quantity
    · by_cases hz : (steppedMaker taker m).remaining_quantity = 0
      · rw [matchLevelOrders_cons_pop fees c taker m price rest tq hrem hz]
        have := ih (createTrade fees c taker m price
          (min taker.remaining_quantity m.remaining_quantity)).2 (steppedTaker taker m)
          (tq - m.remaining_quantity + (steppedMaker taker m).remaining_quantity)
        simpa using this
      · rw [matchLevelOrders_cons_part fees c taker m price rest tq hrem hz]
        simp
    · rw [matchLevelOrders_cons_done fees c taker m price rest tq hrem]
      exact ⟨rfl, rfl, rfl, rfl, rfl, rfl⟩

theorem matchLevelOrders_trades_price (fees : FeeSettings) (c : Nat) (taker : Order)
    (price : ℚ) (os : List Order) (tq : ℚ) :
    ∀ t ∈ (matchLevelOrders fees c taker price os tq).trades, t.price = price := by
  induction os generalizing c taker tq with
  | nil => intro t ht; simp [matchLevelOrders_nil] at ht
  | cons m rest ih =>
    intro t ht
    by_cases hrem : 0 < taker.remaining_quantity
    · by_cases hz : (steppedMaker taker m).remaining_quantity = 0
      · rw [matchLevelOrders_cons_pop fees c taker m price rest tq hrem hz] at ht
        simp only [List.mem_cons] at ht
        rcases ht with h | h
        · subst h; simp
        · exact ih _ _ _ t h
      · rw [matchLevelOrders_cons_part fees c taker m price rest tq hrem hz] at ht
        simp only [List.mem_singleton] at ht
        subst ht; simp
    · rw [matchLevelOrders_cons_done fees c taker m price rest tq hrem] at ht
      simp at ht

theorem matchLevelOrders_trades_positive (fees : FeeSettings) (c : Nat) (taker : Order)
    (price : ℚ) (os : List Order) (tq : ℚ)
    (hm : ∀ m ∈ os, 0 < m.remaining_quantity) :
    ∀ t ∈ (matchLevelOrders fees c taker price os tq).trades, 0 < t.quantity := by
  induction os generalizing c taker tq with
  | nil => intro t ht; simp [matchLevelOrders_nil] at ht
  | cons m rest ih =>
    intro t ht
    by_cases hrem : 0 < taker.remaining_quantity
    · have hfill : 0 < min taker.remaining_quantity m.remaining_quantity :=
        lt_min hrem (hm m (List.mem_cons_self m rest))
      by_cases hz : (steppedMaker taker m).remaining_quantity = 0
      · rw [matchLevelOrders_cons_pop fees c taker m price rest tq hrem hz] at ht
        simp only [List.mem_cons] at ht
        rcases ht with h | h
        · subst h; simpa using hfill
        · exact ih _ _ _ (fun x hx => hm x (List.mem_cons_of_mem m hx)) t h
      · rw [matchLevelOrders_cons_part fees c taker m price rest tq hrem hz] at ht
        simp only [List.mem_singleton] at ht
        subst ht; simpa using hfill
    · rw [matchLevelOrders_cons_done fees c taker m price rest tq hrem] at ht
      simp at ht

theorem matchLevelOrders_trades_fees (fees : FeeSettings) (c : Nat) (taker : Order)
    (price : ℚ) (os : List Order) (tq : ℚ) (hf : fees.enable_fees = true) :
    ∀ t ∈ (matchLevelOrders fees c taker price os tq).trades,
      t.maker_fee = quantize8 (t.price * t.quantity * fees.maker_fee_rate) ∧
      t.taker_fee = quantize8 (t.price * t.quantity * fees.taker_fee_rate) := by
  induction os generalizing c taker tq with
  | nil => intro t ht; simp [matchLevelOrders_nil] at ht
  | cons m rest ih =>
    intro t ht
    by_cases hrem : 0 < taker.remaining_quantity
    · by_cases hz : (steppedMaker taker m).remaining_quantity = 0
      · rw [matchLevelOrders_cons_pop fees c taker m price rest tq hrem hz] at ht
        simp only [List.mem_cons] at ht
        rcases ht with h | h
        · subst h
          simpa using createTrade_fees_enabled fees c taker m price _ hf
        · exact ih _ _ _ t h
      · rw [matchLevelOrders_cons_part fees c taker m price rest tq hrem hz] at ht
        simp only [List.mem_singleton] at ht
        subst ht
        simpa using createTrade_fees_enabled fees c taker m price _ hf
    · rw [matchLevelOrders_cons_done fees c taker m price rest tq hrem] at ht
      simp at ht

theorem matchLevelOrders_struct (fees : FeeSettings) (c : Nat) (taker : Order)
    (price : ℚ) (os : List Order) (tq : ℚ) :
    ∃ k : Nat,
      (matchLevelOrders fees c taker price os tq).removed
        = (os.take k).map Order.order_id ∧
      ∀ t ∈ (matchLevelOrders fees c taker price os tq).trades,
        t.maker_order_id ∈ (os.take (k + 1)).map Order.order_id := by
  induction os generalizing c taker tq with
  | nil =>
    exact ⟨0, rfl, by intro t ht; simp [matchLevelOrders_nil] at ht⟩
  | cons m rest ih =>
    by_cases hrem : 0 < taker.remaining_quantity
    · by_cases hz : (steppedMaker taker m).remaining_quantity = 0
      · rw [matchLevelOrders_cons_pop fees c taker m price rest tq hrem hz]
        obtain ⟨k, hrm, htr⟩ := ih (createTrade fees c taker m price
          (min taker.remaining_quantity m.remaining_quantity)).2 (steppedTaker taker m)
          (tq - m.remaining_quantity + (steppedMaker taker m).remaining_quantity)
        refine ⟨k + 1, ?_, ?_⟩
        · simpa using hrm
        · intro t ht
          simp only [List.mem_cons] at ht
          rcases ht with h | h
          · subst h; simp
          · have := htr t h
            simp only [List.take_succ_cons, List.map_cons, List.mem_cons]
            exact Or.inr this
      · rw [matchLevelOrders_cons_part fees c taker m price rest tq hrem hz]
        refine ⟨0, rfl, ?_⟩
        intro t ht
        simp only [List.mem_singleton] at ht
        subst ht; simp
    · rw [matchLevelOrders_cons_done fees c taker m price rest tq hrem]
      exact ⟨0, rfl, by intro t ht; simp at ht⟩

theorem matchLevelOrders_taker_rem (fees : FeeSettings) (c : Nat) (taker : Order)
    (price : ℚ) (os : List Order) (tq : ℚ)
    (h0 : 0 ≤ taker.remaining_quantity)
    (hm : ∀ m ∈ os, 0 < m.remaining_quantity) :
    (matchLevelOrders fees c taker price os tq).taker.remaining_quantity
      = taker.remaining_quantity - min taker.remaining_quantity (sumRemaining os) := by
  induction os generalizing c taker tq with
  | nil => simp [matchLevelOrders_nil, min_eq_right h0]
  | cons m rest ih =>
    have hmp : 0 < m.remaining_quantity := hm m (List.mem_cons_self m rest)
    have hsr : 0 ≤ sumRemaining rest :=
      sumRemaining_nonneg rest (fun x hx => hm x (List.mem_cons_of_mem m hx))
    by_cases hrem : 0 < taker.remaining_quantity
    · by_cases hz : (steppedMaker taker m).remaining_quantity = 0
      · have hmle : m.remaining_quantity ≤ taker.remaining_quantity := by
          simp only [steppedMaker_remaining] at hz
          rcases le_total taker.remaining_quantity m.remaining_quantity with hle | hle
          · rw [min_eq_left hle] at hz; linarith
          · exact hle
        rw [matchLevelOrders_cons_pop fees c taker m price rest tq hrem hz]
        have h0' : 0 ≤ (steppedTaker taker m).remaining_quantity := by
          simp only [steppedTaker_remaining]
          have : min taker.remaining_quantity m.remaining_quantity ≤ taker.remaining_quantity :=
            min_le_left _ _
          linarith
        have ihr := ih (createTrade fees c taker m price
          (min taker.remaining_quantity m.remaining_quantity)).2 (steppedTaker taker m)
          (tq - m.remaining_quantity + (steppedMaker taker m).remaining_quantity)
          h0' (fun x hx => hm x (List.mem_cons_of_mem m hx))
        simp only [steppedTaker_remaining, min_eq_right hmle] at ihr
        simp only [ihr, steppedTaker_remaining, min_eq_right hmle, sumRemaining_cons]
        rcases le_total (taker.remaining_quantity - m.remaining_quantity) (sumRemaining rest)
          with hc | hc
        · rw [min_eq_left hc, min_eq_left (by linarith)]
          ring
        · rw [min_eq_right hc, min_eq_right (by linarith)]
          ring
      · rw [matchLevelOrders_cons_part fees c taker m price rest tq hrem hz]
        have htle : taker.remaining_quantity ≤ m.remaining_quantity := by
          simp only [steppedMaker_remaining] at hz
          rcases le_total m.remaining_quantity taker.remaining_quantity with hle | hle
          · rw [min_eq_right hle] at hz
            exact absurd (by ring) hz
          · exact hle
        have hmin : min taker.remaining_quantity (m.remaining_quantity + sumRemaining rest)
            = taker.remaining_quantity := min_eq_left (by linarith)
        simp only [steppedTaker_remaining, sumRemaining_cons, hmin, min_eq_left htle]
    · rw [matchLevelOrders_cons_done fees c taker m price rest tq hrem]
      have hre : taker.remaining_quantity = 0 := le_antisymm (not_lt.mp hrem) h0
      rw [hre]
      rw [min_eq_left (by simpa [hre, sumRemaining_cons] using by linarith)]
      ring

theorem matchLevelOrders_orders_empty (fees : FeeSettings) (c : Nat) (taker : Order)
    (price : ℚ) (os : List Order) (tq : ℚ)
    (hm : ∀ m ∈ os, 0 < m.remaining_quantity)
    (hsum : sumRemaining os ≤ taker.remaining_quantity) :
    (matchLevelOrders fees c taker price os tq).orders = [] := by
  induction os generalizing c taker tq with
  | nil => rfl
  | cons m rest ih =>
    have hmp : 0 < m.remaining_quantity := hm m (List.mem_cons_self m rest)
    have hsr : 0 ≤ sumRemaining rest :=
      sumRemaining_nonneg rest (fun x hx => hm x (List.mem_cons_of_mem m hx))
    have hsum' : m.remaining_quantity + sumRemaining rest ≤ taker.remaining_quantity := by
      simpa [sumRemaining_cons] using hsum
    have hrem : 0 < taker.remaining_quantity := by linarith
    have hmle : m.remaining_quantity ≤ taker.remaining_quantity := by linarith
    have hz : (steppedMaker taker m).remaining_quantity = 0 := by
      simp [steppedMaker_remaining, min_eq_right hmle]
    rw [matchLevelOrders_cons_pop fees c taker m price rest tq hrem hz]
    have ihr := ih (createTrade fees c taker m price
      (min taker.remaining_quantity m.remaining_quantity)).2 (steppedTaker taker m)
      (tq - m.remaining_quantity + (steppedMaker taker m).remaining_quantity)
      (fun x hx => hm x (List.mem_cons_of_mem m hx))
      (by simp [steppedTaker_remaining, min_eq_right hmle]; linarith)
    simpa using ihr

theorem matchLevelOrders_conservation (fees : FeeSettings) (c : Nat) (taker : Order)
    (price : ℚ) (os : List Order) (tq : ℚ) :
    sumTradeQty (matchLevelOrders fees c taker price os tq).trades
      = taker.remaining_quantity
        - (matchLevelOrders fees c taker price os tq).taker.remaining_quantity := by
  induction os generalizing c taker tq with
  | nil => simp [matchLevelOrders_nil]
  | cons m rest ih =>
    by_cases hrem : 0 < taker.remaining_quantity
    · by_cases hz : (steppedMaker taker m).remaining_quantity = 0
      · rw [matchLevelOrders_cons_pop fees c taker m price rest tq hrem hz]
        have ihr := ih (createTrade fees c taker m price
          (min taker.remaining_quantity m.remaining_quantity)).2 (steppedTaker taker m)
          (tq - m.remaining_quantity + (steppedMaker taker m).remaining_quantity)
        dsimp only
        rw [sumTradeQty_cons, createTrade_quantity, ihr]
        simp only [steppedTaker_remaining]
        ring
      · rw [matchLevelOrders_cons_part fees c taker m price rest tq hrem hz]
        dsimp only
        rw [sumTradeQty_cons, sumTradeQty_nil, createTrade_quantity]
        simp only [steppedTaker_remaining]
        ring
    · rw [matchLevelOrders_cons_done fees c taker m price rest tq hrem]
      simp

theorem matchLevelOrders_nonempty_rem_zero (fees : FeeSettings) (c : Nat) (taker : Order)
    (price : ℚ) (os : List Order) (tq : ℚ)
    (h0 : 0 ≤ taker.remaining_quantity)
    (hne : (matchLevelOrders fees c taker price os tq).orders ≠ []) :
    (matchLevelOrders fees c taker price os tq).taker.remaining_quantity = 0 := by
  induction os generalizing c taker tq with
  | nil => exact absurd rfl hne
  | cons m rest ih =>
    by_cases hrem : 0 < taker.remaining_quantity
    · by_cases hz : (steppedMaker taker m).remaining_quantity = 0
      · rw [matchLevelOrders_cons_pop fees c taker m price rest tq hrem hz] at hne ⊢
        have h0' : 0 ≤ (steppedTaker taker m).remaining_quantity := by
          simp only [steppedTaker_remaining]
          have := min_le_left taker.remaining_quantity m.remaining_quantity
          linarith
        exact ih _ _ _ h0' (by simpa using hne)
      · rw [matchLevelOrders_cons_part fees c taker m price rest tq hrem hz]
        have htle : taker.remaining_quantity ≤ m.remaining_quantity := by
          simp only [steppedMaker_remaining] at hz
          rcases le_total m.remaining_quantity taker.remaining_quantity with hle | hle
          · rw [min_eq_right hle] at hz
            exact absurd (by ring) hz
          · exact hle
        simp [steppedTaker_remaining, min_eq_left htle]
    · rw [matchLevelOrders_cons_done fees c taker m price rest tq hrem]
      exact le_antisymm (not_lt.mp hrem) h0

theorem matchLevelOrders_orders_ids (fees : FeeSettings) (c : Nat) (taker : Order)
    (price : ℚ) (os : List Order) (tq : ℚ) :
    ∀ o ∈ (matchLevelOrders fees c taker price os tq).orders,
      o.order_id ∈ os.map Order.order_id := by
  induction os generalizing c taker tq with
  | nil => intro o ho; simp [matchLevelOrders_nil] at ho
  | cons m rest ih =>
    intro o ho
    by_cases hrem : 0 < taker.remaining_quantity
    · by_cases hz : (steppedMaker taker m).remaining_quantity = 0
      · rw [matchLevelOrders_cons_pop fees c taker m price rest tq hrem hz] at ho
        have := ih (createTrade fees c taker m price
          (min taker.remaining_quantity m.remaining_quantity)).2 (steppedTaker taker m)
          (tq - m.remaining_quantity + (steppedMaker taker m).remaining_quantity) o
          (by simpa using ho)
        simp only [List.map_cons, List.mem_cons]
        exact Or.inr this
      · rw [matchLevelOrders_cons_part fees c taker m price rest tq hrem hz] at ho
        simp only [List.mem_cons] at ho
        rcases ho with h | h
        · subst h; simp
        · simp only [List.map_cons, List.mem_cons]
          exact Or.inr (List.mem_map_of_mem Order.order_id h)
    · rw [matchLevelOrders_cons_done fees c taker m price rest tq hrem] at ho
      exact List.mem_map_of_mem Order.order_id ho

theorem canMatch_congr (a b : Order) (x : ℚ) (h1 : a.order_type = b.order_type)
    (h2 : a.side = b.side) (h3 : a.price = b.price) : canMatch a x = canMatch b x := by
  unfold canMatch
  rw [h1, h2, h3]

theorem matchPriceLevels_nil (fees : FeeSettings) (c : Nat) (taker : Order) :
    matchPriceLevels fees c taker [] = ⟨taker, [], [], c, []⟩ := rfl

theorem matchPriceLevels_cons_done (fees : FeeSettings) (c : Nat) (taker : Order)
    (level : PriceLevel) (rest : List PriceLevel)
    (h : ¬ 0 < taker.remaining_quantity) :
    matchPriceLevels fees c taker (level :: rest) = ⟨taker, level :: rest, [], c, []⟩ := by
  simp only [matchPriceLevels, if_neg h]

theorem matchPriceLevels_cons_nomatch (fees : FeeSettings) (c : Nat) (taker : Order)
    (level : PriceLevel) (rest : List PriceLevel)
    (h : 0 < taker.remaining_quantity) (hc : ¬ canMatch taker level.price = true) :
    matchPriceLevels fees c taker (level :: rest) = ⟨taker, level :: rest, [], c, []⟩ := by
  simp only [matchPriceLevels, if_pos h, if_neg hc]

theorem matchPriceLevels_cons_empty (fees : FeeSettings) (c : Nat) (taker : Order)
    (level : PriceLevel) (rest : List PriceLevel)
    (h : 0 < taker.remaining_quantity) (hc : canMatch taker level.price = true)
    (he : (levelRes fees c taker level).orders = []) :
    matchPriceLevels fees c taker (level :: rest) =
      (fun r2 => ⟨r2.taker, r2.levels,
        (levelRes fees c taker level).trades ++ r2.trades, r2.counter,
        (levelRes fees c taker level).removed ++ r2.removed⟩ :
          SideMatchResult → SideMatchResult)
        (matchPriceLevels fees (levelRes fees c taker level).counter
          (levelRes fees c taker level).taker rest) := by
  have he' : (matchLevelOrders fees c taker level.price level.orders
      level.total_quantity).orders.isEmpty = true := by
    have he2 : (matchLevelOrders fees c taker level.price level.orders
        level.total_quantity).orders = [] := he
    rw [he2]; rfl
  simp only [matchPriceLevels, if_pos h, if_pos hc]
  rw [if_pos he']
  rfl

theorem matchPriceLevels_cons_stay (fees : FeeSettings) (c : Nat) (taker : Order)
    (level : PriceLevel) (rest : List PriceLevel)
    (h : 0 < taker.remaining_quantity) (hc : canMatch taker level.price = true)
    (he : ¬ (levelRes fees c taker level).orders = []) :
    matchPriceLevels fees c taker (level :: rest) =
      ⟨(levelRes fees c taker level).taker,
        ⟨level.price, (levelRes fees c taker level).orders,
          (levelRes fees c taker level).total_quantity⟩ :: rest,
        (levelRes fees c taker level).trades,
        (levelRes fees c taker level).counter,
        (levelRes fees c taker level).removed⟩ := by
  have he' : ¬ (matchLevelOrders fees c taker level.price level.orders
      level.total_quantity).orders.isEmpty = true := by
    have he2 : ¬ (matchLevelOrders fees c taker level.price level.orders
        level.total_quantity).orders = [] := he
    simpa [List.isEmpty_iff] using he2
  simp only [matchPriceLevels, if_pos h, if_pos hc]
  rw [if_neg he']
  rfl

theorem sameOrderCore_refl (a : Order) : sameOrderCore a a :=
  ⟨rfl, rfl, rfl, rfl, rfl, rfl⟩

theorem sameOrderCore_trans (a b c : Order) (h1 : sameOrderCore a b)
    (h2 : sameOrderCore b c) : sameOrderCore a c := by
  obtain ⟨x1, x2, x3, x4, x5, x6⟩ := h1
  obtain ⟨y1, y2, y3, y4, y5, y6⟩ := h2
  exact ⟨x1.trans y1, x2.trans y2, x3.trans y3, x4.trans y4, x5.trans y5, x6.trans y6⟩

theorem matchLevelOrders_core (fees : FeeSettings) (c : Nat) (taker : Order)
    (price : ℚ) (os : List Order) (tq : ℚ) :
    sameOrderCore (matchLevelOrders fees c taker price os tq).taker taker :=
  matchLevelOrders_taker_fields fees c taker price os tq

theorem matchPriceLevels_zero (fees : FeeSettings) (c : Nat) (taker : Order)
    (levels : List PriceLevel) (h : ¬ 0 < taker.remaining_quantity) :
    matchPriceLevels fees c taker levels = ⟨taker, levels, [], c, []⟩ := by
  cases levels with
  | nil => rfl
  | cons level rest => exact matchPriceLevels_cons_done fees c taker level rest h

theorem matchPriceLevels_core (fees : FeeSettings) (c : Nat) (taker : Order)
    (levels : List PriceLevel) :
    sameOrderCore (matchPriceLevels fees c taker levels).taker taker := by
  induction levels generalizing c taker with
  | nil => exact sameOrderCore_refl taker
  | cons level rest ih =>
    by_cases hrem : 0 < taker.remaining_quantity
    · by_cases hc : canMatch taker level.price = true
      · by_cases he : (levelRes fees c taker level).orders = []
        · rw [matchPriceLevels_cons_empty fees c taker level rest hrem hc he]
          exact sameOrderCore_trans _ _ _
            (ih (levelRes fees c taker level).counter (levelRes fees c taker level).taker)
            (matchLevelOrders_core fees c taker level.price level.orders level.total_quantity)
        · rw [matchPriceLevels_cons_stay fees c taker level rest hrem hc he]
          exact matchLevelOrders_core fees c taker level.price level.orders level.total_quantity
      · rw [matchPriceLevels_cons_nomatch fees c taker level rest hrem hc]
        exact sameOrderCore_refl taker
    · rw [matchPriceLevels_cons_done fees c taker level rest hrem]
      exact sameOrderCore_refl taker

theorem matchLevelOrders_rem_nonneg (fees : FeeSettings) (c : Nat) (taker : Order)
    (price : ℚ) (os : List Order) (tq : ℚ) (h0 : 0 ≤ taker.remaining_quantity) :
    0 ≤ (matchLevelOrders fees c taker price os tq).taker.remaining_quantity := by
  induction os generalizing c taker tq with
  | nil => simpa [matchLevelOrders_nil] using h0
  | cons m rest ih =>
    by_cases hrem : 0 < taker.remaining_quantity
    · by_cases hz : (steppedMaker taker m).remaining_quantity = 0
      · rw [matchLevelOrders_cons_pop fees c taker m price rest tq hrem hz]
        have h0' : 0 ≤ (steppedTaker taker m).remaining_quantity := by
          simp only [steppedTaker_remaining]
          have := min_le_left taker.remaining_quantity m.remaining_quantity
          linarith
        exact ih _ _ _ h0'
      · rw [matchLevelOrders_cons_part fees c taker m price rest tq hrem hz]
        simp only [steppedTaker_remaining]
        have := min_le_left taker.remaining_quantity m.remaining_quantity
        linarith
    · rw [matchLevelOrders_cons_done fees c taker m price rest tq hrem]
      exact h0

theorem matchPriceLevels_rem_nonneg (fees : FeeSettings) (c : Nat) (taker : Order)
    (levels : List PriceLevel) (h0 : 0 ≤ taker.remaining_quantity) :
    0 ≤ (matchPriceLevels fees c taker levels).taker.remaining_quantity := by
  induction levels generalizing c taker with
  | nil => simpa [matchPriceLevels_nil] using h0
  | cons level rest ih =>
    by_cases hrem : 0 < taker.remaining_quantity
    · by_cases hc : canMatch taker level.price = true
      · by_cases he : (levelRes fees c taker level).orders = []
        · rw [matchPriceLevels_cons_empty fees c taker level rest hrem hc he]
          exact ih _ _ (matchLevelOrders_rem_nonneg fees c taker level.price level.orders
            level.total_quantity h0)
        · rw [matchPriceLevels_cons_stay fees c taker level rest hrem hc he]
          exact matchLevelOrders_rem_nonneg fees c taker level.price level.orders
            level.total_quantity h0
      · rw [matchPriceLevels_cons_nomatch fees c taker level rest hrem hc]
        exact h0
    · rw [matchPriceLevels_cons_done fees c taker level rest hrem]
      exact h0

theorem matchLevelOrders_rem_le (fees : FeeSettings) (c : Nat) (taker : Order)
    (price : ℚ) (os : List Order) (tq : ℚ)
    (hm : ∀ m ∈ os, 0 < m.remaining_quantity) :
    (matchLevelOrders fees c taker price os tq).taker.remaining_quantity
      ≤ taker.remaining_quantity := by
  induction os generalizing c taker tq with
  | nil => simp [matchLevelOrders_nil]
  | cons m rest ih =>
    have hmp : 0 < m.remaining_quantity := hm m (List.mem_cons_self m rest)
    by_cases hrem : 0 < taker.remaining_quantity
    · have hstep : (steppedTaker taker m).remaining_quantity ≤ taker.remaining_quantity := by
        simp only [steppedTaker_remaining]
        have h1 : 0 ≤ min taker.remaining_quantity m.remaining_quantity :=
          le_min hrem.le hmp.le
        linarith
      by_cases hz : (steppedMaker taker m).remaining_quantity = 0
      · rw [matchLevelOrders_cons_pop fees c taker m price rest tq hrem hz]
        exact le_trans
          (ih _ _ _ (fun m2 hm2 => hm m2 (List.mem_cons_of_mem m hm2))) hstep
      · rw [matchLevelOrders_cons_part fees c taker m price rest tq hrem hz]
        exact hstep
    · rw [matchLevelOrders_cons_done fees c taker m price rest tq hrem]

theorem matchPriceLevels_rem_le (fees : FeeSettings) (c : Nat) (taker : Order)
    (levels : List PriceLevel)
    (hm : ∀ l ∈ levels, ∀ m ∈ l.orders, 0 < m.remaining_quantity) :
    (matchPriceLevels fees c taker levels).taker.remaining_quantity
      ≤ taker.remaining_quantity := by
  induction levels generalizing c taker with
  | nil => simp [matchPriceLevels_nil]
  | cons level rest ih =>
    have hlev : ∀ m ∈ level.orders, 0 < m.remaining_quantity :=
      hm level (List.mem_cons_self level rest)
    have hlo : (matchLevelOrders fees c taker level.price level.orders
        level.total_quantity).taker.remaining_quantity ≤ taker.remaining_quantity :=
      matchLevelOrders_rem_le fees c taker level.price level.orders level.total_quantity hlev
    by_cases hrem : 0 < taker.remaining_quantity
    · by_cases hc : canMatch taker level.price = true
      · by_cases he : (levelRes fees c taker level).orders = []
        · rw [matchPriceLevels_cons_empty fees c taker level rest hrem hc he]
          exact le_trans
            (ih _ _ (fun l2 hl2 => hm l2 (List.mem_cons_of_mem level hl2))) hlo
        · rw [matchPriceLevels_cons_stay fees c taker level rest hrem hc he]
          exact hlo
      · rw [matchPriceLevels_cons_nomatch fees c taker level rest hrem hc]
    · rw [matchPriceLevels_cons_done fees c taker level rest hrem]

theorem matchPriceLevels_conservation (fees : FeeSettings) (c : Nat) (taker : Order)
    (levels : List PriceLevel) :
    sumTradeQty (matchPriceLevels fees c taker levels).trades
      = taker.remaining_quantity
        - (matchPriceLevels fees c taker levels).taker.remaining_quantity := by
  induction levels generalizing c taker with
  | nil => simp [matchPriceLevels_nil]
  | cons level rest ih =>
    by_cases hrem : 0 < taker.remaining_quantity
    · by_cases hc : canMatch taker level.price = true
      · by_cases he : (levelRes fees c taker level).orders = []
        · rw [matchPriceLevels_cons_empty fees c taker level rest hrem hc he]
          dsimp only
          rw [sumTradeQty_append]
          rw [ih (levelRes fees c taker level).counter (levelRes fees c taker level).taker]
          have h1 := matchLevelOrders_conservation fees c taker level.price level.orders
            level.total_quantity
          have h1' : sumTradeQty (levelRes fees c taker level).trades
              = taker.remaining_quantity - (levelRes fees c taker level).taker.remaining_quantity := h1
          rw [h1']
          ring
        · rw [matchPriceLevels_cons_stay fees c taker level rest hrem hc he]
          exact matchLevelOrders_conservation fees c taker level.price level.orders
            level.total_quantity
      · rw [matchPriceLevels_cons_nomatch fees c taker level rest hrem hc]
        simp
    · rw [matchPriceLevels_cons_done fees c taker level rest hrem]
      simp

theorem matchPriceLevels_trades_level_mem (fees : FeeSettings) (c : Nat) (taker : Order)
    (levels : List PriceLevel) :
    ∀ t ∈ (matchPriceLevels fees c taker levels).trades,
      ∃ lv ∈ levels, t.price = lv.price ∧ canMatch taker lv.price = true := by
  induction levels generalizing c taker with
  | nil => intro t ht; simp [matchPriceLevels_nil] at ht
  | cons level rest ih =>
    intro t ht
    by_cases hrem : 0 < taker.remaining_quantity
    · by_cases hc : canMatch taker level.price = true
      · by_cases he : (levelRes fees c taker level).orders = []
        · rw [matchPriceLevels_cons_empty fees c taker level rest hrem hc he] at ht
          dsimp only at ht
          rw [List.mem_append] at ht
          rcases ht with h | h
          · exact ⟨level, List.mem_cons_self level rest,
              matchLevelOrders_trades_price fees c taker level.price level.orders
                level.total_quantity t h, hc⟩
          · obtain ⟨lv, hlv, hpr, hcm⟩ := ih _ _ t h
            refine ⟨lv, List.mem_cons_of_mem level hlv, hpr, ?_⟩
            obtain ⟨f1, f2, f3, -, -, -⟩ :=
              matchLevelOrders_core fees c taker level.price level.orders level.total_quantity
            rw [← canMatch_congr _ _ lv.price f1 f2 f3]
            exact hcm
        · rw [matchPriceLevels_cons_stay fees c taker level rest hrem hc he] at ht
          exact ⟨level, List.mem_cons_self level rest,
            matchLevelOrders_trades_price fees c taker level.price level.orders
              level.total_quantity t ht, hc⟩
      · rw [matchPriceLevels_cons_nomatch fees c taker level rest hrem hc] at ht
        simp at ht
    · rw [matchPriceLevels_cons_done fees c taker level rest hrem] at ht
      simp at ht

theorem matchPriceLevels_levels_price_mem (fees : FeeSettings) (c : Nat) (taker : Order)
    (levels : List PriceLevel) :
    ∀ lv' ∈ (matchPriceLevels fees c taker levels).levels,
      ∃ lv ∈ levels, lv'.price = lv.price := by
  induction levels generalizing c taker with
  | nil => intro lv' h; simp [matchPriceLevels_nil] at h
  | cons level rest ih =>
    intro lv' hlv'
    by_cases hrem : 0 < taker.remaining_quantity
    · by_cases hc : canMatch taker level.price = true
      · by_cases he : (levelRes fees c taker level).orders = []
        · rw [matchPriceLevels_cons_empty fees c taker level rest hrem hc he] at hlv'
          obtain ⟨lv, hlv, hpr⟩ := ih _ _ lv' hlv'
          exact ⟨lv, List.mem_cons_of_mem level hlv, hpr⟩
        · rw [matchPriceLevels_cons_stay fees c taker level rest hrem hc he] at hlv'
          simp only [List.mem_cons] at hlv'
          rcases hlv' with h | h
          · subst h; exact ⟨level, List.mem_cons_self level rest, rfl⟩
          · exact ⟨lv', List.mem_cons_of_mem level h, rfl⟩
      · rw [matchPriceLevels_cons_nomatch fees c taker level rest hrem hc] at hlv'
        exact ⟨lv', hlv', rfl⟩
    · rw [matchPriceLevels_cons_done fees c taker level rest hrem] at hlv'
      exact ⟨lv', hlv', rfl⟩

theorem matchPriceLevels_trades_positive (fees : FeeSettings) (c : Nat) (taker : Order)
    (levels : List PriceLevel)
    (hm : ∀ l ∈ levels, ∀ m ∈ l.orders, 0 < m.remaining_quantity) :
    ∀ t ∈ (matchPriceLevels fees c taker levels).trades, 0 < t.quantity := by
  induction levels generalizing c taker with
  | nil => intro t ht; simp [matchPriceLevels_nil] at ht
  | cons level rest ih =>
    intro t ht
    by_cases hrem : 0 < taker.remaining_quantity
    · by_cases hc : canMatch taker level.price = true
      · by_cases he : (levelRes fees c taker level).orders = []
        · rw [matchPriceLevels_cons_empty fees c taker level rest hrem hc he] at ht
          dsimp only at ht
          rw [List.mem_append] at ht
          rcases ht with h | h
          · exact matchLevelOrders_trades_positive fees c taker level.price level.orders
              level.total_quantity (hm level (List.mem_cons_self level rest)) t h
          · exact ih _ _ (fun l hl => hm l (List.mem_cons_of_mem level hl)) t h
        · rw [matchPriceLevels_cons_stay fees c taker level rest hrem hc he] at ht
          exact matchLevelOrders_trades_positive fees c taker level.price level.orders
            level.total_quantity (hm level (List.mem_cons_self level rest)) t ht
      · rw [matchPriceLevels_cons_nomatch fees c taker level rest hrem hc] at ht
        simp at ht
    · rw [matchPriceLevels_cons_done fees c taker level rest hrem] at ht
      simp at ht

theorem matchPriceLevels_trades_fees (fees : FeeSettings) (c : Nat) (taker : Order)
    (levels : List PriceLevel) (hf : fees.enable_fees = true) :
    ∀ t ∈ (matchPriceLevels fees c taker levels).trades,
      t.maker_fee = quantize8 (t.price * t.quantity * fees.maker_fee_rate) ∧
      t.taker_fee = quantize8 (t.price * t.quantity * fees.taker_fee_rate) := by
  induction levels generalizing c taker with
  | nil => intro t ht; simp [matchPriceLevels_nil] at ht
  | cons level rest ih =>
    intro t ht
    by_cases hrem : 0 < taker.remaining_quantity
    · by_cases hc : canMatch taker level.price = true
      · by_cases he : (levelRes fees c taker level).orders = []
        · rw [matchPriceLevels_cons_empty fees c taker level rest hrem hc he] at ht
          dsimp only at ht
          rw [List.mem_append] at ht
          rcases ht with h | h
          · exact matchLevelOrders_trades_fees fees c taker level.price level.orders
              level.total_quantity hf t h
          · exact ih _ _ t h
        · rw [matchPriceLevels_cons_stay fees c taker level rest hrem hc he] at ht
          exact matchLevelOrders_trades_fees fees c taker level.price level.orders
            level.total_quantity hf t ht
      · rw [matchPriceLevels_cons_nomatch fees c taker level rest hrem hc] at ht
        simp at ht
    · rw [matchPriceLevels_cons_done fees c taker level rest hrem] at ht
      simp at ht

theorem canMatch_market (taker : Order) (x : ℚ)
    (h : taker.order_type = OrderType.market) : canMatch taker x = true := by
  simp [canMatch, h]

theorem matchPriceLevels_market_exhaust (fees : FeeSettings) (c : Nat) (taker : Order)
    (levels : List PriceLevel) (hmkt : taker.order_type = OrderType.market)
    (h0 : 0 ≤ taker.remaining_quantity) :
    (matchPriceLevels fees c taker levels).taker.remaining_quantity = 0 ∨
    (matchPriceLevels fees c taker levels).levels = [] := by
  induction levels generalizing c taker with
  | nil => right; simp [matchPriceLevels_nil]
  | cons level rest ih =>
    by_cases hrem : 0 < taker.remaining_quantity
    · have hc : canMatch taker level.price = true := canMatch_market taker level.price hmkt
      by_cases he : (levelRes fees c taker level).orders = []
      · rw [matchPriceLevels_cons_empty fees c taker level rest hrem hc he]
        obtain ⟨f1, -, -, -, -, -⟩ :=
          matchLevelOrders_core fees c taker level.price level.orders level.total_quantity
        exact ih _ _ (f1.trans hmkt)
          (matchLevelOrders_rem_nonneg fees c taker level.price level.orders
            level.total_quantity h0)
      · rw [matchPriceLevels_cons_stay fees c taker level rest hrem hc he]
        left
        exact matchLevelOrders_nonempty_rem_zero fees c taker level.price level.orders
          level.total_quantity h0 he
    · rw [matchPriceLevels_cons_done fees c taker level rest hrem]
      left
      exact le_antisymm (not_lt.mp hrem) h0

theorem canFillFokLoop_congr (a b : Order) (r : ℚ) (levels : List PriceLevel)
    (h1 : a.order_type = b.order_type) (h2 : a.side = b.side) (h3 : a.price = b.price) :
    canFillFokLoop a r levels = canFillFokLoop b r levels := by
  induction levels generalizing r with
  | nil => rfl
  | cons level rest ih =>
    simp only [canFillFokLoop, canMatch_congr a b level.price h1 h2 h3]
    split
    · split
      · rfl
      · exact ih _
    · rfl

theorem matchPriceLevels_fok_fill (fees : FeeSettings) (c : Nat) (taker : Order)
    (levels : List PriceLevel)
    (h0 : 0 ≤ taker.remaining_quantity)
    (hwf : ∀ l ∈ levels, levelFillWF l = true)
    (hf : canFillFokLoop taker taker.remaining_quantity levels = true) :
    (matchPriceLevels fees c taker levels).taker.remaining_quantity = 0 := by
  induction levels generalizing c taker with
  | nil =>
    rw [matchPriceLevels_nil]
    simpa [canFillFokLoop] using hf
  | cons level rest ih =>
    have hwfl := hwf level (List.mem_cons_self level rest)
    rw [levelFillWF, Bool.and_eq_true, beq_iff_eq] at hwfl
    obtain ⟨htq, hallpos⟩ := hwfl
    have hpos : ∀ m ∈ level.orders, 0 < m.remaining_quantity := by
      intro m hm
      have := List.all_eq_true.mp hallpos m hm
      exact of_decide_eq_true this
    have hsum0 : 0 ≤ sumRemaining level.orders := sumRemaining_nonneg _ hpos
    by_cases hc : canMatch taker level.price = true
    · rw [canFillFokLoop, if_pos hc] at hf
      by_cases hz : taker.remaining_quantity - min taker.remaining_quantity level.total_quantity = 0
      · -- the whole remaining quantity fits at this level
        have hle : taker.remaining_quantity ≤ level.total_quantity := by
          rcases le_total taker.remaining_quantity level.total_quantity with h | h
          · exact h
          · rw [min_eq_right h] at hz; linarith
        by_cases hrem : 0 < taker.remaining_quantity
        · have hrz : (levelRes fees c taker level).taker.remaining_quantity = 0 := by
            have := matchLevelOrders_taker_rem fees c taker level.price level.orders
              level.total_quantity h0 hpos
            have hmin : min taker.remaining_quantity (sumRemaining level.orders)
                = taker.remaining_quantity := min_eq_left (by rw [← htq]; exact hle)
            rw [hmin] at this
            simpa using this
          by_cases he : (levelRes fees c taker level).orders = []
          · rw [matchPriceLevels_cons_empty fees c taker level rest hrem hc he]
            dsimp only
            rw [matchPriceLevels_zero fees _ _ rest (by rw [hrz]; simp)]
            exact hrz
          · rw [matchPriceLevels_cons_stay fees c taker level rest hrem hc he]
            exact hrz
        · rw [matchPriceLevels_cons_done fees c taker level rest hrem]
          exact le_antisymm (not_lt.mp hrem) h0
      · -- this level is exhausted and the loop continues
        rw [if_neg (by simpa using hz)] at hf
        have hlt : level.total_quantity < taker.remaining_quantity := by
          rcases le_total taker.remaining_quantity level.total_quantity with h | h
          · rw [min_eq_left h] at hz; exact absurd (by ring) hz
          · rcases lt_or_eq_of_le h with h' | h'
            · exact h'
            · rw [h', min_eq_left le_rfl] at hz
              exact absurd (by ring) hz
        have htqpos : 0 ≤ level.total_quantity := by rw [htq]; exact hsum0
        have hrem : 0 < taker.remaining_quantity := lt_of_le_of_lt htqpos hlt
        have hsumle : sumRemaining level.orders ≤ taker.remaining_quantity := by
          rw [← htq]; exact le_of_lt hlt
        have he : (levelRes fees c taker level).orders = [] :=
          matchLevelOrders_orders_empty fees c taker level.price level.orders
            level.total_quantity hpos hsumle
        rw [matchPriceLevels_cons_empty fees c taker level rest hrem hc he]
        dsimp only
        have hrem' : (levelRes fees c taker level).taker.remaining_quantity
            = taker.remaining_quantity - level.total_quantity := by
          have := matchLevelOrders_taker_rem fees c taker level.price level.orders
            level.total_quantity h0 hpos
          have hmin : min taker.remaining_quantity (sumRemaining level.orders)
              = sumRemaining level.orders := min_eq_right hsumle
          rw [hmin, ← htq] at this
          exact this
        have hmin2 : min taker.remaining_quantity level.total_quantity
            = level.total_quantity := min_eq_right (le_of_lt hlt)
        rw [hmin2] at hf
        obtain ⟨f1, f2, f3, -, -, -⟩ :=
          matchLevelOrders_core fees c taker level.price level.orders level.total_quantity
        have f1' : (levelRes fees c taker level).taker.order_type = taker.order_type := f1
        have f2' : (levelRes fees c taker level).taker.side = taker.side := f2
        have f3' : (levelRes fees c taker level).taker.price = taker.price := f3
        have hf' : canFillFokLoop (levelRes fees c taker level).taker
            (levelRes fees c taker level).taker.remaining_quantity rest = true := by
          rw [canFillFokLoop_congr _ taker _ rest f1' f2' f3', hrem']
          exact hf
        exact ih _ _ (by rw [hrem']; linarith)
          (fun l hl => hwf l (List.mem_cons_of_mem level hl)) hf'
    · rw [canFillFokLoop, if_neg hc] at hf
      have hz : taker.remaining_quantity = 0 := by simpa using hf
      rw [matchPriceLevels_zero fees c taker _ (by rw [hz]; simp)]
      exact hz

theorem priceRel_refl (side : Side) (a : ℚ) : priceRel side a a := by
  cases side <;> simp [priceRel]

theorem canMatch_iff (taker : Order) (x P : ℚ)
    (hnm : ¬ taker.order_type = OrderType.market) (hp : taker.price = some P) :
    canMatch taker x = true ↔ priceRel taker.side x P := by
  rw [canMatch, if_neg hnm, hp]
  cases hside : taker.side <;> simp [hside, priceRel]

theorem pairwise_of_all_price_eq (ts : List Trade) (p : ℚ) (side : Side)
    (h : ∀ t ∈ ts, t.price = p) :
    ts.Pairwise (fun t1 t2 => priceRel side t1.price t2.price) := by
  induction ts with
  | nil => exact List.Pairwise.nil
  | cons t rest ih =>
    refine List.Pairwise.cons ?_ (ih (fun x hx => h x (List.mem_cons_of_mem t hx)))
    intro t2 ht2
    rw [h t (List.mem_cons_self t rest), h t2 (List.mem_cons_of_mem t ht2)]
    exact priceRel_refl side p

theorem matchPriceLevels_price_priority (fees : FeeSettings) (c : Nat) (taker : Order)
    (levels : List PriceLevel) (P : ℚ)
    (hnm : ¬ taker.order_type = OrderType.market) (hp : taker.price = some P)
    (hsort : levels.Pairwise (fun a b => priceRel taker.side a.price b.price)) :
    (∀ t ∈ (matchPriceLevels fees c taker levels).trades, priceRel taker.side t.price P) ∧
    (matchPriceLevels fees c taker levels).trades.Pairwise
      (fun t1 t2 => priceRel taker.side t1.price t2.price) ∧
    (∀ t ∈ (matchPriceLevels fees c taker levels).trades,
      ∀ lv ∈ (matchPriceLevels fees c taker levels).levels,
        priceRel taker.side t.price lv.price) := by
  induction levels generalizing c taker with
  | nil =>
    rw [matchPriceLevels_nil]
    exact ⟨by intro t ht; simp at ht, List.Pairwise.nil, by intro t ht; simp at ht⟩
  | cons level rest ih =>
    by_cases hrem : 0 < taker.remaining_quantity
    · by_cases hc : canMatch taker level.price = true
      · have hrelP : priceRel taker.side level.price P := (canMatch_iff taker _ P hnm hp).mp hc
        have hlvl := matchLevelOrders_trades_price fees c taker level.price level.orders
          level.total_quantity
        by_cases he : (levelRes fees c taker level).orders = []
        · rw [matchPriceLevels_cons_empty fees c taker level rest hrem hc he]
          obtain ⟨f1, f2, f3, -, -, -⟩ :=
            matchLevelOrders_core fees c taker level.price level.orders level.total_quantity
          have hside : (levelRes fees c taker level).taker.side = taker.side := f2
          obtain ⟨ih1, ih2, ih3⟩ := ih (levelRes fees c taker level).counter
            (levelRes fees c taker level).taker
            (f1 ▸ hnm) (f3.trans hp) (by
              rw [hside]
              exact (List.pairwise_cons.mp hsort).2)
          rw [hside] at ih1 ih2 ih3
          have hcross : ∀ t2 ∈ (matchPriceLevels fees (levelRes fees c taker level).counter
              (levelRes fees c taker level).taker rest).trades,
              priceRel taker.side level.price t2.price := by
            intro t2 ht2
            obtain ⟨lv, hlv, hpr, -⟩ := matchPriceLevels_trades_level_mem fees
              (levelRes fees c taker level).counter (levelRes fees c taker level).taker
              rest t2 ht2
            rw [hpr]
            exact (List.pairwise_cons.mp hsort).1 lv hlv
          refine ⟨?_, ?_, ?_⟩
          · intro t ht
            dsimp only at ht
            rw [List.mem_append] at ht
            rcases ht with h | h
            · rw [hlvl t h]; exact hrelP
            · exact ih1 t h
          · dsimp only
            rw [List.pairwise_append]
            refine ⟨pairwise_of_all_price_eq _ level.price taker.side hlvl, ih2, ?_⟩
            intro t1 h1 t2 h2
            rw [hlvl t1 h1]
            exact hcross t2 h2
          · intro t ht lv hlv
            dsimp only at ht hlv
            rw [List.mem_append] at ht
            rcases ht with h | h
            · rw [hlvl t h]
              obtain ⟨lv0, hlv0, hpr0⟩ := matchPriceLevels_levels_price_mem fees
                (levelRes fees c taker level).counter (levelRes fees c taker level).taker
                rest lv hlv
              rw [hpr0]
              exact (List.pairwise_cons.mp hsort).1 lv0 hlv0
            · exact ih3 t h lv hlv
        · rw [matchPriceLevels_cons_stay fees c taker level rest hrem hc he]
          refine ⟨?_, ?_, ?_⟩
          · intro t ht
            rw [hlvl t ht]; exact hrelP
          · exact pairwise_of_all_price_eq _ level.price taker.side hlvl
          · intro t ht lv hlv
            rw [hlvl t ht]
            simp only [List.mem_cons] at hlv
            rcases hlv with h | h
            · subst h; exact priceRel_refl taker.side level.price
            · exact (List.pairwise_cons.mp hsort).1 lv h
      · rw [matchPriceLevels_cons_nomatch fees c taker level rest hrem hc]
        exact ⟨by intro t ht; simp at ht, List.Pairwise.nil, by intro t ht; simp at ht⟩
    · rw [matchPriceLevels_cons_done fees c taker level rest hrem]
      exact ⟨by intro t ht; simp at ht, List.Pairwise.nil, by intro t ht; simp at ht⟩

/-! Engine-level glue lemmas. -/

theorem getOrCreate_fst (st : Engine) (s : String) (b : OrderBook)
    (hb : st.order_books.lookup s = some b) : (st.getOrCreateOrderBook s).1 = b := by
  simp [Engine.getOrCreateOrderBook, hb]

theorem getOrCreate_snd (st : Engine) (s : String) (b : OrderBook)
    (hb : st.order_books.lookup s = some b) : (st.getOrCreateOrderBook s).2 = st := by
  simp [Engine.getOrCreateOrderBook, hb]

theorem matchOrderF_components (fuel : Nat) (st : Engine) (order : Order) :
    (matchOrderF fuel st order).1 = (st.matchOrderCore order).1 ∧
    (matchOrderF fuel st order).2.1 = (st.matchOrderCore order).2.1 := by
  rw [matchOrderF]
  rcases h : (st.matchOrderCore order).1.getLast? with _ | t <;> simp [h]

theorem matchOrderCore_components (st : Engine) (order : Order) (book : OrderBook)
    (hb : st.order_books.lookup order.symbol = some book) :
    (st.matchOrderCore order).1
      = (matchPriceLevels st.fees st.trade_id_counter order
          (if order.side = Side.buy then book.asks else book.bids)).trades ∧
    (st.matchOrderCore order).2.1
      = (matchPriceLevels st.fees st.trade_id_counter order
          (if order.side = Side.buy then book.asks else book.bids)).taker := by
  simp only [Engine.matchOrderCore, hb]
  exact ⟨trivial, trivial⟩

theorem processOrder_fok_reject (st : Engine) (order : Order) (book : OrderBook)
    (hb : st.order_books.lookup order.symbol = some book)
    (ht : order.order_type = OrderType.fok)
    (hcf : canFillFok order book = false) :
    st.processOrder order =
      ({ order_id := order.order_id, status := "cancelled", trades := [],
         remaining_quantity := order.quantity },
       { order with status := OrderStatus.cancelled }, st) := by
  have hstop : ¬ (order.order_type = OrderType.stop_loss ∨
      order.order_type = OrderType.stop_limit ∨
      order.order_type = OrderType.take_profit) := by simp [ht]
  simp only [Engine.processOrder, getOrCreate_fst st order.symbol book hb,
    getOrCreate_snd st order.symbol book hb]
  rw [if_neg hstop, if_pos ⟨ht, hcf⟩]

theorem processOrder_match_eq (st : Engine) (order : Order) (book : OrderBook)
    (hb : st.order_books.lookup order.symbol = some book)
    (hstop : ¬ (order.order_type = OrderType.stop_loss ∨
      order.order_type = OrderType.stop_limit ∨
      order.order_type = OrderType.take_profit))
    (hnf : ¬ (order.order_type = OrderType.fok ∧ canFillFok order book = false)) :
    st.processOrder order =
      (fun R E =>
        if 0 < R.taker.remaining_quantity then
          if R.taker.order_type = OrderType.limit then
            ({ order_id := order.order_id,
               status := if R.trades.isEmpty then "accepted" else "partial",
               trades := R.trades,
               remaining_quantity := R.taker.remaining_quantity }, R.taker,
             E.addToBook R.taker)
          else
            ({ order_id := order.order_id,
               status := if R.taker.isFilled then "filled"
                 else if R.taker.remaining_quantity < R.taker.quantity then "partial"
                 else "new",
               trades := R.trades,
               remaining_quantity := R.taker.remaining_quantity },
             { R.taker with status := OrderStatus.cancelled }, E)
        else
          ({ order_id := order.order_id,
             status := if R.taker.isFilled then "filled"
               else if R.taker.remaining_quantity < R.taker.quantity then "partial"
               else "new",
             trades := R.trades,
             remaining_quantity := R.taker.remaining_quantity }, R.taker, E))
        (matchPriceLevels st.fees st.trade_id_counter order
          (if order.side = Side.buy then book.asks else book.bids))
        (matchOrderF (st.cascadeFuel order.symbol) st order).2.2 := by
  simp only [Engine.processOrder, getOrCreate_fst st order.symbol book hb,
    getOrCreate_snd st order.symbol book hb]
  rw [if_neg hstop, if_neg hnf]
  rw [(matchOrderF_components (st.cascadeFuel order.symbol) st order).1,
    (matchOrderF_components (st.cascadeFuel order.symbol) st order).2,
    (matchOrderCore_components st order book hb).1,
    (matchOrderCore_components st order book hb).2]

/-- C1: every FOK order processed by `process_order` is either filled in its
entirety (the emitted trades' quantities sum to the order's quantity, status
`filled`) or cancelled with zero trades and the engine state, and in
particular the symbol's order book, exactly as before admission; it never
receives a partial fill and never rests on the book. -/
theorem fok_order_all_or_nothing (st : Engine) (order : Order) (book : OrderBook)
    (hb : st.order_books.lookup order.symbol = some book)
    (ht : order.order_type = OrderType.fok)
    (hfresh : order.remaining_quantity = order.quantity)
    (hq : 0 < order.quantity)
    (hwf : ∀ l ∈ (if order.side = Side.buy then book.asks else book.bids),
      levelFillWF l = true) :
    ((st.processOrder order).1.status = "cancelled" ∧
      (st.processOrder order).1.trades = [] ∧ (st.processOrder order).2.2 = st) ∨
    ((st.processOrder order).1.status = "filled" ∧
      sumTradeQty (st.processOrder order).1.trades = order.quantity) := by
  cases hcf : canFillFok order book with
  | false =>
    left
    rw [processOrder_fok_reject st order book hb ht hcf]
    exact ⟨rfl, rfl, rfl⟩
  | true =>
    right
    have hstop : ¬ (order.order_type = OrderType.stop_loss ∨
        order.order_type = OrderType.stop_limit ∨
        order.order_type = OrderType.take_profit) := by simp [ht]
    have hnf : ¬ (order.order_type = OrderType.fok ∧ canFillFok order book = false) := by
      simp [hcf]
    rw [processOrder_match_eq st order book hb hstop hnf]
    have h0 : 0 ≤ order.remaining_quantity := by rw [hfresh]; exact hq.le
    have hf : canFillFokLoop order order.remaining_quantity
        (if order.side = Side.buy then book.asks else book.bids) = true := by
      rw [hfresh]; exact hcf
    have hrz : (matchPriceLevels st.fees st.trade_id_counter order
        (if order.side = Side.buy then book.asks else book.bids)).taker.remaining_quantity
        = 0 :=
      matchPriceLevels_fok_fill st.fees st.trade_id_counter order _ h0 hwf hf
    have hcons := matchPriceLevels_conservation st.fees st.trade_id_counter order
      (if order.side = Side.buy then book.asks else book.bids)
    rw [hrz] at hcons
    dsimp only
    rw [if_neg (by rw [hrz]; simp)]
    constructor
    · simp [Order.isFilled, hrz]
    · simpa [hfresh] using hcons

/-- Witness for C1 at a concrete input. -/
theorem fok_order_all_or_nothing_witness :
    (c1Engine.order_books.lookup c1Taker.symbol = some c1Book ∧
     c1Taker.order_type = OrderType.fok ∧
     c1Taker.remaining_quantity = c1Taker.quantity ∧
     0 < c1Taker.quantity ∧
     (∀ l ∈ (if c1Taker.side = Side.buy then c1Book.asks else c1Book.bids),
       levelFillWF l = true)) ∧
    (((c1Engine.processOrder c1Taker).1.status = "cancelled" ∧
       (c1Engine.processOrder c1Taker).1.trades = [] ∧
       (c1Engine.processOrder c1Taker).2.2 = c1Engine) ∨
     ((c1Engine.processOrder c1Taker).1.status = "filled" ∧
       sumTradeQty (c1Engine.processOrder c1Taker).1.trades = c1Taker.quantity)) :=
  ⟨⟨by decide, by decide, by decide, by decide, by decide⟩,
    fok_order_all_or_nothing c1Engine c1Taker c1Book (by decide) (by decide) (by decide)
      (by decide) (by decide)⟩

/-- C8: when fees are enabled, every trade emitted by the matching loop
carries maker and taker fees equal to price·quantity·rate, quantized to 8
fractional decimal digits in exact (rational) arithmetic. -/
theorem emitted_trade_fees_quantized (fees : FeeSettings) (c : Nat) (taker : Order)
    (levels : List PriceLevel) (hf : fees.enable_fees = true) :
    ∀ t ∈ (matchPriceLevels fees c taker levels).trades,
      t.maker_fee = quantize8 (t.price * t.quantity * fees.maker_fee_rate) ∧
      t.taker_fee = quantize8 (t.price * t.quantity * fees.taker_fee_rate) :=
  matchPriceLevels_trades_fees fees c taker levels hf

/-- Witness for C8 at a concrete input. -/
theorem emitted_trade_fees_quantized_witness :
    c8Fees.enable_fees = true ∧
    ∀ t ∈ (matchPriceLevels c8Fees 0 c8Taker [⟨3, [c8Maker], 2⟩]).trades,
      t.maker_fee = quantize8 (t.price * t.quantity * c8Fees.maker_fee_rate) ∧
      t.taker_fee = quantize8 (t.price * t.quantity * c8Fees.taker_fee_rate) :=
  ⟨by decide, emitted_trade_fees_quantized c8Fees 0 c8Taker [⟨3, [c8Maker], 2⟩] (by decide)⟩

/-- C10: every trade produced by the matching loop has strictly positive
price and strictly positive quantity (the fill is the minimum of two
positive remaining quantities, taken at a positive level price), so the
`Trade` constructor's validation error is unreachable from `match_order`. -/
theorem matched_trades_positive (fees : FeeSettings) (c : Nat) (taker : Order)
    (levels : List PriceLevel)
    (hp : ∀ l ∈ levels, 0 < l.price)
    (hm : ∀ l ∈ levels, ∀ m ∈ l.orders, 0 < m.remaining_quantity) :
    ∀ t ∈ (matchPriceLevels fees c taker levels).trades,
      0 < t.price ∧ 0 < t.quantity := by
  intro t ht
  refine ⟨?_, matchPriceLevels_trades_positive fees c taker levels hm t ht⟩
  obtain ⟨lv, hlv, hpr, -⟩ := matchPriceLevels_trades_level_mem fees c taker levels t ht
  rw [hpr]
  exact hp lv hlv

/-- Witness for C10 at a concrete input. -/
theorem matched_trades_positive_witness :
    ((∀ l ∈ [(⟨5, [c10Maker], 1⟩ : PriceLevel)], 0 < l.price) ∧
     (∀ l ∈ [(⟨5, [c10Maker], 1⟩ : PriceLevel)], ∀ m ∈ l.orders,
       0 < m.remaining_quantity)) ∧
    ∀ t ∈ (matchPriceLevels ⟨false, 0, 0⟩ 0 c10Taker [⟨5, [c10Maker], 1⟩]).trades,
      0 < t.price ∧ 0 < t.quantity :=
  ⟨⟨by decide, by decide⟩,
    matched_trades_positive ⟨false, 0, 0⟩ 0 c10Taker [⟨5, [c10Maker], 1⟩]
      (by decide) (by decide)⟩

theorem get_mem_take {α : Type} (l : List α) (i n : Nat) (hi : i < l.length)
    (hn : i < n) : l.get ⟨i, hi⟩ ∈ l.take n := by
  have hlen : i < (l.take n).length := by
    rw [List.length_take]
    exact lt_min hn hi
  have he : (l.take n).get ⟨i, hlen⟩ = l.get ⟨i, hi⟩ := by
    simp [List.getElem_take]
  rw [← he]
  exact List.get_mem (l.take n) i hlen

theorem idx_lt_of_get_mem_take {α : Type} (l : List α) (hnd : l.Nodup) (j n : Nat)
    (hj : j < l.length) (h : l.get ⟨j, hj⟩ ∈ l.take n) : j < n := by
  obtain ⟨i, hilen, hieq⟩ := List.getElem_of_mem h
  have hlen : i < l.length := by
    have := hilen
    rw [List.length_take] at this
    exact lt_of_lt_of_le this (min_le_right n l.length)
  have hin : i < n := by
    have := hilen
    rw [List.length_take] at this
    exact lt_of_lt_of_le this (min_le_left n l.length)
  have heq : l.get ⟨i, hlen⟩ = l.get ⟨j, hj⟩ := by
    rw [← hieq]
    simp [List.getElem_take]
  have hij : i = j := by
    have hinj := List.nodup_iff_injective_get.mp hnd
    simpa using hinj heq
  rw [← hij]
  exact hin

/-- C5: FIFO within a price level — if a later-queued resting order receives
any fill from the matching loop (appears as the maker of an emitted trade),
then every earlier-queued order was fully consumed: its remaining quantity
reached 0 and it was removed from the queue (its id is in the loop's removed
list, which drives the pop and the `order_index` deletion). -/
theorem fifo_within_price_level (fees : FeeSettings) (c : Nat) (taker : Order)
    (price : ℚ) (os : List Order) (tq : ℚ)
    (hnd : (os.map Order.order_id).Nodup)
    (i j : Nat) (hij : i < j) (hj : j < os.length)
    (hmaker : (os.get ⟨j, hj⟩).order_id
      ∈ (matchLevelOrders fees c taker price os tq).trades.map Trade.maker_order_id) :
    (os.get ⟨i, Nat.lt_trans hij hj⟩).order_id
      ∈ (matchLevelOrders fees c taker price os tq).removed := by
  obtain ⟨k, hrm, htr⟩ := matchLevelOrders_struct fees c taker price os tq
  obtain ⟨t, ht, hteq⟩ := List.mem_map.mp hmaker
  have hjmem : (os.get ⟨j, hj⟩).order_id ∈ ((os.map Order.order_id).take (k + 1)) := by
    rw [← List.map_take]
    rw [← hteq]
    exact htr t ht
  have hjget : (os.map Order.order_id).get ⟨j, by simpa using hj⟩
      = (os.get ⟨j, hj⟩).order_id := by simp
  have hjk : j < k + 1 := by
    refine idx_lt_of_get_mem_take (os.map Order.order_id) hnd j (k + 1)
      (by simpa using hj) ?_
    rw [hjget]
    exact hjmem
  have hik : i < k := by omega
  rw [hrm, List.map_take]
  have : (os.map Order.order_id).get ⟨i, by simpa using Nat.lt_trans hij hj⟩
      ∈ (os.map Order.order_id).take k :=
    get_mem_take (os.map Order.order_id) i k (by simpa using Nat.lt_trans hij hj) hik
  simpa using this

/-- Witness for C5 at a concrete input. -/
theorem fifo_within_price_level_witness :
    (([c5MakerA, c5MakerB].map Order.order_id).Nodup ∧ 0 < 1 ∧ 1 < 2 ∧
     ([c5MakerA, c5MakerB].get ⟨1, by decide⟩).order_id
       ∈ (matchLevelOrders ⟨false, 0, 0⟩ 0 c5Taker 7 [c5MakerA, c5MakerB] 2).trades.map
           Trade.maker_order_id) ∧
    ([c5MakerA, c5MakerB].get ⟨0, by decide⟩).order_id
      ∈ (matchLevelOrders ⟨false, 0, 0⟩ 0 c5Taker 7 [c5MakerA, c5MakerB] 2).removed :=
  ⟨⟨by decide, by decide, by decide, by decide⟩,
    fifo_within_price_level ⟨false, 0, 0⟩ 0 c5Taker 7 [c5MakerA, c5MakerB] 2
      (by decide) 0 1 (by decide) (by decide) (by decide)⟩

/-- C4: a limit, IOC or FOK taker never trades through its limit — every
emitted trade's price satisfies the limit (buy: price ≤ limit, sell: price ≥
limit) — and trades execute in strict price priority: the emitted trade
prices only worsen along the list, and every level still resting after the
walk is at a price no better than any traded price (a better level with
resting quantity is never skipped). -/
theorem no_trade_through_limit (fees : FeeSettings) (c : Nat) (taker : Order)
    (levels : List PriceLevel) (P : ℚ)
    (hty : taker.order_type = OrderType.limit ∨ taker.order_type = OrderType.ioc ∨
      taker.order_type = OrderType.fok)
    (hp : taker.price = some P)
    (hsort : levels.Pairwise (fun a b => priceRel taker.side a.price b.price)) :
    (∀ t ∈ (matchPriceLevels fees c taker levels).trades, priceRel taker.side t.price P) ∧
    (matchPriceLevels fees c taker levels).trades.Pairwise
      (fun t1 t2 => priceRel taker.side t1.price t2.price) ∧
    (∀ t ∈ (matchPriceLevels fees c taker levels).trades,
      ∀ lv ∈ (matchPriceLevels fees c taker levels).levels,
        priceRel taker.side t.price lv.price) := by
  have hnm : ¬ taker.order_type = OrderType.market := by
    rcases hty with h | h | h <;> simp [h]
  exact matchPriceLevels_price_priority fees c taker levels P hnm hp hsort

/-- Witness for C4 at a concrete input. -/
theorem no_trade_through_limit_witness :
    ((c4Taker.order_type = OrderType.limit ∨ c4Taker.order_type = OrderType.ioc ∨
       c4Taker.order_type = OrderType.fok) ∧
     c4Taker.price = some 6 ∧
     c4Levels.Pairwise (fun a b => priceRel c4Taker.side a.price b.price)) ∧
    ((∀ t ∈ (matchPriceLevels ⟨false, 0, 0⟩ 0 c4Taker c4Levels).trades,
        priceRel c4Taker.side t.price 6) ∧
     (matchPriceLevels ⟨false, 0, 0⟩ 0 c4Taker c4Levels).trades.Pairwise
       (fun t1 t2 => priceRel c4Taker.side t1.price t2.price) ∧
     (∀ t ∈ (matchPriceLevels ⟨false, 0, 0⟩ 0 c4Taker c4Levels).trades,
       ∀ lv ∈ (matchPriceLevels ⟨false, 0, 0⟩ 0 c4Taker c4Levels).levels,
         priceRel c4Taker.side t.price lv.price)) :=
  ⟨⟨Or.inl (by decide), by decide, by
      decide⟩,
    no_trade_through_limit ⟨false, 0, 0⟩ 0 c4Taker c4Levels 6 (Or.inl (by decide))
      (by decide) (by decide)⟩

theorem scanStops_nil (last : ℚ) (current : List Order) :
    scanStops last [] current = ([], current) := rfl

theorem scanStops_cons_trig (last : ℚ) (o : Order) (rest current : List Order)
    (htrig : shouldTrigger o last = true) :
    scanStops last (o :: rest) current =
      ({ o with is_triggered := true } :: (scanStops last rest (current.erase o)).1,
       (scanStops last rest (current.erase o)).2) := by
  simp only [scanStops]
  rw [if_pos htrig]

theorem scanStops_cons_notrig (last : ℚ) (o : Order) (rest current : List Order)
    (htrig : shouldTrigger o last = false) :
    scanStops last (o :: rest) current = scanStops last rest current := by
  simp only [scanStops]
  rw [if_neg (by simp [htrig])]

theorem scanStops_characterization (last : ℚ) (todo current : List Order)
    (hnd : current.Nodup) (hsub : List.Sublist todo current) :
    (scanStops last todo current).1
      = (todo.filter (fun o => shouldTrigger o last)).map
          (fun o => { o with is_triggered := true }) ∧
    (scanStops last todo current).2
      = current.filter (fun x => !(decide (x ∈ todo) && shouldTrigger x last)) := by
  induction todo generalizing current with
  | nil =>
    refine ⟨rfl, ?_⟩
    rw [scanStops_nil]
    symm
    apply List.filter_eq_self.mpr
    intro x hx
    simp
  | cons o rest ih =>
    have hndtodo : (o :: rest).Nodup := hsub.nodup hnd
    have honotin : o ∉ rest := (List.nodup_cons.mp hndtodo).1
    cases htrig : shouldTrigger o last with
    | true =>
      have hsub' : List.Sublist rest (current.erase o) := by
        have h1 : (o :: rest).erase o = rest := by
          simp [List.erase_cons_head]
        have h2 := hsub.erase o
        rw [h1] at h2
        exact h2
      have hnd' : (current.erase o).Nodup := hnd.erase o
      obtain ⟨ih1, ih2⟩ := ih (current.erase o) hnd' hsub'
      rw [scanStops_cons_trig last o rest current htrig]
      constructor
      · rw [List.filter_cons_of_pos (by simp [htrig])]
        simp [ih1]
      · rw [ih2]
        rw [List.Nodup.erase_eq_filter hnd o]
        rw [List.filter_filter]
        apply List.filter_congr
        intro x hx
        by_cases hxo : x = o
        · subst hxo
          simp [htrig]
        · simp [hxo]
    | false =>
      have hsub' : List.Sublist rest current := (List.sublist_cons_self o rest).trans hsub
      obtain ⟨ih1, ih2⟩ := ih current hnd hsub'
      rw [scanStops_cons_notrig last o rest current htrig]
      constructor
      · rw [List.filter_cons_of_neg (by simp [htrig])]
        exact ih1
      · rw [ih2]
        apply List.filter_congr
        intro x hx
        by_cases hxo : x = o
        · subst hxo
          simp [htrig]
        · simp [hxo]

/-- C6: after trades execute, the stop scan at the last trade price triggers
exactly the pending orders whose condition holds (stop loss and stop limit:
buy on last ≥ stop, sell on last ≤ stop; take profit: buy on last ≤ stop,
sell on last ≥ stop); triggered orders are removed from the pending list
(marked `is_triggered`) while the rest stay in order, and each is converted
in place — stop loss to a market order with the price cleared, stop limit to
a limit order at its price, take profit to a limit order at its price or at
its stop price when the price is absent — before being matched by the same
matching algorithm (`checkStopOrdersF` feeds each converted order back
through `matchOrderF`). -/
theorem stop_trigger_and_conversion (pending : List Order) (last : ℚ)
    (hnd : pending.Nodup) :
    ((scanStops last pending pending).1
      = (pending.filter (fun o => shouldTrigger o last)).map
          (fun o => { o with is_triggered := true }) ∧
     (scanStops last pending pending).2
      = pending.filter (fun o => ! shouldTrigger o last)) ∧
    (∀ o : Order, ∀ sp : ℚ, o.stop_price = some sp →
      (shouldTrigger o last = true ↔
        ((o.order_type = OrderType.stop_loss ∨ o.order_type = OrderType.stop_limit) ∧
          (o.side = Side.buy → sp ≤ last) ∧ (o.side = Side.sell → last ≤ sp)) ∨
        (o.order_type = OrderType.take_profit ∧
          (o.side = Side.buy → last ≤ sp) ∧ (o.side = Side.sell → sp ≤ last)))) ∧
    (∀ o : Order, o.order_type = OrderType.stop_loss →
      convertTriggered o = { o with order_type := OrderType.market, price := none }) ∧
    (∀ o : Order, o.order_type = OrderType.stop_limit →
      convertTriggered o = { o with order_type := OrderType.limit }) ∧
    (∀ o : Order, ∀ p : ℚ, o.order_type = OrderType.take_profit → o.price = some p →
      convertTriggered o = { o with order_type := OrderType.limit }) ∧
    (∀ o : Order, o.order_type = OrderType.take_profit → o.price = none →
      convertTriggered o
        = { o with order_type := OrderType.limit, price := o.stop_price }) := by
  obtain ⟨h1, h2⟩ := scanStops_characterization last pending pending hnd
    (List.Sublist.refl pending)
  refine ⟨⟨h1, ?_⟩, ?_, ?_, ?_, ?_, ?_⟩
  · rw [h2]
    apply List.filter_congr
    intro x hx
    simp [hx]
  · intro o sp hsp
    rw [shouldTrigger, hsp]
    rcases o with ⟨oid, sym, oty, osd, q, p, ts, rq, stt, spr, trig⟩
    cases oty <;> cases osd <;> simp
  · intro o h
    rw [convertTriggered, if_pos h]
  · intro o h
    rw [convertTriggered]
    rw [if_neg (by rw [h]; decide), if_pos h]
  · intro o p hot hp
    rw [convertTriggered]
    rw [if_neg (by rw [hot]; decide), if_neg (by rw [hot]; decide), if_pos hot, hp]
  · intro o hot hp
    rw [convertTriggered]
    rw [if_neg (by rw [hot]; decide), if_neg (by rw [hot]; decide), if_pos hot, hp]

/-- Witness for C6 at a concrete input. -/
theorem stop_trigger_and_conversion_witness :
    [c6StopA, c6StopB].Nodup ∧
    ((scanStops 8 [c6StopA, c6StopB] [c6StopA, c6StopB]).1
      = ([c6StopA, c6StopB].filter (fun o => shouldTrigger o 8)).map
          (fun o => { o with is_triggered := true }) ∧
     (scanStops 8 [c6StopA, c6StopB] [c6StopA, c6StopB]).2
      = [c6StopA, c6StopB].filter (fun o => ! shouldTrigger o 8)) :=
  ⟨by decide, ((stop_trigger_and_conversion [c6StopA, c6StopB] 8 (by decide)).1)⟩

theorem lookup_setAssocList_eq {β : Type} (l : List (String × β)) (k : String) (v : β) :
    (setAssocList l k v).lookup k = some v := by
  induction l with
  | nil => simp [setAssocList]
  | cons p rest ih =>
    by_cases h : p.1 == k
    · simp only [setAssocList]
      rw [if_pos h]
      simp [List.lookup]
    · simp only [setAssocList]
      rw [if_neg h]
      rcases p with ⟨k', v'⟩
      simp only [List.lookup]
      have hne : ¬ k' = k := by simpa using h
      have hbf : (k == k') = false := beq_eq_false_iff_ne.mpr (fun he => hne he.symm)
      rw [hbf]
      exact ih

theorem lookup_setAssocList_ne {β : Type} (l : List (String × β)) (k k' : String)
    (v : β) (h : k' ≠ k) : (setAssocList l k v).lookup k' = l.lookup k' := by
  induction l with
  | nil => simp [setAssocList, List.lookup, beq_eq_false_iff_ne.mpr h]
  | cons p rest ih =>
    rcases p with ⟨k0, v0⟩
    by_cases h0 : k0 == k
    · simp only [setAssocList]
      rw [if_pos h0]
      have hkk : k0 = k := by simpa using h0
      subst hkk
      simp only [List.lookup]
      have : (k' == k0) = false := by simpa using h
      rw [this]
    · simp only [setAssocList]
      rw [if_neg h0]
      simp only [List.lookup]
      cases hk : k' == k0
      · exact ih
      · rfl

theorem mem_setAssocList {β : Type} (l : List (String × β)) (k : String) (v : β)
    (p : String × β) (hp : p ∈ setAssocList l k v) : p = (k, v) ∨ p ∈ l := by
  induction l with
  | nil => simpa [setAssocList] using hp
  | cons q rest ih =>
    simp only [setAssocList] at hp
    split at hp
    · simp only [List.mem_cons] at hp
      rcases hp with h | h
      · exact Or.inl h
      · exact Or.inr (List.mem_cons_of_mem q h)
    · simp only [List.mem_cons] at hp
      rcases hp with h | h
      · exact Or.inr (by rw [h]; exact List.mem_cons_self q rest)
      · rcases ih h with h2 | h2
        · exact Or.inl h2
        · exact Or.inr (List.mem_cons_of_mem q h2)

theorem lookup_append_single_ne {β : Type} (l : List (String × β)) (k k' : String)
    (v : β) (h : k' ≠ k) : (l ++ [(k, v)]).lookup k' = l.lookup k' := by
  induction l with
  | nil => simp [List.lookup, beq_eq_false_iff_ne.mpr h]
  | cons p rest ih =>
    rcases p with ⟨k0, v0⟩
    simp only [List.cons_append, List.lookup]
    cases hk : k' == k0
    · exact ih
    · rfl

theorem FramePred_refl (symbol : String) (st : Engine) : FramePred symbol st st :=
  fun _ _ => ⟨rfl, rfl⟩

theorem FramePred_trans (symbol : String) (st1 st2 st3 : Engine)
    (h1 : FramePred symbol st1 st2) (h2 : FramePred symbol st2 st3) :
    FramePred symbol st1 st3 := by
  intro s' hs
  exact ⟨(h2 s' hs).1.trans (h1 s' hs).1, (h2 s' hs).2.trans (h1 s' hs).2⟩

theorem stopsConsistAt_of_stops_eq (symbol : String) (st st' : Engine)
    (h : st'.stop_orders = st.stop_orders) (hc : stopsConsistAt symbol st = true) :
    stopsConsistAt symbol st' = true := by
  rw [stopsConsistAt, h]
  exact hc

theorem setBook_stops (st : Engine) (s : String) (b : OrderBook) :
    (st.setBook s b).stop_orders = st.stop_orders := rfl

theorem setBook_frame (st : Engine) (s : String) (b : OrderBook) :
    FramePred s st (st.setBook s b) := by
  intro s' hs
  exact ⟨lookup_setAssocList_ne st.order_books s s' b hs, rfl⟩

theorem setStops_books (st : Engine) (s : String) (l : List Order) :
    (st.setStops s l).order_books = st.order_books := rfl

theorem setStops_frame (st : Engine) (s : String) (l : List Order) :
    FramePred s st (st.setStops s l) := by
  intro s' hs
  exact ⟨rfl, lookup_setAssocList_ne st.stop_orders s s' l hs⟩

theorem getOrCreate_stops (st : Engine) (s : String) :
    (st.getOrCreateOrderBook s).2.stop_orders = st.stop_orders := by
  unfold Engine.getOrCreateOrderBook
  cases hb : st.order_books.lookup s <;> rfl

theorem getOrCreate_frame (st : Engine) (s : String) :
    FramePred s st (st.getOrCreateOrderBook s).2 := by
  intro s' hs
  unfold Engine.getOrCreateOrderBook
  cases hb : st.order_books.lookup s with
  | none =>
    exact ⟨lookup_append_single_ne st.order_books s s' _ hs, rfl⟩
  | some b => exact ⟨rfl, rfl⟩

theorem addToBook_stops (st : Engine) (o : Order) :
    (st.addToBook o).stop_orders = st.stop_orders := by
  unfold Engine.addToBook
  cases hb : st.order_books.lookup o.symbol <;> rfl

theorem addToBook_frame (st : Engine) (o : Order) :
    FramePred o.symbol st (st.addToBook o) := by
  intro s' hs
  unfold Engine.addToBook
  cases hb : st.order_books.lookup o.symbol with
  | none => exact ⟨rfl, rfl⟩
  | some b =>
    exact ⟨lookup_setAssocList_ne st.order_books o.symbol s' _ hs, rfl⟩

theorem matchOrderCore_stops (st : Engine) (o : Order) :
    (st.matchOrderCore o).2.2.stop_orders = st.stop_orders := by
  unfold Engine.matchOrderCore
  cases hb : st.order_books.lookup o.symbol <;> rfl

theorem matchOrderCore_frame (st : Engine) (o : Order) :
    FramePred o.symbol st (st.matchOrderCore o).2.2 := by
  intro s' hs
  unfold Engine.matchOrderCore
  cases hb : st.order_books.lookup o.symbol with
  | none => exact ⟨rfl, rfl⟩
  | some b =>
    exact ⟨lookup_setAssocList_ne st.order_books o.symbol s' _ hs, rfl⟩

theorem processTriggeredF_nil (fuel : Nat) (st : Engine) :
    processTriggeredF fuel st [] = st := by
  rw [processTriggeredF]

theorem processTriggeredF_cons (fuel : Nat) (st : Engine) (t : Order)
    (rest : List Order) :
    processTriggeredF fuel st (t :: rest)
      = processTriggeredF fuel
          (if 0 < (matchOrderF fuel
                (st.getOrCreateOrderBook (convertTriggered t).symbol).2
                (convertTriggered t)).2.1.remaining_quantity ∧
              (matchOrderF fuel
                (st.getOrCreateOrderBook (convertTriggered t).symbol).2
                (convertTriggered t)).2.1.canRestOnBook = true
           then (matchOrderF fuel
                  (st.getOrCreateOrderBook (convertTriggered t).symbol).2
                  (convertTriggered t)).2.2.addToBook
                (matchOrderF fuel
                  (st.getOrCreateOrderBook (convertTriggered t).symbol).2
                  (convertTriggered t)).2.1
           else (matchOrderF fuel
                  (st.getOrCreateOrderBook (convertTriggered t).symbol).2
                  (convertTriggered t)).2.2) rest := by
  rw [processTriggeredF]

theorem checkStopOrdersF_zero (st : Engine) (symbol : String) (last : ℚ) :
    checkStopOrdersF 0 st symbol last = st := by
  rw [checkStopOrdersF]

theorem checkStopOrdersF_succ_none (fuel : Nat) (st : Engine) (symbol : String)
    (last : ℚ) (hp : st.stop_orders.lookup symbol = none) :
    checkStopOrdersF (fuel + 1) st symbol last = st := by
  rw [checkStopOrdersF, hp]

theorem checkStopOrdersF_succ_some (fuel : Nat) (st : Engine) (symbol : String)
    (last : ℚ) (pending : List Order)
    (hp : st.stop_orders.lookup symbol = some pending) :
    checkStopOrdersF (fuel + 1) st symbol last
      = processTriggeredF fuel
          (st.setStops symbol (scanStops last pending pending).2)
          (scanStops last pending pending).1 := by
  rw [checkStopOrdersF, hp]

theorem matchOrderF_taker_eq (fuel : Nat) (st : Engine) (o : Order) :
    (matchOrderF fuel st o).2.1 = (st.matchOrderCore o).2.1 :=
  (matchOrderF_components fuel st o).2

theorem matchOrderF_stop_step (fuel : Nat) (st : Engine) (o : Order) (p : ℚ)
    (h : (st.matchOrderCore o).1.getLast?.map Trade.price = some p) :
    (matchOrderF fuel st o).2.2
      = checkStopOrdersF fuel (st.matchOrderCore o).2.2 o.symbol p := by
  rcases hg : (st.matchOrderCore o).1.getLast? with _ | t
  · rw [hg] at h
    cases h
  · rw [hg] at h
    have hp : t.price = p := Option.some.inj (by simpa using h)
    rw [matchOrderF]
    simp only [hg]
    rw [hp]

theorem matchOrderF_no_trade (fuel : Nat) (st : Engine) (o : Order)
    (h : (st.matchOrderCore o).1.getLast? = none) :
    matchOrderF fuel st o = st.matchOrderCore o := by
  rw [matchOrderF]
  simp only [h]

theorem matchFrame_of_checkFrame (fuel : Nat) (hA : CheckFrame fuel) :
    MatchFrame fuel := by
  intro st o hc
  rw [matchOrderF]
  rcases h : (st.matchOrderCore o).1.getLast? with _ | t
  · exact ⟨matchOrderCore_frame st o,
      stopsConsistAt_of_stops_eq o.symbol st _ (matchOrderCore_stops st o) hc⟩
  · have hc1 : stopsConsistAt o.symbol (st.matchOrderCore o).2.2 = true :=
      stopsConsistAt_of_stops_eq o.symbol st _ (matchOrderCore_stops st o) hc
    obtain ⟨hf2, hc2⟩ := hA (st.matchOrderCore o).2.2 o.symbol t.price hc1
    exact ⟨FramePred_trans o.symbol st _ _ (matchOrderCore_frame st o) hf2, hc2⟩

theorem convertTriggered_symbol (o : Order) :
    (convertTriggered o).symbol = o.symbol := by
  unfold convertTriggered
  split <;> try split
  all_goals try split
  all_goals rfl

theorem matchOrderF_taker_symbol (fuel : Nat) (st : Engine) (o : Order) :
    (matchOrderF fuel st o).2.1.symbol = o.symbol := by
  rw [(matchOrderF_components fuel st o).2]
  unfold Engine.matchOrderCore
  cases hb : st.order_books.lookup o.symbol with
  | none => rfl
  | some b =>
    obtain ⟨-, -, -, -, -, h6⟩ := matchPriceLevels_core st.fees st.trade_id_counter o
      (if o.side = Side.buy then b.asks else b.bids)
    simpa using h6

theorem trigFrame_of_matchFrame (fuel : Nat) (hB : MatchFrame fuel) :
    TrigFrame fuel := by
  intro st symbol l hl hc
  induction l generalizing st with
  | nil =>
    rw [processTriggeredF_nil]
    exact ⟨FramePred_refl symbol st, hc⟩
  | cons t rest ih =>
    have htsym : t.symbol = symbol := hl t (List.mem_cons_self t rest)
    have htsym' : (convertTriggered t).symbol = symbol :=
      (convertTriggered_symbol t).trans htsym
    rw [processTriggeredF_cons, htsym']
    have hg1 : FramePred symbol st (st.getOrCreateOrderBook symbol).2 :=
      getOrCreate_frame st symbol
    have hgc : stopsConsistAt symbol (st.getOrCreateOrderBook symbol).2 = true :=
      stopsConsistAt_of_stops_eq symbol st _ (getOrCreate_stops st _) hc
    have hmc : stopsConsistAt (convertTriggered t).symbol
        (st.getOrCreateOrderBook symbol).2 = true := by
      rw [htsym']
      exact hgc
    obtain ⟨hm1, hm2⟩ := hB (st.getOrCreateOrderBook symbol).2 (convertTriggered t) hmc
    rw [htsym'] at hm1 hm2
    have hoMsym : (matchOrderF fuel (st.getOrCreateOrderBook symbol).2
        (convertTriggered t)).2.1.symbol = symbol := by
      rw [matchOrderF_taker_symbol]
      exact htsym'
    have hs1 : FramePred symbol st
        (if 0 < (matchOrderF fuel (st.getOrCreateOrderBook symbol).2
              (convertTriggered t)).2.1.remaining_quantity ∧
            (matchOrderF fuel (st.getOrCreateOrderBook symbol).2
              (convertTriggered t)).2.1.canRestOnBook = true
         then (matchOrderF fuel (st.getOrCreateOrderBook symbol).2
                (convertTriggered t)).2.2.addToBook
              (matchOrderF fuel (st.getOrCreateOrderBook symbol).2
                (convertTriggered t)).2.1
         else (matchOrderF fuel (st.getOrCreateOrderBook symbol).2
                (convertTriggered t)).2.2) := by
      split
      · refine FramePred_trans symbol st _ _ (FramePred_trans symbol st _ _ hg1 hm1) ?_
        have := addToBook_frame (matchOrderF fuel (st.getOrCreateOrderBook symbol).2
          (convertTriggered t)).2.2 (matchOrderF fuel (st.getOrCreateOrderBook symbol).2
          (convertTriggered t)).2.1
        rw [hoMsym] at this
        exact this
      · exact FramePred_trans symbol st _ _ hg1 hm1
    have hs2 : stopsConsistAt symbol
        (if 0 < (matchOrderF fuel (st.getOrCreateOrderBook symbol).2
              (convertTriggered t)).2.1.remaining_quantity ∧
            (matchOrderF fuel (st.getOrCreateOrderBook symbol).2
              (convertTriggered t)).2.1.canRestOnBook = true
         then (matchOrderF fuel (st.getOrCreateOrderBook symbol).2
                (convertTriggered t)).2.2.addToBook
              (matchOrderF fuel (st.getOrCreateOrderBook symbol).2
                (convertTriggered t)).2.1
         else (matchOrderF fuel (st.getOrCreateOrderBook symbol).2
                (convertTriggered t)).2.2) = true := by
      split
      · exact stopsConsistAt_of_stops_eq symbol _ _ (addToBook_stops _ _) hm2
      · exact hm2
    obtain ⟨hr1, hr2⟩ := ih _ (fun x hx => hl x (List.mem_cons_of_mem t hx)) hs2
    exact ⟨FramePred_trans symbol st _ _ hs1 hr1, hr2⟩

theorem scanStops_triggered_shape (last : ℚ) (todo current : List Order) :
    ∀ x ∈ (scanStops last todo current).1,
      ∃ o ∈ todo, x = { o with is_triggered := true } := by
  induction todo generalizing current with
  | nil => intro x hx; simp [scanStops_nil] at hx
  | cons o rest ih =>
    intro x hx
    cases htrig : shouldTrigger o last with
    | true =>
      rw [scanStops_cons_trig last o rest current htrig] at hx
      simp only [List.mem_cons] at hx
      rcases hx with h | h
      · exact ⟨o, List.mem_cons_self o rest, h⟩
      · obtain ⟨o2, ho2, he⟩ := ih (current.erase o) x h
        exact ⟨o2, List.mem_cons_of_mem o ho2, he⟩
    | false =>
      rw [scanStops_cons_notrig last o rest current htrig] at hx
      obtain ⟨o2, ho2, he⟩ := ih current x hx
      exact ⟨o2, List.mem_cons_of_mem o ho2, he⟩

theorem scanStops_kept_sublist (last : ℚ) (todo current : List Order) :
    List.Sublist (scanStops last todo current).2 current := by
  induction todo generalizing current with
  | nil => rw [scanStops_nil]
  | cons o rest ih =>
    cases htrig : shouldTrigger o last with
    | true =>
      rw [scanStops_cons_trig last o rest current htrig]
      exact (ih (current.erase o)).trans (List.erase_sublist o current)
    | false =>
      rw [scanStops_cons_notrig last o rest current htrig]
      exact ih current

theorem checkFrame_zero : CheckFrame 0 := by
  intro st symbol last hc
  rw [checkStopOrdersF_zero]
  exact ⟨FramePred_refl symbol st, hc⟩

theorem checkFrame_succ (fuel : Nat) (hC : TrigFrame fuel) : CheckFrame (fuel + 1) := by
  intro st symbol last hc
  rcases hp : st.stop_orders.lookup symbol with _ | pending
  · rw [checkStopOrdersF_succ_none fuel st symbol last hp]
    exact ⟨FramePred_refl symbol st, hc⟩
  · rw [checkStopOrdersF_succ_some fuel st symbol last pending hp]
    have hpend : ∀ o ∈ pending, o.symbol = symbol := by
      intro o ho
      have := hc
      rw [stopsConsistAt, hp] at this
      have := List.all_eq_true.mp this o ho
      simpa using this
    have htrigsym : ∀ t ∈ (scanStops last pending pending).1, t.symbol = symbol := by
      intro t ht
      obtain ⟨o, ho, he⟩ := scanStops_triggered_shape last pending pending t ht
      rw [he]
      exact hpend o ho
    have hkept : ∀ o ∈ (scanStops last pending pending).2, o.symbol = symbol := by
      intro o ho
      exact hpend o ((scanStops_kept_sublist last pending pending).mem ho)
    have hc1 : stopsConsistAt symbol
        (st.setStops symbol (scanStops last pending pending).2) = true := by
      rw [stopsConsistAt, Engine.setStops]
      simp only [lookup_setAssocList_eq]
      rw [List.all_eq_true]
      intro o ho
      simpa using hkept o ho
    obtain ⟨hf, hcf⟩ := hC (st.setStops symbol (scanStops last pending pending).2) symbol
      (scanStops last pending pending).1 htrigsym hc1
    exact ⟨FramePred_trans symbol st _ _ (setStops_frame st symbol _) hf, hcf⟩

theorem cascade_frame_all (fuel : Nat) :
    CheckFrame fuel ∧ MatchFrame fuel ∧ TrigFrame fuel := by
  induction fuel with
  | zero =>
    have hA := checkFrame_zero
    have hB := matchFrame_of_checkFrame 0 hA
    exact ⟨hA, hB, trigFrame_of_matchFrame 0 hB⟩
  | succ n ih =>
    have hA := checkFrame_succ n ih.2.2
    have hB := matchFrame_of_checkFrame (n + 1) hA
    exact ⟨hA, hB, trigFrame_of_matchFrame (n + 1) hB⟩

theorem processOrder_frame (st : Engine) (order : Order)
    (hcons : stopsConsistAt order.symbol st = true) :
    FramePred order.symbol st (st.processOrder order).2.2 := by
  have hg : FramePred order.symbol st (st.getOrCreateOrderBook order.symbol).2 :=
    getOrCreate_frame st order.symbol
  have hgc : stopsConsistAt order.symbol (st.getOrCreateOrderBook order.symbol).2 = true :=
    stopsConsistAt_of_stops_eq order.symbol st _ (getOrCreate_stops st _) hcons
  have hm := (cascade_frame_all
    ((st.getOrCreateOrderBook order.symbol).2.cascadeFuel order.symbol)).2.1
    (st.getOrCreateOrderBook order.symbol).2 order hgc
  have hosym := matchOrderF_taker_symbol
    ((st.getOrCreateOrderBook order.symbol).2.cascadeFuel order.symbol)
    (st.getOrCreateOrderBook order.symbol).2 order
  simp only [Engine.processOrder]
  split
  · exact FramePred_trans order.symbol st _ _ hg
      (setStops_frame (st.getOrCreateOrderBook order.symbol).2 order.symbol _)
  · split
    · exact hg
    · split
      · split
        · refine FramePred_trans order.symbol st _ _
            (FramePred_trans order.symbol st _ _ hg hm.1) ?_
          have := addToBook_frame
            (matchOrderF ((st.getOrCreateOrderBook order.symbol).2.cascadeFuel order.symbol)
              (st.getOrCreateOrderBook order.symbol).2 order).2.2
            (matchOrderF ((st.getOrCreateOrderBook order.symbol).2.cascadeFuel order.symbol)
              (st.getOrCreateOrderBook order.symbol).2 order).2.1
          rw [hosym] at this
          exact this
        · exact FramePred_trans order.symbol st _ _ hg hm.1
      · exact FramePred_trans order.symbol st _ _ hg hm.1

theorem cancelOrder_frame (st : Engine) (oid sym : String) :
    FramePred sym st (st.cancelOrder oid sym).2 := by
  unfold Engine.cancelOrder
  cases hb : st.order_books.lookup sym with
  | none => exact FramePred_refl sym st
  | some b =>
    dsimp only
    by_cases ho : b.hasOrder oid = true
    · rw [if_pos ho]
      exact setBook_frame st sym (b.removeOrder oid)
    · rw [if_neg ho]
      exact FramePred_refl sym st

/-- C9: `process_order` for a symbol touches only that symbol's order book
and pending-stop list — every other symbol's book and pending list look up
unchanged — and `cancel_order` likewise leaves every book other than its
symbol's unchanged. -/
theorem process_and_cancel_symbol_local (st : Engine) (order : Order)
    (hcons : stopsConsistAt order.symbol st = true)
    (oid sym s1 s2 : String) (h1 : s1 ≠ order.symbol) (h2 : s2 ≠ sym) :
    ((st.processOrder order).2.2.order_books.lookup s1 = st.order_books.lookup s1 ∧
     (st.processOrder order).2.2.stop_orders.lookup s1 = st.stop_orders.lookup s1) ∧
    ((st.cancelOrder oid sym).2.order_books.lookup s2 = st.order_books.lookup s2 ∧
     (st.cancelOrder oid sym).2.stop_orders.lookup s2 = st.stop_orders.lookup s2) :=
  ⟨processOrder_frame st order hcons s1 h1, cancelOrder_frame st oid sym s2 h2⟩

theorem mem_lookup_assoc {β : Type} (l : List (String × β)) (k : String) (v : β)
    (h : l.lookup k = some v) : (k, v) ∈ l := by
  induction l with
  | nil => simp [List.lookup] at h
  | cons p rest ih =>
    rcases p with ⟨k0, v0⟩
    simp only [List.lookup] at h
    cases hk : k == k0 with
    | true =>
      rw [hk] at h
      simp only [Option.some.injEq] at h
      have : k = k0 := by simpa using hk
      rw [this, h]
      exact List.mem_cons_self _ _
    | false =>
      rw [hk] at h
      exact List.mem_cons_of_mem _ (ih h)

theorem mem_sideOrderIds (levels : List PriceLevel) (x : String) :
    x ∈ sideOrderIds levels ↔ ∃ l ∈ levels, x ∈ l.orders.map Order.order_id := by
  rw [sideOrderIds, List.mem_flatten]
  constructor
  · rintro ⟨s, hs, hx⟩
    obtain ⟨l, hl, he⟩ := List.mem_map.mp hs
    exact ⟨l, hl, he ▸ hx⟩
  · rintro ⟨l, hl, hx⟩
    exact ⟨l.orders.map Order.order_id, List.mem_map_of_mem _ hl, hx⟩

theorem mem_engineBookIds (st : Engine) (x : String) :
    x ∈ engineBookIds st ↔ ∃ sb ∈ st.order_books, x ∈ bookOrderIds sb.2 := by
  rw [engineBookIds, List.mem_flatten]
  constructor
  · rintro ⟨s, hs, hx⟩
    obtain ⟨sb, hsb, he⟩ := List.mem_map.mp hs
    exact ⟨sb, hsb, he ▸ hx⟩
  · rintro ⟨sb, hsb, hx⟩
    exact ⟨bookOrderIds sb.2, List.mem_map_of_mem _ hsb, hx⟩

theorem mem_engineStopIds (st : Engine) (x : String) :
    x ∈ engineStopIds st ↔ ∃ sl ∈ st.stop_orders, x ∈ sl.2.map Order.order_id := by
  rw [engineStopIds, List.mem_flatten]
  constructor
  · rintro ⟨s, hs, hx⟩
    obtain ⟨sl, hsl, he⟩ := List.mem_map.mp hs
    exact ⟨sl, hsl, he ▸ hx⟩
  · rintro ⟨sl, hsl, hx⟩
    exact ⟨sl.2.map Order.order_id, List.mem_map_of_mem _ hsl, hx⟩

theorem matchPriceLevels_side_ids (fees : FeeSettings) (c : Nat) (taker : Order)
    (levels : List PriceLevel) (x : String)
    (hx : x ∈ sideOrderIds (matchPriceLevels fees c taker levels).levels) :
    x ∈ sideOrderIds levels := by
  induction levels generalizing c taker with
  | nil =>
    rw [matchPriceLevels_nil] at hx
    exact hx
  | cons level rest ih =>
    by_cases hrem : 0 < taker.remaining_quantity
    · by_cases hc : canMatch taker level.price = true
      · by_cases he : (levelRes fees c taker level).orders = []
        · rw [matchPriceLevels_cons_empty fees c taker level rest hrem hc he] at hx
          have := ih (levelRes fees c taker level).counter (levelRes fees c taker level).taker hx
          rw [mem_sideOrderIds] at this ⊢
          obtain ⟨l, hl, ho⟩ := this
          exact ⟨l, List.mem_cons_of_mem level hl, ho⟩
        · rw [matchPriceLevels_cons_stay fees c taker level rest hrem hc he] at hx
          rw [mem_sideOrderIds] at hx ⊢
          obtain ⟨l, hl, ho⟩ := hx
          simp only [List.mem_cons] at hl
          rcases hl with h | h
          · subst h
            obtain ⟨o, hom, hoe⟩ := List.mem_map.mp ho
            have := matchLevelOrders_orders_ids fees c taker level.price level.orders
              level.total_quantity o hom
            exact ⟨level, List.mem_cons_self level rest, hoe ▸ this⟩
          · exact ⟨l, List.mem_cons_of_mem level h, ho⟩
      · rw [matchPriceLevels_cons_nomatch fees c taker level rest hrem hc] at hx
        exact hx
    · rw [matchPriceLevels_cons_done fees c taker level rest hrem] at hx
      exact hx

theorem insertLevelSorted_ids (better : ℚ → ℚ → Bool) (p : ℚ)
    (levels : List PriceLevel) (x : String) :
    x ∈ sideOrderIds (insertLevelSorted better p levels) → x ∈ sideOrderIds levels := by
  induction levels with
  | nil =>
    intro hx
    rw [mem_sideOrderIds] at hx
    obtain ⟨l, hl, ho⟩ := hx
    simp only [insertLevelSorted, List.mem_singleton] at hl
    subst hl
    simp at ho
  | cons l0 rest ih =>
    intro hx
    simp only [insertLevelSorted] at hx
    split at hx
    · rw [mem_sideOrderIds] at hx
      obtain ⟨l, hl, ho⟩ := hx
      simp only [List.mem_cons] at hl
      rcases hl with h | h | h
      · subst h; simp at ho
      · rw [mem_sideOrderIds]
        exact ⟨l, by rw [h]; exact List.mem_cons_self l0 rest, ho⟩
      · rw [mem_sideOrderIds]
        exact ⟨l, List.mem_cons_of_mem l0 h, ho⟩
    · rw [mem_sideOrderIds] at hx
      obtain ⟨l, hl, ho⟩ := hx
      simp only [List.mem_cons] at hl
      rcases hl with h | h
      · rw [mem_sideOrderIds]
        exact ⟨l, by rw [h]; exact List.mem_cons_self l0 rest, ho⟩
      · have : x ∈ sideOrderIds (insertLevelSorted better p rest) := by
          rw [mem_sideOrderIds]
          exact ⟨l, h, ho⟩
        have := ih this
        rw [mem_sideOrderIds] at this ⊢
        obtain ⟨l2, hl2, ho2⟩ := this
        exact ⟨l2, List.mem_cons_of_mem l0 hl2, ho2⟩

theorem updateLevelAt_addOrder_ids (levels : List PriceLevel) (p : ℚ) (o : Order)
    (x : String)
    (hx : x ∈ sideOrderIds (updateLevelAt levels p (fun l => l.addOrder o))) :
    x = o.order_id ∨ x ∈ sideOrderIds levels := by
  rw [mem_sideOrderIds] at hx
  obtain ⟨l, hl, ho⟩ := hx
  rw [updateLevelAt] at hl
  obtain ⟨l0, hl0, he⟩ := List.mem_map.mp hl
  by_cases hp : l0.price == p
  · rw [if_pos hp] at he
    subst he
    simp only [PriceLevel.addOrder, List.map_append, List.mem_append] at ho
    rcases ho with h | h
    · right
      rw [mem_sideOrderIds]
      exact ⟨l0, hl0, h⟩
    · left
      simpa using h
  · rw [if_neg hp] at he
    subst he
    right
    rw [mem_sideOrderIds]
    exact ⟨l0, hl0, ho⟩

theorem addOrder_book_ids (b : OrderBook) (o : Order) (x : String)
    (hx : x ∈ bookOrderIds (b.addOrder o)) :
    x = o.order_id ∨ x ∈ bookOrderIds b := by
  rw [OrderBook.addOrder] at hx
  by_cases hside : o.side = Side.buy
  · rw [if_pos hside] at hx
    rw [bookOrderIds] at hx
    simp only [List.mem_append] at hx
    rcases hx with h | h
    · by_cases hf : ((b.bids.find? (fun l => l.price == o.price.getD 0)).isSome : Prop)
      · rw [if_pos hf] at h
        rcases updateLevelAt_addOrder_ids b.bids (o.price.getD 0) o x h with h2 | h2
        · exact Or.inl h2
        · exact Or.inr (by rw [bookOrderIds]; exact List.mem_append.mpr (Or.inl h2))
      · rw [if_neg hf] at h
        rcases updateLevelAt_addOrder_ids _ (o.price.getD 0) o x h with h2 | h2
        · exact Or.inl h2
        · have := insertLevelSorted_ids bidBetter (o.price.getD 0) b.bids x h2
          exact Or.inr (by rw [bookOrderIds]; exact List.mem_append.mpr (Or.inl this))
    · exact Or.inr (by rw [bookOrderIds]; exact List.mem_append.mpr (Or.inr h))
  · rw [if_neg hside] at hx
    rw [bookOrderIds] at hx
    simp only [List.mem_append] at hx
    rcases hx with h | h
    · exact Or.inr (by rw [bookOrderIds]; exact List.mem_append.mpr (Or.inl h))
    · by_cases hf : ((b.asks.find? (fun l => l.price == o.price.getD 0)).isSome : Prop)
      · rw [if_pos hf] at h
        rcases updateLevelAt_addOrder_ids b.asks (o.price.getD 0) o x h with h2 | h2
        · exact Or.inl h2
        · exact Or.inr (by rw [bookOrderIds]; exact List.mem_append.mpr (Or.inr h2))
      · rw [if_neg hf] at h
        rcases updateLevelAt_addOrder_ids _ (o.price.getD 0) o x h with h2 | h2
        · exact Or.inl h2
        · have := insertLevelSorted_ids askBetter (o.price.getD 0) b.asks x h2
          exact Or.inr (by rw [bookOrderIds]; exact List.mem_append.mpr (Or.inr this))

theorem engineStopIds_congr (st st' : Engine) (h : st'.stop_orders = st.stop_orders) :
    engineStopIds st' = engineStopIds st := by
  rw [engineStopIds, engineStopIds, h]

theorem engineBookIds_congr (st st' : Engine) (h : st'.order_books = st.order_books) :
    engineBookIds st' = engineBookIds st := by
  rw [engineBookIds, engineBookIds, h]

theorem setBook_book_ids (st : Engine) (s : String) (b : OrderBook) (x : String)
    (hx : x ∈ engineBookIds (st.setBook s b)) :
    x ∈ bookOrderIds b ∨ x ∈ engineBookIds st := by
  rw [mem_engineBookIds] at hx
  obtain ⟨sb, hsb, hxe⟩ := hx
  rcases mem_setAssocList st.order_books s b sb hsb with h | h
  · rw [h] at hxe
    exact Or.inl hxe
  · exact Or.inr ((mem_engineBookIds st x).mpr ⟨sb, h, hxe⟩)

theorem setStops_stop_ids (st : Engine) (s : String) (l : List Order)
    (hsub : ∀ x ∈ l.map Order.order_id, x ∈ engineStopIds st) (x : String)
    (hx : x ∈ engineStopIds (st.setStops s l)) : x ∈ engineStopIds st := by
  rw [mem_engineStopIds] at hx
  obtain ⟨sl, hsl, hxe⟩ := hx
  rcases mem_setAssocList st.stop_orders s l sl hsl with h | h
  · rw [h] at hxe
    exact hsub x hxe
  · exact (mem_engineStopIds st x).mpr ⟨sl, h, hxe⟩

theorem getOrCreate_book_ids (st : Engine) (s : String) (x : String)
    (hx : x ∈ engineBookIds (st.getOrCreateOrderBook s).2) : x ∈ engineBookIds st := by
  rw [Engine.getOrCreateOrderBook] at hx
  cases hb : st.order_books.lookup s with
  | some b =>
    rw [hb] at hx
    exact hx
  | none =>
    rw [hb] at hx
    rw [mem_engineBookIds] at hx
    obtain ⟨sb, hsb, hxe⟩ := hx
    simp only [List.mem_append, List.mem_singleton] at hsb
    rcases hsb with h | h
    · exact (mem_engineBookIds st x).mpr ⟨sb, h, hxe⟩
    · rw [h] at hxe
      simp [bookOrderIds, sideOrderIds] at hxe

theorem addToBook_book_ids (st : Engine) (o : Order) (x : String)
    (hx : x ∈ engineBookIds (st.addToBook o)) :
    x = o.order_id ∨ x ∈ engineBookIds st := by
  rw [Engine.addToBook] at hx
  cases hb : st.order_books.lookup o.symbol with
  | none =>
    rw [hb] at hx
    exact Or.inr hx
  | some b =>
    rw [hb] at hx
    rcases setBook_book_ids st o.symbol (b.addOrder o) x hx with h | h
    · rcases addOrder_book_ids b o x h with h2 | h2
      · exact Or.inl h2
      · refine Or.inr ((mem_engineBookIds st x).mpr ⟨(o.symbol, b), ?_, h2⟩)
        exact mem_lookup_assoc st.order_books o.symbol b hb
    · exact Or.inr h

theorem mocBook_ids (fees : FeeSettings) (c : Nat) (o : Order) (book : OrderBook)
    (x : String) (hx : x ∈ bookOrderIds (mocBook fees c o book)) :
    x ∈ bookOrderIds book := by
  by_cases hside : o.side = Side.buy
  · have hx' : x ∈ sideOrderIds book.bids ++ sideOrderIds
        (matchPriceLevels fees c o (if o.side = Side.buy then book.asks else book.bids)).levels := by
      simpa [mocBook, bookOrderIds, hside] using hx
    rw [List.mem_append] at hx'
    rcases hx' with h | h
    · exact List.mem_append.mpr (Or.inl h)
    · have := matchPriceLevels_side_ids fees c o
        (if o.side = Side.buy then book.asks else book.bids) x h
      rw [if_pos hside] at this
      exact List.mem_append.mpr (Or.inr this)
  · have hx' : x ∈ sideOrderIds
        (matchPriceLevels fees c o (if o.side = Side.buy then book.asks else book.bids)).levels
        ++ sideOrderIds book.asks := by
      simpa [mocBook, bookOrderIds, hside] using hx
    rw [List.mem_append] at hx'
    rcases hx' with h | h
    · have := matchPriceLevels_side_ids fees c o
        (if o.side = Side.buy then book.asks else book.bids) x h
      rw [if_neg hside] at this
      exact List.mem_append.mpr (Or.inl this)
    · exact List.mem_append.mpr (Or.inr h)

theorem matchOrderCore_book_ids (st : Engine) (o : Order) (x : String)
    (hx : x ∈ engineBookIds (st.matchOrderCore o).2.2) : x ∈ engineBookIds st := by
  cases hb : st.order_books.lookup o.symbol with
  | none =>
    rw [Engine.matchOrderCore, hb] at hx
    exact hx
  | some book =>
    have hob : (st.matchOrderCore o).2.2.order_books
        = setAssocList st.order_books o.symbol
            (mocBook st.fees st.trade_id_counter o book) := by
      simp only [Engine.matchOrderCore, hb]
      rfl
    have hx2 : x ∈ engineBookIds (st.setBook o.symbol
        (mocBook st.fees st.trade_id_counter o book)) := by
      rw [mem_engineBookIds] at hx ⊢
      obtain ⟨sb, hsb, hxe⟩ := hx
      rw [hob] at hsb
      exact ⟨sb, hsb, hxe⟩
    have hbm : (o.symbol, book) ∈ st.order_books := mem_lookup_assoc _ _ _ hb
    rcases setBook_book_ids st o.symbol _ x hx2 with h | h
    · exact (mem_engineBookIds st x).mpr
        ⟨(o.symbol, book), hbm, mocBook_ids st.fees st.trade_id_counter o book x h⟩
    · exact h

theorem convertTriggered_order_id (o : Order) :
    (convertTriggered o).order_id = o.order_id := by
  unfold convertTriggered
  split <;> try split
  all_goals try split
  all_goals rfl

theorem matchOrderF_taker_order_id (fuel : Nat) (st : Engine) (o : Order) :
    (matchOrderF fuel st o).2.1.order_id = o.order_id := by
  rw [(matchOrderF_components fuel st o).2]
  unfold Engine.matchOrderCore
  cases hb : st.order_books.lookup o.symbol with
  | none => rfl
  | some b =>
    obtain ⟨-, -, -, h4, -, -⟩ := matchPriceLevels_core st.fees st.trade_id_counter o
      (if o.side = Side.buy then b.asks else b.bids)
    simpa using h4

theorem matchIds_of_checkIds (fuel : Nat) (hA : CheckIds fuel) : MatchIds fuel := by
  intro st o x
  rw [matchOrderF]
  rcases h : (st.matchOrderCore o).1.getLast? with _ | t
  · have hse := engineStopIds_congr st (st.matchOrderCore o).2.2 (matchOrderCore_stops st o)
    exact ⟨fun hx => Or.inl (matchOrderCore_book_ids st o x hx),
      fun hx => by rw [hse] at hx; exact hx⟩
  · have hse := engineStopIds_congr st (st.matchOrderCore o).2.2 (matchOrderCore_stops st o)
    constructor
    · intro hx
      rcases (hA (st.matchOrderCore o).2.2 o.symbol t.price x).1 hx with h1 | h1
      · exact Or.inl (matchOrderCore_book_ids st o x h1)
      · rw [hse] at h1
        exact Or.inr h1
    · intro hx
      have h1 := (hA (st.matchOrderCore o).2.2 o.symbol t.price x).2 hx
      rw [hse] at h1
      exact h1

theorem trigIds_of_matchIds (fuel : Nat) (hB : MatchIds fuel) : TrigIds fuel := by
  intro st l x
  induction l generalizing st with
  | nil =>
    rw [processTriggeredF_nil]
    exact ⟨fun hx => Or.inl hx, fun hx => hx⟩
  | cons t rest ih =>
    rw [processTriggeredF_cons]
    have hg1 : ∀ y, y ∈ engineBookIds
        (st.getOrCreateOrderBook (convertTriggered t).symbol).2 → y ∈ engineBookIds st :=
      fun y hy => getOrCreate_book_ids st (convertTriggered t).symbol y hy
    have hg2 : engineStopIds (st.getOrCreateOrderBook (convertTriggered t).symbol).2
        = engineStopIds st :=
      engineStopIds_congr st _ (getOrCreate_stops st (convertTriggered t).symbol)
    have hMid : (matchOrderF fuel (st.getOrCreateOrderBook (convertTriggered t).symbol).2
        (convertTriggered t)).2.1.order_id = t.order_id := by
      rw [matchOrderF_taker_order_id, convertTriggered_order_id]
    obtain ⟨hm1, hm2⟩ := hB (st.getOrCreateOrderBook (convertTriggered t).symbol).2
      (convertTriggered t) x
    have hbooks2 : x ∈ engineBookIds
        (if 0 < (matchOrderF fuel (st.getOrCreateOrderBook (convertTriggered t).symbol).2
              (convertTriggered t)).2.1.remaining_quantity ∧
            (matchOrderF fuel (st.getOrCreateOrderBook (convertTriggered t).symbol).2
              (convertTriggered t)).2.1.canRestOnBook = true
         then (matchOrderF fuel (st.getOrCreateOrderBook (convertTriggered t).symbol).2
                (convertTriggered t)).2.2.addToBook
              (matchOrderF fuel (st.getOrCreateOrderBook (convertTriggered t).symbol).2
                (convertTriggered t)).2.1
         else (matchOrderF fuel (st.getOrCreateOrderBook (convertTriggered t).symbol).2
                (convertTriggered t)).2.2) →
        x ∈ engineBookIds st ∨ x = t.order_id ∨ x ∈ engineStopIds st := by
      intro hx
      have hfin : x ∈ engineBookIds
          (matchOrderF fuel (st.getOrCreateOrderBook (convertTriggered t).symbol).2
            (convertTriggered t)).2.2 →
          x ∈ engineBookIds st ∨ x = t.order_id ∨ x ∈ engineStopIds st := by
        intro hx2
        rcases hm1 hx2 with h2 | h2
        · exact Or.inl (hg1 x h2)
        · rw [hg2] at h2
          exact Or.inr (Or.inr h2)
      by_cases hcond : (0 < (matchOrderF fuel
          (st.getOrCreateOrderBook (convertTriggered t).symbol).2
          (convertTriggered t)).2.1.remaining_quantity ∧
          (matchOrderF fuel (st.getOrCreateOrderBook (convertTriggered t).symbol).2
            (convertTriggered t)).2.1.canRestOnBook = true)
      swap
      · rw [if_neg hcond] at hx
        exact hfin hx
      · rw [if_pos hcond] at hx
        rcases addToBook_book_ids _ _ x hx with h2 | h2
        · rw [hMid] at h2
          exact Or.inr (Or.inl h2)
        · exact hfin h2
    have hstops2 : x ∈ engineStopIds
        (if 0 < (matchOrderF fuel (st.getOrCreateOrderBook (convertTriggered t).symbol).2
              (convertTriggered t)).2.1.remaining_quantity ∧
            (matchOrderF fuel (st.getOrCreateOrderBook (convertTriggered t).symbol).2
              (convertTriggered t)).2.1.canRestOnBook = true
         then (matchOrderF fuel (st.getOrCreateOrderBook (convertTriggered t).symbol).2
                (convertTriggered t)).2.2.addToBook
              (matchOrderF fuel (st.getOrCreateOrderBook (convertTriggered t).symbol).2
                (convertTriggered t)).2.1
         else (matchOrderF fuel (st.getOrCreateOrderBook (convertTriggered t).symbol).2
                (convertTriggered t)).2.2) →
        x ∈ engineStopIds st := by
      intro hx
      have hfin : x ∈ engineStopIds
          (matchOrderF fuel (st.getOrCreateOrderBook (convertTriggered t).symbol).2
            (convertTriggered t)).2.2 →
          x ∈ engineStopIds st := by
        intro hx2
        have h2 := hm2 hx2
        rw [hg2] at h2
        exact h2
      by_cases hcond : (0 < (matchOrderF fuel
          (st.getOrCreateOrderBook (convertTriggered t).symbol).2
          (convertTriggered t)).2.1.remaining_quantity ∧
          (matchOrderF fuel (st.getOrCreateOrderBook (convertTriggered t).symbol).2
            (convertTriggered t)).2.1.canRestOnBook = true)
      swap
      · rw [if_neg hcond] at hx
        exact hfin hx
      · rw [if_pos hcond] at hx
        have hse := engineStopIds_congr
          (matchOrderF fuel (st.getOrCreateOrderBook (convertTriggered t).symbol).2
            (convertTriggered t)).2.2 _
          (addToBook_stops
            (matchOrderF fuel (st.getOrCreateOrderBook (convertTriggered t).symbol).2
              (convertTriggered t)).2.2
            (matchOrderF fuel (st.getOrCreateOrderBook (convertTriggered t).symbol).2
              (convertTriggered t)).2.1)
        rw [hse] at hx
        exact hfin hx
    obtain ⟨hr1, hr2⟩ := ih _
    constructor
    · intro hx
      rcases hr1 hx with h | h | h
      · rcases hbooks2 h with h2 | h2 | h2
        · exact Or.inl h2
        · refine Or.inr (Or.inl ?_)
          rw [List.map_cons, h2]
          exact List.mem_cons_self _ _
        · exact Or.inr (Or.inr h2)
      · refine Or.inr (Or.inl ?_)
        rw [List.map_cons]
        exact List.mem_cons_of_mem _ h
      · exact Or.inr (Or.inr (hstops2 h))
    · intro hx
      exact hstops2 (hr2 hx)

theorem checkIds_zero : CheckIds 0 := by
  intro st symbol last x
  rw [checkStopOrdersF_zero]
  exact ⟨fun hx => Or.inl hx, fun hx => hx⟩

theorem checkIds_succ (fuel : Nat) (hC : TrigIds fuel) : CheckIds (fuel + 1) := by
  intro st symbol last x
  rcases hp : st.stop_orders.lookup symbol with _ | pending
  · rw [checkStopOrdersF_succ_none fuel st symbol last hp]
    exact ⟨fun hx => Or.inl hx, fun hx => hx⟩
  · rw [checkStopOrdersF_succ_some fuel st symbol last pending hp]
    have hpm : (symbol, pending) ∈ st.stop_orders := mem_lookup_assoc _ _ _ hp
    have hpend_ids : ∀ y ∈ pending.map Order.order_id, y ∈ engineStopIds st := by
      intro y hy
      exact (mem_engineStopIds st y).mpr ⟨(symbol, pending), hpm, hy⟩
    have hb1 : engineBookIds (st.setStops symbol (scanStops last pending pending).2)
        = engineBookIds st :=
      engineBookIds_congr st _ (setStops_books st symbol _)
    have hkept_ids : ∀ y ∈ ((scanStops last pending pending).2.map Order.order_id),
        y ∈ engineStopIds st := by
      intro y hy
      exact hpend_ids y
        (((scanStops_kept_sublist last pending pending).map Order.order_id).mem hy)
    have hs1 : ∀ y, y ∈ engineStopIds (st.setStops symbol (scanStops last pending pending).2)
        → y ∈ engineStopIds st :=
      fun y hy => setStops_stop_ids st symbol _ hkept_ids y hy
    have htrig_ids : ∀ y ∈ ((scanStops last pending pending).1.map Order.order_id),
        y ∈ engineStopIds st := by
      intro y hy
      rw [List.mem_map] at hy
      obtain ⟨o, ho, hid⟩ := hy
      obtain ⟨o2, ho2, he⟩ := scanStops_triggered_shape last pending pending o ho
      refine hpend_ids y ?_
      rw [List.mem_map]
      refine ⟨o2, ho2, ?_⟩
      rw [← hid, he]
    obtain ⟨hr1, hr2⟩ := hC (st.setStops symbol (scanStops last pending pending).2)
      (scanStops last pending pending).1 x
    constructor
    · intro hx
      rcases hr1 hx with h | h | h
      · rw [hb1] at h
        exact Or.inl h
      · exact Or.inr (htrig_ids x h)
      · exact Or.inr (hs1 x h)
    · intro hx
      exact hs1 x (hr2 hx)

theorem cascade_ids_all (fuel : Nat) :
    CheckIds fuel ∧ MatchIds fuel ∧ TrigIds fuel := by
  induction fuel with
  | zero =>
    have hA := checkIds_zero
    have hB := matchIds_of_checkIds 0 hA
    exact ⟨hA, hB, trigIds_of_matchIds 0 hB⟩
  | succ n ih =>
    have hA := checkIds_succ n ih.2.2
    have hB := matchIds_of_checkIds (n + 1) hA
    exact ⟨hA, hB, trigIds_of_matchIds (n + 1) hB⟩

/-- Witness for C9 at a concrete input. -/
theorem process_and_cancel_symbol_local_witness :
    (stopsConsistAt c9Order.symbol c9Engine = true ∧
     "G-H" ≠ c9Order.symbol ∧ "G-H" ≠ "A-B") ∧
    (((c9Engine.processOrder c9Order).2.2.order_books.lookup "G-H"
        = c9Engine.order_books.lookup "G-H" ∧
      (c9Engine.processOrder c9Order).2.2.stop_orders.lookup "G-H"
        = c9Engine.stop_orders.lookup "G-H") ∧
     ((c9Engine.cancelOrder "X" "A-B").2.order_books.lookup "G-H"
        = c9Engine.order_books.lookup "G-H" ∧
      (c9Engine.cancelOrder "X" "A-B").2.stop_orders.lookup "G-H"
        = c9Engine.stop_orders.lookup "G-H")) :=
  ⟨⟨by decide, by decide, by decide⟩,
    process_and_cancel_symbol_local c9Engine c9Order (by decide) "X" "A-B" "G-H" "G-H"
      (by decide) (by decide)⟩

theorem tsLE_trans (a b c : Order) (h1 : tsLE a b = true) (h2 : tsLE b c = true) :
    tsLE a c = true := by
  simp only [tsLE, decide_eq_true_eq] at *
  exact le_trans h1 h2

theorem tsLE_total (a b : Order) : (tsLE a b || tsLE b a) = true := by
  simp only [tsLE, Bool.or_eq_true, decide_eq_true_eq]
  exact Nat.le_total a.timestamp b.timestamp

theorem tsNonDecreasing_pairwise : ∀ (l : List Order), tsNonDecreasing l = true →
    l.Pairwise (fun a b => tsLE a b = true)
  | [], _ => List.Pairwise.nil
  | [_], _ => by simp
  | a :: b :: rest, h => by
    rw [tsNonDecreasing, Bool.and_eq_true] at h
    have ih := tsNonDecreasing_pairwise (b :: rest) h.2
    refine List.Pairwise.cons ?_ ih
    intro x hx
    rcases List.mem_cons.mp hx with hxb | hx2
    · rw [hxb]
      exact h.1
    · exact tsLE_trans a b x h.1 (List.rel_of_pairwise_cons ih hx2)

theorem serializeOrder_eq (o : Order) (h : serRoundTrips o = true) : serializeOrder o = o := by
  rw [serRoundTrips, Bool.and_eq_true, beq_iff_eq, beq_iff_eq] at h
  rw [serializeOrder, h.1, h.2]

theorem filter_mergeSort_of_pairwise (L : List Order) (P : Order → Bool)
    (h : (L.filter P).Pairwise (fun a b => tsLE a b = true)) :
    (L.mergeSort tsLE).filter P = L.filter P := by
  have hperm : ((L.mergeSort tsLE).filter P).Perm (L.filter P) :=
    (List.mergeSort_perm L tsLE).filter P
  have hsub : (L.filter P).Sublist (L.mergeSort tsLE) :=
    List.sublist_mergeSort tsLE_trans tsLE_total h (List.filter_sublist L)
  have hsub2 : (L.filter P).Sublist ((L.mergeSort tsLE).filter P) := by
    have h2 := List.Sublist.filter P hsub
    have heq : (L.filter P).filter P = L.filter P :=
      List.filter_eq_self.mpr (fun a ha => List.of_mem_filter ha)
    rwa [heq] at h2
  exact (hsub2.eq_of_length hperm.length_eq.symm).symm

theorem mergeSort_pair_of_not (a b : Order) (h : tsLE a b = false) :
    [a, b].mergeSort tsLE = [b, a] := by
  have hp := List.mergeSort_perm [a, b] tsLE
  have hs := List.sorted_mergeSort tsLE_trans tsLE_total [a, b]
  have hlen : ([a, b].mergeSort tsLE).length = 2 := by rw [hp.length_eq]; rfl
  obtain ⟨x, y, hxy⟩ := List.length_eq_two.mp hlen
  rw [hxy] at hp hs ⊢
  have hxyle : tsLE x y = true :=
    List.rel_of_pairwise_cons hs (List.mem_singleton.mpr rfl)
  have hx : x ∈ [a, b] := hp.mem_iff.mp (List.mem_cons_self x [y])
  rcases List.mem_cons.mp hx with hxa | hx2
  · subst hxa
    have hyb : y = b := by
      have h2 : [y].Perm [b] := hp.cons_inv
      simpa using List.perm_singleton.mp h2
    subst hyb
    rw [h] at hxyle
    cases hxyle
  · have hxb : x = b := List.mem_singleton.mp hx2
    rw [hxb] at hp ⊢
    have h2 : [b, y].Perm [b, a] := hp.trans (List.Perm.swap b a [])
    have hya : y = a := by simpa using List.perm_singleton.mp h2.cons_inv
    rw [hya]

theorem levelQueue_cons_pos (l : PriceLevel) (rest : List PriceLevel) (q : ℚ)
    (h : (l.price == q) = true) : levelQueue (l :: rest) q = l.orders := by
  simp only [levelQueue, List.find?_cons, h]

theorem levelQueue_cons_neg (l : PriceLevel) (rest : List PriceLevel) (q : ℚ)
    (h : (l.price == q) = false) : levelQueue (l :: rest) q = levelQueue rest q := by
  simp only [levelQueue, List.find?_cons, h]

theorem find?_insertLevelSorted (better : ℚ → ℚ → Bool) (p : ℚ) :
    ∀ (levels : List PriceLevel) (q : ℚ),
      levels.find? (fun l => l.price == p) = none →
      (insertLevelSorted better p levels).find? (fun l => l.price == q)
        = if (p == q) = true then some ⟨p, [], 0⟩
          else levels.find? (fun l => l.price == q)
  | [], q, _ => by
    by_cases hpq : (p == q) = true
    · rw [if_pos hpq, insertLevelSorted]
      simp only [List.find?_cons, hpq]
    · rw [if_neg hpq, insertLevelSorted]
      simp only [List.find?_cons, eq_false_of_ne_true hpq]
  | l :: rest, q, h => by
    have hlp : (l.price == p) = false := by
      cases hc : (l.price == p) with
      | true =>
        simp only [List.find?_cons, hc] at h
        cases h
      | false => rfl
    have hrest : rest.find? (fun l2 => l2.price == p) = none := by
      simp only [List.find?_cons, hlp] at h
      exact h
    rw [insertLevelSorted]
    by_cases hb : better p l.price = true
    · rw [if_pos hb]
      by_cases hpq : (p == q) = true
      · rw [if_pos hpq]
        simp only [List.find?_cons, hpq]
      · rw [if_neg hpq]
        simp only [List.find?_cons, eq_false_of_ne_true hpq]
    · rw [if_neg hb]
      by_cases hlq : (l.price == q) = true
      · have hpq : (p == q) = false := by
          cases hx : (p == q) with
          | true =>
            have hlp2 : (l.price == p) = true := by
              rw [show p = q from eq_of_beq hx]
              exact hlq
            rw [hlp2] at hlp
            cases hlp
          | false => rfl
        rw [if_neg (by rw [hpq]; exact Bool.false_ne_true)]
        simp only [List.find?_cons, hlq]
      · have hlq2 : (l.price == q) = false := eq_false_of_ne_true hlq
        simp only [List.find?_cons, hlq2]
        exact find?_insertLevelSorted better p rest q hrest

theorem levelQueue_insertLevelSorted (better : ℚ → ℚ → Bool) (p : ℚ)
    (levels : List PriceLevel) (q : ℚ)
    (h : levels.find? (fun l => l.price == p) = none) :
    levelQueue (insertLevelSorted better p levels) q = levelQueue levels q := by
  rw [levelQueue, levelQueue, find?_insertLevelSorted better p levels q h]
  by_cases hpq : (p == q) = true
  · rw [if_pos hpq]
    have hq : p = q := eq_of_beq hpq
    rw [← hq, h]
  · rw [if_neg hpq]

theorem levelQueue_updateLevelAt_ne (levels : List PriceLevel) (p : ℚ) (o : Order)
    (q : ℚ) (hne : q ≠ p) :
    levelQueue (updateLevelAt levels p (fun l => l.addOrder o)) q = levelQueue levels q := by
  induction levels with
  | nil => rfl
  | cons l rest ih =>
    rw [updateLevelAt, List.map_cons]
    rw [updateLevelAt] at ih
    by_cases hlq : (l.price == q) = true
    · have hlp : (l.price == p) = false := by
        refine beq_eq_false_iff_ne.mpr ?_
        rw [eq_of_beq hlq]
        exact hne
      rw [if_neg (by rw [hlp]; exact Bool.false_ne_true)]
      rw [levelQueue_cons_pos l _ q hlq, levelQueue_cons_pos l rest q hlq]
    · have hlq2 : (l.price == q) = false := eq_false_of_ne_true hlq
      by_cases hlp : (l.price == p) = true
      · rw [if_pos hlp]
        have hprice : ((l.addOrder o).price == q) = false := hlq2
        rw [levelQueue_cons_neg _ _ q hprice, levelQueue_cons_neg l rest q hlq2]
        exact ih
      · rw [if_neg hlp]
        rw [levelQueue_cons_neg l _ q hlq2, levelQueue_cons_neg l rest q hlq2]
        exact ih

theorem levelQueue_updateLevelAt_eq (levels : List PriceLevel) (p : ℚ) (o : Order)
    (hs : (levels.find? (fun l => l.price == p)).isSome = true) :
    levelQueue (updateLevelAt levels p (fun l => l.addOrder o)) p
      = levelQueue levels p ++ [o] := by
  induction levels with
  | nil => cases hs
  | cons l rest ih =>
    rw [updateLevelAt, List.map_cons]
    rw [updateLevelAt] at ih
    by_cases hlp : (l.price == p) = true
    · rw [if_pos hlp]
      have hprice : ((l.addOrder o).price == p) = true := hlp
      rw [levelQueue_cons_pos _ _ p hprice, levelQueue_cons_pos l rest p hlp]
      rfl
    · have hlp2 : (l.price == p) = false := eq_false_of_ne_true hlp
      rw [if_neg hlp]
      have hs2 : (rest.find? (fun l2 => l2.price == p)).isSome = true := by
        simp only [List.find?_cons, hlp2] at hs
        exact hs
      rw [levelQueue_cons_neg l _ p hlp2, levelQueue_cons_neg l rest p hlp2]
      exact ih hs2

theorem addOrder_bids_queue (b : OrderBook) (o : Order) (ho : o.side = Side.buy) (q : ℚ) :
    levelQueue (b.addOrder o).bids q
      = if q = o.price.getD 0 then levelQueue b.bids q ++ [o]
        else levelQueue b.bids q := by
  rw [OrderBook.addOrder, if_pos ho]
  dsimp only
  by_cases hfound : ((b.bids.find? (fun l => l.price == o.price.getD 0)).isSome) = true
  · rw [if_pos hfound]
    by_cases hq : q = o.price.getD 0
    · rw [if_pos hq, hq]
      exact levelQueue_updateLevelAt_eq b.bids (o.price.getD 0) o hfound
    · rw [if_neg hq]
      exact levelQueue_updateLevelAt_ne b.bids (o.price.getD 0) o q hq
  · rw [if_neg hfound]
    have hnone : b.bids.find? (fun l => l.price == o.price.getD 0) = none :=
      Option.not_isSome_iff_eq_none.mp hfound
    have hins : ((insertLevelSorted bidBetter (o.price.getD 0) b.bids).find?
        (fun l => l.price == o.price.getD 0)).isSome = true := by
      rw [find?_insertLevelSorted bidBetter (o.price.getD 0) b.bids (o.price.getD 0) hnone]
      rw [if_pos (beq_self_eq_true _)]
      rfl
    by_cases hq : q = o.price.getD 0
    · rw [if_pos hq, hq]
      rw [levelQueue_updateLevelAt_eq _ (o.price.getD 0) o hins]
      rw [levelQueue_insertLevelSorted bidBetter (o.price.getD 0) b.bids (o.price.getD 0) hnone]
    · rw [if_neg hq]
      rw [levelQueue_updateLevelAt_ne _ (o.price.getD 0) o q hq]
      rw [levelQueue_insertLevelSorted bidBetter (o.price.getD 0) b.bids q hnone]

theorem addOrder_asks_of_buy (b : OrderBook) (o : Order) (ho : o.side = Side.buy) :
    (b.addOrder o).asks = b.asks := by
  rw [OrderBook.addOrder, if_pos ho]

theorem addOrder_asks_queue (b : OrderBook) (o : Order) (ho : ¬ o.side = Side.buy) (q : ℚ) :
    levelQueue (b.addOrder o).asks q
      = if q = o.price.getD 0 then levelQueue b.asks q ++ [o]
        else levelQueue b.asks q := by
  rw [OrderBook.addOrder, if_neg ho]
  dsimp only
  by_cases hfound : ((b.asks.find? (fun l => l.price == o.price.getD 0)).isSome) = true
  · rw [if_pos hfound]
    by_cases hq : q = o.price.getD 0
    · rw [if_pos hq, hq]
      exact levelQueue_updateLevelAt_eq b.asks (o.price.getD 0) o hfound
    · rw [if_neg hq]
      exact levelQueue_updateLevelAt_ne b.asks (o.price.getD 0) o q hq
  · rw [if_neg hfound]
    have hnone : b.asks.find? (fun l => l.price == o.price.getD 0) = none :=
      Option.not_isSome_iff_eq_none.mp hfound
    have hins : ((insertLevelSorted askBetter (o.price.getD 0) b.asks).find?
        (fun l => l.price == o.price.getD 0)).isSome = true := by
      rw [find?_insertLevelSorted askBetter (o.price.getD 0) b.asks (o.price.getD 0) hnone]
      rw [if_pos (beq_self_eq_true _)]
      rfl
    by_cases hq : q = o.price.getD 0
    · rw [if_pos hq, hq]
      rw [levelQueue_updateLevelAt_eq _ (o.price.getD 0) o hins]
      rw [levelQueue_insertLevelSorted askBetter (o.price.getD 0) b.asks (o.price.getD 0) hnone]
    · rw [if_neg hq]
      rw [levelQueue_updateLevelAt_ne _ (o.price.getD 0) o q hq]
      rw [levelQueue_insertLevelSorted askBetter (o.price.getD 0) b.asks q hnone]

theorem addOrder_bids_of_sell (b : OrderBook) (o : Order) (ho : ¬ o.side = Side.buy) :
    (b.addOrder o).bids = b.bids := by
  rw [OrderBook.addOrder, if_neg ho]

theorem foldl_addOrder_queue (os : List Order) (b0 : OrderBook) (side : Side) (q : ℚ) :
    levelQueue (sideLevels (os.foldl (fun b o => b.addOrder o) b0) side) q
      = levelQueue (sideLevels b0 side) q ++ os.filter (orderKeyAt side q) := by
  induction os generalizing b0 with
  | nil => simp [List.filter]
  | cons o rest ih =>
    rw [List.foldl_cons, ih (b0.addOrder o), List.filter_cons]
    by_cases hos : o.side = Side.buy
    · cases side with
      | buy =>
        have hkey : orderKeyAt Side.buy q o = decide (o.price.getD 0 = q) := by
          rw [orderKeyAt, hos]
          simp
        rw [hkey]
        have hq1 : levelQueue (sideLevels (b0.addOrder o) Side.buy) q
            = if q = o.price.getD 0 then levelQueue (sideLevels b0 Side.buy) q ++ [o]
              else levelQueue (sideLevels b0 Side.buy) q :=
          addOrder_bids_queue b0 o hos q
        rw [hq1]
        by_cases hq : q = o.price.getD 0
        · rw [if_pos hq, if_pos (by rw [decide_eq_true_eq]; exact hq.symm)]
          rw [List.append_assoc]
          rfl
        · rw [if_neg hq, if_neg (by rw [decide_eq_true_eq]; exact fun hh => hq hh.symm)]
      | sell =>
        have hkey : orderKeyAt Side.sell q o = false := by
          rw [orderKeyAt, hos]
          rfl
        rw [hkey]
        have hq1 : sideLevels (b0.addOrder o) Side.sell = sideLevels b0 Side.sell :=
          addOrder_asks_of_buy b0 o hos
        rw [hq1]
        rw [if_neg (by simp)]
    · cases side with
      | buy =>
        have hkey : orderKeyAt Side.buy q o = false := by
          rw [orderKeyAt]
          cases hx : o.side with
          | buy => exact absurd hx hos
          | sell => rfl
        rw [hkey]
        have hq1 : sideLevels (b0.addOrder o) Side.buy = sideLevels b0 Side.buy :=
          addOrder_bids_of_sell b0 o hos
        rw [hq1]
        rw [if_neg (by simp)]
      | sell =>
        have hside : o.side = Side.sell := by
          cases hx : o.side with
          | buy => exact absurd hx hos
          | sell => rfl
        have hkey : orderKeyAt Side.sell q o = decide (o.price.getD 0 = q) := by
          rw [orderKeyAt, hside]
          simp
        rw [hkey]
        have hq1 : levelQueue (sideLevels (b0.addOrder o) Side.sell) q
            = if q = o.price.getD 0 then levelQueue (sideLevels b0 Side.sell) q ++ [o]
              else levelQueue (sideLevels b0 Side.sell) q :=
          addOrder_asks_queue b0 o hos q
        rw [hq1]
        by_cases hq : q = o.price.getD 0
        · rw [if_pos hq, if_pos (by rw [decide_eq_true_eq]; exact hq.symm)]
          rw [List.append_assoc]
          rfl
        · rw [if_neg hq, if_neg (by rw [decide_eq_true_eq]; exact fun hh => hq hh.symm)]

theorem filter_flatten_orders_self (side : Side) (q : ℚ) :
    ∀ (levels : List PriceLevel),
      (∀ l ∈ levels, levelOrdersConsistent side l = true) →
      nodupPrices levels = true →
      ((levels.map (fun l => l.orders)).flatten).filter (orderKeyAt side q)
        = levelQueue levels q
  | [], _, _ => rfl
  | l :: rest, hcons, hnd => by
    rw [List.map_cons, List.flatten_cons, List.filter_append]
    have hl := hcons l (List.mem_cons_self l rest)
    rw [levelOrdersConsistent] at hl
    rw [nodupPrices, Bool.and_eq_true] at hnd
    by_cases hlq : (l.price == q) = true
    · have hq : l.price = q := eq_of_beq hlq
      have h1 : l.orders.filter (orderKeyAt side q) = l.orders := by
        refine List.filter_eq_self.mpr ?_
        intro a ha
        have hx := List.all_eq_true.mp hl a ha
        rw [Bool.and_eq_true] at hx
        obtain ⟨hside, hprice⟩ := hx
        rw [orderKeyAt, hside, Bool.true_and, decide_eq_true_eq]
        rw [eq_of_beq hprice]
        exact hq
      have h2 : ((rest.map (fun l2 => l2.orders)).flatten).filter (orderKeyAt side q)
          = [] := by
        refine List.filter_eq_nil_iff.mpr ?_
        intro a ha hkey
        obtain ⟨s2, hs2, ha2⟩ := List.mem_flatten.mp ha
        obtain ⟨l2, hl2, hseq⟩ := List.mem_map.mp hs2
        rw [← hseq] at ha2
        have hl2c := hcons l2 (List.mem_cons_of_mem l hl2)
        rw [levelOrdersConsistent] at hl2c
        have hx2 := List.all_eq_true.mp hl2c a ha2
        rw [Bool.and_eq_true] at hx2
        obtain ⟨hside2, hprice2⟩ := hx2
        have hne := List.all_eq_true.mp hnd.1 l2 hl2
        rw [Bool.not_eq_eq_eq_not, Bool.not_true] at hne
        rw [orderKeyAt, hside2, Bool.true_and, decide_eq_true_eq] at hkey
        rw [eq_of_beq hprice2, Option.getD_some] at hkey
        rw [hkey, ← hq] at hne
        rw [beq_self_eq_true] at hne
        cases hne
      rw [h1, h2, List.append_nil, levelQueue_cons_pos l rest q hlq]
    · have hlq2 : (l.price == q) = false := eq_false_of_ne_true hlq
      have h1 : l.orders.filter (orderKeyAt side q) = [] := by
        refine List.filter_eq_nil_iff.mpr ?_
        intro a ha hkey
        have hx := List.all_eq_true.mp hl a ha
        rw [Bool.and_eq_true] at hx
        obtain ⟨hside, hprice⟩ := hx
        rw [orderKeyAt, hside, Bool.true_and, decide_eq_true_eq] at hkey
        rw [eq_of_beq hprice, Option.getD_some] at hkey
        rw [hkey] at hlq2
        rw [beq_self_eq_true] at hlq2
        cases hlq2
      rw [h1, List.nil_append, levelQueue_cons_neg l rest q hlq2]
      exact filter_flatten_orders_self side q rest
        (fun l2 h2 => hcons l2 (List.mem_cons_of_mem l h2)) hnd.2

theorem filter_flatten_orders_other (side side' : Side) (q : ℚ) (hne : side' ≠ side)
    (levels : List PriceLevel)
    (hcons : ∀ l ∈ levels, levelOrdersConsistent side' l = true) :
    ((levels.map (fun l => l.orders)).flatten).filter (orderKeyAt side q) = [] := by
  refine List.filter_eq_nil_iff.mpr ?_
  intro a ha hkey
  obtain ⟨s2, hs2, ha2⟩ := List.mem_flatten.mp ha
  obtain ⟨l2, hl2, hseq⟩ := List.mem_map.mp hs2
  rw [← hseq] at ha2
  have hl2c := hcons l2 hl2
  rw [levelOrdersConsistent] at hl2c
  have hx2 := List.all_eq_true.mp hl2c a ha2
  rw [Bool.and_eq_true] at hx2
  obtain ⟨hside2, -⟩ := hx2
  rw [orderKeyAt, Bool.and_eq_true, beq_iff_eq] at hkey
  exact hne ((eq_of_beq hside2).symm.trans hkey.1)

theorem serializePriceLevels_orders (levels : List PriceLevel)
    (h : ∀ l ∈ levels, l.orders.all serRoundTrips = true) :
    (serializePriceLevels levels).map Prod.snd = levels.map (fun l => l.orders) := by
  rw [serializePriceLevels, List.map_map]
  refine List.map_congr_left ?_
  intro l hl
  show l.orders.map serializeOrder = l.orders
  have hser : ∀ o ∈ l.orders, serializeOrder o = o := by
    intro o ho
    exact serializeOrder_eq o (List.all_eq_true.mp (h l hl) o ho)
  exact (List.map_congr_left hser).trans (List.map_id l.orders)

theorem stops_serialize_eq (stops : List (String × List Order))
    (h : stops.all (fun sl => sl.2.all serRoundTrips) = true) :
    stops.map (fun sl => (sl.1, sl.2.map serializeOrder)) = stops := by
  induction stops with
  | nil => rfl
  | cons sl rest ih =>
    rw [List.all_cons, Bool.and_eq_true] at h
    rw [List.map_cons, ih h.2]
    have hser : ∀ o ∈ sl.2, serializeOrder o = o := by
      intro o ho
      exact serializeOrder_eq o (List.all_eq_true.mp h.1 o ho)
    have : sl.2.map serializeOrder = sl.2 :=
      (List.map_congr_left hser).trans (List.map_id sl.2)
    rw [this]

theorem lookup_map_keyed {β γ : Type} (f : String → β → γ) :
    ∀ (l : List (String × β)) (k : String),
      (l.map (fun kv => (kv.1, f kv.1 kv.2))).lookup k = (l.lookup k).map (f k)
  | [], _ => rfl
  | (k', v') :: rest, k => by
    rw [List.map_cons]
    by_cases hk : (k == k') = true
    · simp only [List.lookup, hk]
      rw [show k = k' from eq_of_beq hk]
      rfl
    · have hk2 : (k == k') = false := eq_false_of_ne_true hk
      simp only [List.lookup, hk2]
      exact lookup_map_keyed f rest k

theorem loadOrderBook_queue (s : String) (b : OrderBook) (hwf : bookSnapshotWF b = true)
    (side : Side) (q : ℚ) :
    levelQueue (sideLevels (loadOrderBook s
        { bids := serializePriceLevels b.bids, asks := serializePriceLevels b.asks }) side) q
      = levelQueue (sideLevels b side) q := by
  rw [bookSnapshotWF] at hwf
  simp only [Bool.and_eq_true] at hwf
  obtain ⟨⟨⟨hnb, hna⟩, hball⟩, haall⟩ := hwf
  have hbP : ∀ l ∈ b.bids, levelOrdersConsistent Side.buy l = true ∧
      tsNonDecreasing l.orders = true ∧ l.orders.all serRoundTrips = true := by
    intro l hl
    have hx := List.all_eq_true.mp hball l hl
    simp only [Bool.and_eq_true] at hx
    exact ⟨hx.1.1, hx.1.2, hx.2⟩
  have haP : ∀ l ∈ b.asks, levelOrdersConsistent Side.sell l = true ∧
      tsNonDecreasing l.orders = true ∧ l.orders.all serRoundTrips = true := by
    intro l hl
    have hx := List.all_eq_true.mp haall l hl
    simp only [Bool.and_eq_true] at hx
    exact ⟨hx.1.1, hx.1.2, hx.2⟩
  have hLb : (serializePriceLevels b.bids).map Prod.snd = b.bids.map (fun l => l.orders) :=
    serializePriceLevels_orders b.bids (fun l hl => (hbP l hl).2.2)
  have hLa : (serializePriceLevels b.asks).map Prod.snd = b.asks.map (fun l => l.orders) :=
    serializePriceLevels_orders b.asks (fun l hl => (haP l hl).2.2)
  rw [loadOrderBook]
  dsimp only
  rw [hLb, hLa]
  rw [foldl_addOrder_queue]
  have hempty : levelQueue
      (sideLevels { symbol := s, bids := [], asks := [], order_index := [] } side) q = [] := by
    cases side <;> rfl
  rw [hempty, List.nil_append]
  have hfil : (((b.bids.map (fun l => l.orders)).flatten
      ++ (b.asks.map (fun l => l.orders)).flatten).filter (orderKeyAt side q))
      = levelQueue (sideLevels b side) q := by
    rw [List.filter_append]
    cases side with
    | buy =>
      rw [filter_flatten_orders_self Side.buy q b.bids (fun l hl => (hbP l hl).1) hnb]
      rw [filter_flatten_orders_other Side.buy Side.sell q (by decide) b.asks
        (fun l hl => (haP l hl).1)]
      rw [List.append_nil]
      rfl
    | sell =>
      rw [filter_flatten_orders_other Side.sell Side.buy q (by decide) b.bids
        (fun l hl => (hbP l hl).1)]
      rw [filter_flatten_orders_self Side.sell q b.asks (fun l hl => (haP l hl).1) hna]
      rw [List.nil_append]
      rfl
  have hpw : ((((b.bids.map (fun l => l.orders)).flatten
      ++ (b.asks.map (fun l => l.orders)).flatten)).filter (orderKeyAt side q)).Pairwise
      (fun a b2 => tsLE a b2 = true) := by
    rw [hfil]
    have hallts : ∀ l ∈ sideLevels b side, tsNonDecreasing l.orders = true := by
      cases side with
      | buy => exact fun l hl => (hbP l hl).2.1
      | sell => exact fun l hl => (haP l hl).2.1
    cases hf : (sideLevels b side).find? (fun l => l.price == q) with
    | none =>
      rw [levelQueue, hf]
      exact List.Pairwise.nil
    | some l =>
      rw [levelQueue, hf]
      exact tsNonDecreasing_pairwise l.orders (hallts l (List.mem_of_find?_eq_some hf))
  rw [filter_mergeSort_of_pairwise _ _ hpw, hfil]

/-- C2 (amended): on a well-formed engine state — distinct level prices per
side, resting orders consistent with their side and level price, queues in
timestamp order, and all optional prices surviving the truthiness-guarded
string round-trip — loading the saved snapshot restores an equal state: the
same counters, the same symbols, the same pending-stop lists and per symbol,
side and price the same FIFO queue. -/
theorem snapshot_roundtrip_similar (st : Engine) (hwf : engineSnapshotWF st = true) :
    EngineSimilar (loadEngineState st (saveEngineState st)) st := by
  rw [engineSnapshotWF, Bool.and_eq_true] at hwf
  obtain ⟨hbooks, hstops⟩ := hwf
  have hstopeq : (loadEngineState st (saveEngineState st)).stop_orders = st.stop_orders := by
    show st.stop_orders.map (fun sl => (sl.1, sl.2.map serializeOrder)) = st.stop_orders
    exact stops_serialize_eq st.stop_orders hstops
  have hbookeq : (loadEngineState st (saveEngineState st)).order_books
      = st.order_books.map (fun sb => (sb.1, loadOrderBook sb.1
          { bids := serializePriceLevels sb.2.bids
            asks := serializePriceLevels sb.2.asks })) := by
    show (st.order_books.map (fun sb => (sb.1,
        ({ bids := serializePriceLevels sb.2.bids
           asks := serializePriceLevels sb.2.asks } : BookStateData)))).map
        (fun sb => (sb.1, loadOrderBook sb.1 sb.2)) = _
    rw [List.map_map]
    rfl
  refine ⟨rfl, rfl, ?_, ?_, ?_⟩
  · rw [hbookeq, List.map_map]
    rfl
  · intro s
    rw [hstopeq]
  · intro s side p
    rw [Engine.queueAt, Engine.queueAt, hbookeq]
    rw [lookup_map_keyed (fun k b2 => loadOrderBook k
      { bids := serializePriceLevels b2.bids
        asks := serializePriceLevels b2.asks }) st.order_books s]
    cases hb : st.order_books.lookup s with
    | none => rfl
    | some b =>
      have hwfb : bookSnapshotWF b = true :=
        List.all_eq_true.mp hbooks (s, b) (mem_lookup_assoc st.order_books s b hb)
      exact loadOrderBook_queue s b hwfb side p

/-- C2 counterexample: the snapshot round-trip is not the identity.
`load_engine_state` sorts the collected orders by wall-clock timestamp before
replaying them, so a FIFO queue whose admission order disagrees with its
timestamps comes back reordered: the queue [A (ts 5), B (ts 2)] at bid 100
reloads as [B, A]. -/
theorem snapshot_roundtrip_not_identity :
    (loadEngineState c2Engine (saveEngineState c2Engine)).queueAt "A-B" Side.buy 100
      ≠ c2Engine.queueAt "A-B" Side.buy 100 := by
  have hq : (loadEngineState c2Engine (saveEngineState c2Engine)).queueAt "A-B" Side.buy 100
      = levelQueue ((([c2A, c2B].mergeSort tsLE).foldl
          (fun (b : OrderBook) (o : Order) => b.addOrder o)
          ({ symbol := "A-B", bids := [], asks := [], order_index := [] } : OrderBook)).bids)
          100 := rfl
  rw [hq, mergeSort_pair_of_not c2A c2B (by decide)]
  decide

/-- Witness for the amended C2 at a concrete input. -/
theorem snapshot_roundtrip_similar_witness :
    engineSnapshotWF c2WEngine = true ∧
    EngineSimilar (loadEngineState c2WEngine (saveEngineState c2WEngine)) c2WEngine :=
  ⟨by decide, snapshot_roundtrip_similar c2WEngine (by decide)⟩

/-- C3 counterexample: a market order that receives no fill (empty opposite
side) is returned with status `new`, not `cancelled` — `process_order` never
copies the cancelled state of the order object into the result's status when
no trade executed, refuting the claim that such an order's returned status is
`filled`, `partial` or `cancelled`. The order object itself is cancelled and
the remainder does not rest. -/
theorem market_order_no_fill_result_status :
    (c3xEngine.processOrder c3xOrder).1.trades = [] ∧
    (c3xEngine.processOrder c3xOrder).1.remaining_quantity = c3xOrder.quantity ∧
    (c3xEngine.processOrder c3xOrder).1.status = "new" ∧
    ¬ (c3xEngine.processOrder c3xOrder).1.status = "cancelled" ∧
    ¬ (c3xEngine.processOrder c3xOrder).1.status = "partial" ∧
    ¬ (c3xEngine.processOrder c3xOrder).1.status = "filled" ∧
    (c3xEngine.processOrder c3xOrder).2.1.status = OrderStatus.cancelled := by
  rw [processOrder_match_eq c3xEngine c3xOrder
    { symbol := "A-B", bids := [], asks := [], order_index := [] }
    (by decide) (by decide) (by decide)]
  dsimp only
  decide

/-- C3 (amended): a market order is matched greedily against the opposite
side in best-price-first order until its remaining quantity reaches 0 or the
opposite side is exhausted; the fill is conserved (traded quantity equals
quantity minus the returned remainder); the returned status is `filled` on a
full fill, `partial` on a proper partial fill, and `new` — not `cancelled` —
on no fill; the order object is marked cancelled whenever a remainder is
left, and the remainder never rests on any book. -/
theorem market_order_greedy_status (st : Engine) (order : Order) (book : OrderBook)
    (hb : st.order_books.lookup order.symbol = some book)
    (hmkt : order.order_type = OrderType.market)
    (hfresh : order.remaining_quantity = order.quantity)
    (hq : 0 < order.quantity)
    (hwf : ∀ l ∈ (if order.side = Side.buy then book.asks else book.bids),
      levelFillWF l = true)
    (hnb : order.order_id ∉ engineBookIds st)
    (hns : order.order_id ∉ engineStopIds st) :
    ((matchPriceLevels st.fees st.trade_id_counter order
        (if order.side = Side.buy then book.asks else book.bids)).taker.remaining_quantity
        = 0 ∨
      (matchPriceLevels st.fees st.trade_id_counter order
        (if order.side = Side.buy then book.asks else book.bids)).levels = []) ∧
    sumTradeQty (st.processOrder order).1.trades
      = order.quantity - (st.processOrder order).1.remaining_quantity ∧
    (((st.processOrder order).1.remaining_quantity = 0 ∧
        (st.processOrder order).1.status = "filled") ∨
      (0 < (st.processOrder order).1.remaining_quantity ∧
        (st.processOrder order).1.remaining_quantity < order.quantity ∧
        (st.processOrder order).1.status = "partial" ∧
        (st.processOrder order).2.1.status = OrderStatus.cancelled) ∨
      ((st.processOrder order).1.remaining_quantity = order.quantity ∧
        (st.processOrder order).1.status = "new" ∧
        (st.processOrder order).2.1.status = OrderStatus.cancelled)) ∧
    order.order_id ∉ engineBookIds (st.processOrder order).2.2 := by
  have hstop : ¬ (order.order_type = OrderType.stop_loss ∨
      order.order_type = OrderType.stop_limit ∨
      order.order_type = OrderType.take_profit) := by simp [hmkt]
  have hnf : ¬ (order.order_type = OrderType.fok ∧ canFillFok order book = false) := by
    simp [hmkt]
  have hmpos : ∀ l ∈ (if order.side = Side.buy then book.asks else book.bids),
      ∀ m ∈ l.orders, 0 < m.remaining_quantity := by
    intro l hl m hm
    have hwfl := hwf l hl
    rw [levelFillWF, Bool.and_eq_true] at hwfl
    exact of_decide_eq_true (List.all_eq_true.mp hwfl.2 m hm)
  have h0 : 0 ≤ order.remaining_quantity := by rw [hfresh]; exact hq.le
  have hA := matchPriceLevels_market_exhaust st.fees st.trade_id_counter order
    (if order.side = Side.buy then book.asks else book.bids) hmkt h0
  have hnn := matchPriceLevels_rem_nonneg st.fees st.trade_id_counter order
    (if order.side = Side.buy then book.asks else book.bids) h0
  have hle := matchPriceLevels_rem_le st.fees st.trade_id_counter order
    (if order.side = Side.buy then book.asks else book.bids) hmpos
  have hcons := matchPriceLevels_conservation st.fees st.trade_id_counter order
    (if order.side = Side.buy then book.asks else book.bids)
  rw [hfresh] at hcons
  obtain ⟨hty, -, -, -, hqty, -⟩ := matchPriceLevels_core st.fees st.trade_id_counter order
    (if order.side = Side.buy then book.asks else book.bids)
  have hnl : ¬ (matchPriceLevels st.fees st.trade_id_counter order
      (if order.side = Side.buy then book.asks else book.bids)).taker.order_type
      = OrderType.limit := by
    rw [hty, hmkt]
    exact fun h => OrderType.noConfusion h
  have hD : order.order_id ∉ engineBookIds
      (matchOrderF (st.cascadeFuel order.symbol) st order).2.2 := by
    intro hmem
    rcases ((cascade_ids_all (st.cascadeFuel order.symbol)).2.1 st order order.order_id).1
      hmem with h | h
    · exact hnb h
    · exact hns h
  by_cases hpos : 0 < (matchPriceLevels st.fees st.trade_id_counter order
      (if order.side = Side.buy then book.asks else book.bids)).taker.remaining_quantity
  · have hnf2 : ¬ ((matchPriceLevels st.fees st.trade_id_counter order
        (if order.side = Side.buy then book.asks else book.bids)).taker.isFilled = true) := by
      rw [Order.isFilled, beq_iff_eq]
      exact ne_of_gt hpos
    rw [processOrder_match_eq st order book hb hstop hnf]
    dsimp only
    rw [if_pos hpos, if_neg hnl]
    refine ⟨hA, hcons, ?_, hD⟩
    by_cases hlt : (matchPriceLevels st.fees st.trade_id_counter order
        (if order.side = Side.buy then book.asks else book.bids)).taker.remaining_quantity
        < (matchPriceLevels st.fees st.trade_id_counter order
          (if order.side = Side.buy then book.asks else book.bids)).taker.quantity
    · refine Or.inr (Or.inl ⟨hpos, ?_, ?_, rfl⟩)
      · rw [← hqty]
        exact hlt
      · rw [if_neg hnf2, if_pos hlt]
    · have hge := le_of_not_lt hlt
      rw [hqty] at hge
      have heq : (matchPriceLevels st.fees st.trade_id_counter order
          (if order.side = Side.buy then book.asks else book.bids)).taker.remaining_quantity
          = order.quantity := by
        have h1 : (matchPriceLevels st.fees st.trade_id_counter order
            (if order.side = Side.buy then book.asks
             else book.bids)).taker.remaining_quantity ≤ order.quantity := by
          rw [← hfresh]
          exact hle
        exact le_antisymm h1 hge
      refine Or.inr (Or.inr ⟨heq, ?_, rfl⟩)
      rw [if_neg hnf2, if_neg hlt]
  · have hrz : (matchPriceLevels st.fees st.trade_id_counter order
        (if order.side = Side.buy then book.asks else book.bids)).taker.remaining_quantity
        = 0 := le_antisymm (le_of_not_lt hpos) hnn
    have hf2 : (matchPriceLevels st.fees st.trade_id_counter order
        (if order.side = Side.buy then book.asks else book.bids)).taker.isFilled = true := by
      rw [Order.isFilled, beq_iff_eq]
      exact hrz
    rw [processOrder_match_eq st order book hb hstop hnf]
    dsimp only
    rw [if_neg hpos]
    refine ⟨hA, hcons, Or.inl ⟨hrz, ?_⟩, hD⟩
    rw [if_pos hf2]

/-- Witness for the amended C3 at a concrete input (a proper partial fill). -/
theorem market_order_greedy_status_witness :
    (c3Engine.order_books.lookup c3Order.symbol = some c3Book ∧
     c3Order.order_type = OrderType.market ∧
     c3Order.remaining_quantity = c3Order.quantity ∧
     0 < c3Order.quantity ∧
     (∀ l ∈ (if c3Order.side = Side.buy then c3Book.asks else c3Book.bids),
       levelFillWF l = true) ∧
     c3Order.order_id ∉ engineBookIds c3Engine ∧
     c3Order.order_id ∉ engineStopIds c3Engine) ∧
    (((matchPriceLevels c3Engine.fees c3Engine.trade_id_counter c3Order
        (if c3Order.side = Side.buy then c3Book.asks
         else c3Book.bids)).taker.remaining_quantity = 0 ∨
      (matchPriceLevels c3Engine.fees c3Engine.trade_id_counter c3Order
        (if c3Order.side = Side.buy then c3Book.asks else c3Book.bids)).levels = []) ∧
     sumTradeQty (c3Engine.processOrder c3Order).1.trades
       = c3Order.quantity - (c3Engine.processOrder c3Order).1.remaining_quantity ∧
     (((c3Engine.processOrder c3Order).1.remaining_quantity = 0 ∧
         (c3Engine.processOrder c3Order).1.status = "filled") ∨
       (0 < (c3Engine.processOrder c3Order).1.remaining_quantity ∧
         (c3Engine.processOrder c3Order).1.remaining_quantity < c3Order.quantity ∧
         (c3Engine.processOrder c3Order).1.status = "partial" ∧
         (c3Engine.processOrder c3Order).2.1.status = OrderStatus.cancelled) ∨
       ((c3Engine.processOrder c3Order).1.remaining_quantity = c3Order.quantity ∧
         (c3Engine.processOrder c3Order).1.status = "new" ∧
         (c3Engine.processOrder c3Order).2.1.status = OrderStatus.cancelled)) ∧
     c3Order.order_id ∉ engineBookIds (c3Engine.processOrder c3Order).2.2) :=
  ⟨⟨by decide, by decide, by decide, by decide, by decide, by decide, by decide⟩,
    market_order_greedy_status c3Engine c3Order c3Book (by decide) (by decide) (by decide)
      (by decide) (by decide) (by decide) (by decide)⟩

/-- C7 refuted (code bug): a single `process_order` call can leave a crossed
book. The incoming limit buy fills the 100 ask; the resulting trade triggers
the pending stop-limit buy (stop 100, limit 120), which fills the 110 ask;
that nested trade triggers the pending take-profit sell (stop 110, limit 90),
which finds the empty bid side and rests at ask 90 — after which the
stop-limit buy's remainder rests at bid 120. The final book has best bid 120
above best ask 90. -/
theorem never_crossed_book_violated :
    engineCrossedAt (c7Engine.processOrder c7Order).2.2 "A-B" = true := by
  rw [processOrder_match_eq c7Engine c7Order c7Book (by decide) (by decide) (by decide)]
  dsimp only
  rw [if_neg (by decide)]
  dsimp only
  have hfuel : c7Engine.cascadeFuel c7Order.symbol = 3 + 1 := by decide
  rw [hfuel]
  rw [matchOrderF_stop_step (3 + 1) c7Engine c7Order 100 (by decide)]
  rw [checkStopOrdersF_succ_some 3 (c7Engine.matchOrderCore c7Order).2.2 c7Order.symbol 100
    [c7T, c7S] (by decide)]
  rw [show (scanStops 100 [c7T, c7S] [c7T, c7S]).1 = [c7Ttrig] from by decide]
  rw [processTriggeredF_cons, processTriggeredF_nil]
  simp only [matchOrderF_taker_eq]
  split
  case isFalse h => exact absurd (by decide) h
  case isTrue h =>
  clear h
  set stX := (((c7Engine.matchOrderCore c7Order).2.2.setStops c7Order.symbol
    (scanStops 100 [c7T, c7S] [c7T, c7S]).2).getOrCreateOrderBook
    (convertTriggered c7Ttrig).symbol).2 with hstX
  rw [matchOrderF_stop_step 3 stX (convertTriggered c7Ttrig) 110 (by decide)]
  rw [show (3 : Nat) = 2 + 1 from rfl]
  rw [checkStopOrdersF_succ_some 2 (stX.matchOrderCore (convertTriggered c7Ttrig)).2.2
    (convertTriggered c7Ttrig).symbol 110 [c7S] (by decide)]
  rw [show (scanStops 110 [c7S] [c7S]).1 = [c7Strig] from by decide]
  rw [processTriggeredF_cons, processTriggeredF_nil]
  simp only [matchOrderF_taker_eq]
  split
  case isFalse h2 => exact absurd (by decide) h2
  case isTrue h2 =>
  clear h2
  set stY := (((stX.matchOrderCore (convertTriggered c7Ttrig)).2.2.setStops
    (convertTriggered c7Ttrig).symbol (scanStops 110 [c7S] [c7S]).2).getOrCreateOrderBook
    (convertTriggered c7Strig).symbol).2 with hstY
  rw [matchOrderF_no_trade 2 stY (convertTriggered c7Strig) (by decide)]
  decide

end Goquant
